import Mathlib

/-!
# StorageSystemPartsBase: the predicate-pushdown enumeration stream

A shallow embedding of `src/Storages/System/StorageSystemPartsBase.cpp`:

* `StorageSystemPartsBase.hasStateColumn` (lines 28-46),
* `StoragesInfo.getParts` (lines 48-62),
* the constructor `StoragesInfoStream::StoragesInfoStream` (lines 64-163), as
  `StoragesInfoStream.ctor`,
* `StoragesInfoStream.next` (lines 165-220),
* `StorageSystemPartsBase.read` (lines 222-257) and its driving loop (lines 241-244).

Mutable locals become accumulators that are passed along, C++ exceptions
become the error side of `Except`, and the calls made on collaborators whose
code lives outside this file (the catalog, the access oracle, the predicate
engine, the storage engine, the table lock) are either parameters or
definitions modelled from the specification, each marked as such.
-/

set_option autoImplicit false

namespace DB

/-! ## Errors -/

namespace ErrorCodes

/-- Modelled from the spec: the error codes are only declared in the source (a
`const int` without a value) and defined elsewhere.  The spec only asks that "table is dropped" be a
specific, distinguishable failure condition; the numbers are the ones of the
error-code table of the repository. -/
def LOGICAL_ERROR : Int := 49

/-- Modelled from the spec: see `LOGICAL_ERROR`. -/
def TABLE_IS_DROPPED : Int := 218

end ErrorCodes

/-- The class `DB::Exception`: a message and an error code (`e.code()`). -/
structure Exception where
  message : String
  code : Int
deriving DecidableEq, Repr

/-- What a call can throw: a `DB::Exception`, or the `std::out_of_range` raised by
`std::map::at` on a missing key. -/
inductive Thrown where
  | exception (e : Exception)
  | out_of_range
deriving DecidableEq, Repr

/-! ## The storage engine -/

/-- Modelled from the spec: the declaration of `MergeTreeData::DataPartState` is not
part of the source file.  The spec names the "active/committed" state, the
"outdated/historical" state and transient states of partitions that are being
created or removed. -/
inductive DataPartState where
  | Temporary
  | PreCommitted
  | Committed
  | Outdated
  | Deleting
  | DeleteOnDestroy
deriving DecidableEq, Repr

/-- Every state a part can be reported in. -/
def DataPartState.all : List DataPartState :=
  [.Temporary, .PreCommitted, .Committed, .Outdated, .Deleting, .DeleteOnDestroy]

/-- A data part as far as the enumeration is concerned: its name and its state. -/
structure DataPart where
  name : String
  state : DataPartState
deriving DecidableEq, Repr

/-- The `MergeTreeData` object behind a table: the parts it holds, in the order the
storage engine lists them. -/
structure MergeTreeData where
  parts : List DataPart
deriving DecidableEq, Repr

/-- Modelled from the spec: `MergeTreeData::getDataPartsVector(affordable_states, &out_states)`
is not part of the source file.  Per the spec the storage engine "is given the
selected state set and returns the matching partitions plus, per partition,
which state it was found in". -/
def MergeTreeData.getDataPartsVector (data : MergeTreeData)
    (affordable_states : List DataPartState) : List DataPart × List DataPartState :=
  let res := data.parts.filter (fun p => decide (p.state ∈ affordable_states))
  (res, res.map DataPart.state)

/-- Modelled from the spec: `MergeTreeData::getAllDataPartsVector(&out_states)` is not
part of the source file.  It returns the parts in every state the storage
engine can report, with the state of each. -/
def MergeTreeData.getAllDataPartsVector (data : MergeTreeData) :
    List DataPart × List DataPartState :=
  (data.parts, data.parts.map DataPart.state)

/-- The call `StoragesInfo::getParts` makes on the storage engine. -/
inductive PartsCall where
  | getDataPartsVector (affordable_states : List DataPartState)
  | getAllDataPartsVector
deriving DecidableEq, Repr

/-- The partition states a call asks for. -/
def PartsCall.states : PartsCall → List DataPartState
  | .getDataPartsVector affordable_states => affordable_states
  | .getAllDataPartsVector => DataPartState.all

/-- Performs a call on a `MergeTreeData`. -/
def PartsCall.perform (data : MergeTreeData) : PartsCall → List DataPart × List DataPartState
  | .getDataPartsVector affordable_states => data.getDataPartsVector affordable_states
  | .getAllDataPartsVector => data.getAllDataPartsVector

/-! ## The catalog -/

/-- An `IStorage` object as seen through a `StoragePtr`.  The class is declared
outside the source file; the fields are what the source asks of it: the
address identifies the object, `name` is `getName()`, and `merge_tree` is the
outcome of `dynamic_cast<MergeTreeData *>(storage.get())` (`none` for a null
result). -/
structure IStorage where
  address : Nat
  name : String
  merge_tree : Option MergeTreeData
deriving DecidableEq, Repr

/-- An `IDatabase`, declared outside the source file, through the two calls the
source makes on it: `getEngineName()` and the (name, table) pairs that
`getTablesIterator()` walks through, in iteration order. -/
structure IDatabase where
  engine_name : String
  tables : List (String × IStorage)
deriving DecidableEq, Repr

/-- The type `Databases`, a `std::map<String, DatabasePtr>`, as the list of its
entries in iteration order. -/
abbrev Databases := List (String × IDatabase)

/-- The method `std::map::at` on `Databases`: `none` stands for `std::out_of_range`. -/
def Databases.at (databases : Databases) (database_name : String) : Option IDatabase :=
  databases.lookup database_name

/-- The member `storages`, a `std::map<std::pair<String, String>, StoragePtr>`. -/
abbrev Storages := List ((String × String) × IStorage)

/-- The assignment `storages[key] = storage`: the new binding shadows an older one
for the same key. -/
def Storages.set (storages : Storages) (key : String × String) (storage : IStorage) : Storages :=
  (key, storage) :: storages

/-- The method `std::map::at` on `storages`: `none` stands for `std::out_of_range`. -/
def Storages.at (storages : Storages) (key : String × String) : Option IStorage :=
  storages.lookup key

/-! ## Query context -/

/-- The settings the stream reads. -/
structure Settings where
  lock_acquire_timeout : Nat
deriving DecidableEq, Repr

/-- The parts of `Context` (and of the global `DatabaseCatalog`) the constructor
reads: the query id, the settings, the two forms of
`access->isGranted(AccessType::SHOW_TABLES ...)` and the catalog snapshot
returned by `DatabaseCatalog::instance().getDatabases()`. -/
structure Context where
  current_query_id : String
  settings : Settings
  show_tables_granted : Bool
  show_tables_granted_on : String → String → Bool
  databases : Databases

/-- Modelled from the spec: the predicate engine behind
`VirtualColumnUtils::filterBlockWithQuery` is not part of the source file.  The
spec treats it as a stateless, deterministic filter of a batch.  On a batch
that only has the `database` column it applies the database-only predicate, on
a batch with the columns `database`, `table`, `engine`, `active` the full one. -/
structure SelectQueryInfo where
  database_only : String → Bool
  full : String → String → String → Nat → Bool

/-- The block `block_to_filter` once the columns `table`, `engine` and `active`
have been inserted after `database`. -/
structure Block where
  database : List String
  table : List String
  engine : List String
  active : List Nat
deriving DecidableEq, Repr

/-- The rows of a block, each as (database, table, engine, active). -/
def Block.toRows (block : Block) : List (String × String × String × Nat) :=
  List.zip block.database (List.zip block.table (List.zip block.engine block.active))

/-- The method `Block::rows()`: the number of rows of the block. -/
def Block.rows (block : Block) : Nat :=
  block.toRows.length

namespace VirtualColumnUtils

/-- Modelled from the spec: `filterBlockWithQuery` on the block that only holds the
column `database` (line 95). -/
def filterDatabaseColumn (query : SelectQueryInfo) (database_column : List String) :
    List String :=
  database_column.filter query.database_only

/-- Modelled from the spec: `filterBlockWithQuery` on the block with the columns
`database`, `table`, `engine`, `active` (line 154): the rows on which the
predicate holds are kept, in order. -/
def filterBlockWithQuery (query : SelectQueryInfo) (block : Block) : Block :=
  let kept := block.toRows.filter (fun r => query.full r.1 r.2.1 r.2.2.1 r.2.2.2)
  { database := kept.map (fun r => r.1)
    table := kept.map (fun r => r.2.1)
    engine := kept.map (fun r => r.2.2.1)
    active := kept.map (fun r => r.2.2.2) }

end VirtualColumnUtils

namespace IColumn

/-- Modelled from the spec: `IColumn::replicate(offsets)` is not part of the source
file.  Row `i` of the column is repeated `offsets[i] - offsets[i - 1]` times
(`offsets[-1]` being 0), so that a database with N tables yields 2N rows "at
the position originally occupied by that one database row". -/
def replicateFrom : Nat → List String → List Nat → List String
  | _, [], _ => []
  | _, _ :: _, [] => []
  | prev, value :: values, offset :: offsets =>
      List.replicate (offset - prev) value ++ replicateFrom offset values offsets

/-- Modelled from the spec: see `replicateFrom`. -/
def replicate (column : List String) (offsets : List Nat) : List String :=
  replicateFrom 0 column offsets

end IColumn

/-! ## StorageSystemPartsBase::hasStateColumn -/

namespace StorageSystemPartsBase

/-- The loop of lines 33-39: one step on the pair
(`has_state_column`, `real_column_names`). -/
def hasStateColumnStep (acc : Bool × List String) (column_name : String) :
    Bool × List String :=
  if column_name = "_state" then (true, acc.2) else (acc.1, acc.2 ++ [column_name])

/-- The function `StorageSystemPartsBase::hasStateColumn`.  The call
`metadata->check(real_column_names, virtuals)` is the parameter `check`, which
either returns or throws. -/
def hasStateColumn (check : List String → Except Exception Unit)
    (column_names : List String) : Except Exception Bool :=
  let acc := column_names.foldl hasStateColumnStep (false, [])
  let has_state_column := acc.1
  let real_column_names := acc.2
  if !(has_state_column && real_column_names.isEmpty) then
    match check real_column_names with
    | .error e => .error e
    | .ok _ => .ok has_state_column
  else
    .ok has_state_column

end StorageSystemPartsBase

/-! ## StoragesInfo -/

/-- The holder returned by a successful `lockStructureForShare`. -/
structure TableStructureReadLockHolder where
  token : Nat
deriving DecidableEq, Repr

/-- A `StoragesInfo` that tests true (`storage != nullptr`): the descriptor of one
table, with the members `next` assigns.  The default-constructed value
returned at end of stream is the `none` of `Option StoragesInfo`. -/
structure StoragesInfo where
  storage : IStorage
  table_lock : TableStructureReadLockHolder
  database : String
  table : String
  engine : String
  need_inactive_parts : Bool
  data : MergeTreeData
deriving DecidableEq, Repr

/-- The branch structure of `StoragesInfo::getParts` (lines 52-61): which call is
made on `data`. -/
def StoragesInfo.getPartsCall (need_inactive_parts has_state_column : Bool) : PartsCall :=
  if need_inactive_parts then
    if !has_state_column then
      .getDataPartsVector [.Committed, .Outdated]
    else
      .getAllDataPartsVector
  else
    .getDataPartsVector [.Committed]

/-- The function `StoragesInfo::getParts`: the parts, and the vector `state` it fills. -/
def StoragesInfo.getParts (info : StoragesInfo) (has_state_column : Bool) :
    List DataPart × List DataPartState :=
  (StoragesInfo.getPartsCall info.need_inactive_parts has_state_column).perform info.data

/-! ## StoragesInfoStream -/

/-- The members of `StoragesInfoStream` that the constructor sets and `next` reads. -/
structure StoragesInfoStream where
  query_id : String
  settings : Settings
  database_column : List String
  table_column : List String
  active_column : List Nat
  rows : Nat
  next_row : Nat
  storages : Storages
deriving DecidableEq, Repr

/-- The locals the table loop of the constructor writes to. -/
structure Candidates where
  storages : Storages
  table_column : List String
  engine_column : List String
  active_column : List Nat
deriving DecidableEq, Repr

/-- The loop `for (UInt64 active : {0, 1})` of lines 128-133: one iteration. -/
def addActiveRow (table_name engine_name : String) (c : Candidates) (active : Nat) :
    Candidates :=
  { c with
    table_column := c.table_column ++ [table_name]
    engine_column := c.engine_column ++ [engine_name]
    active_column := c.active_column ++ [active] }

/-- The body of the table loop (lines 115-135) on the pair of the locals and
`offsets[i]`. -/
def addTable (context : Context) (check_access_for_tables : Bool) (database_name : String)
    (acc : Candidates × Nat) (entry : String × IStorage) : Candidates × Nat :=
  let table_name := entry.1
  let storage := entry.2
  let engine_name := storage.name
  if storage.merge_tree.isNone then
    acc
  else if check_access_for_tables && !context.show_tables_granted_on database_name table_name then
    acc
  else
    let c := { acc.1 with storages := acc.1.storages.set (database_name, table_name) storage }
    ([0, 1].foldl (addActiveRow table_name engine_name) c, acc.2 + 2)

/-- The loop over the rows of the filtered database column (lines 107-137).  The
argument `offsets` holds `offsets[0 .. i-1]`; `databases.at` may throw. -/
def addDatabases (context : Context) (databases : Databases) (check_access_for_tables : Bool) :
    List String → Candidates → List Nat → Except Thrown (Candidates × List Nat)
  | [], c, offsets => .ok (c, offsets)
  | database_name :: rest, c, offsets =>
      match databases.at database_name with
      | none => .error .out_of_range
      | some database =>
          let start := offsets.getLast?.getD 0
          let acc := database.tables.foldl
            (addTable context check_access_for_tables database_name) (c, start)
          addDatabases context databases check_access_for_tables rest acc.1 (offsets ++ [acc.2])

/-- The locals of the constructor when line 149 is reached: `rows` as set by the
first filter phase (line 96), `offsets` (empty when the table loop is not
entered), `storages`, and `block_to_filter` with its four columns. -/
structure Expansion where
  rows : Nat
  offsets : List Nat
  storages : Storages
  block_to_filter : Block
deriving DecidableEq, Repr

/-- Lines 70-149 of the constructor: the first filter phase, the table loop, the
replication of the `database` column and the insertion of the columns
`table`, `engine` and `active`. -/
def StoragesInfoStream.expansion (query_info : SelectQueryInfo) (context : Context) :
    Except Thrown Expansion :=
  let empty : Candidates :=
    { storages := [], table_column := [], engine_column := [], active_column := [] }
  let check_access_for_tables := !context.show_tables_granted
  let databases := context.databases
  let database_column_mut :=
    (databases.filter (fun database => database.2.engine_name != "Lazy")).map (fun d => d.1)
  let database_column_for_filter :=
    VirtualColumnUtils.filterDatabaseColumn query_info database_column_mut
  let rows := database_column_for_filter.length
  if rows != 0 then
    match addDatabases context databases check_access_for_tables
        database_column_for_filter empty [] with
    | .error e => .error e
    | .ok (c, offsets) =>
        .ok
          { rows := rows
            offsets := offsets
            storages := c.storages
            block_to_filter :=
              { database := IColumn.replicate database_column_for_filter offsets
                table := c.table_column
                engine := c.engine_column
                active := c.active_column } }
  else
    .ok
      { rows := rows
        offsets := []
        storages := empty.storages
        block_to_filter :=
          { database := database_column_for_filter
            table := empty.table_column
            engine := empty.engine_column
            active := empty.active_column } }

/-- Lines 151-156 of the constructor: the second filter phase, skipped when the
first one left no row.  It yields `block_to_filter` and `rows`. -/
def Expansion.filter (query_info : SelectQueryInfo) (x : Expansion) : Block × Nat :=
  if x.rows != 0 then
    let block_to_filter := VirtualColumnUtils.filterBlockWithQuery query_info x.block_to_filter
    (block_to_filter, block_to_filter.rows)
  else
    (x.block_to_filter, x.rows)

/-- The constructor `StoragesInfoStream::StoragesInfoStream`. -/
def StoragesInfoStream.ctor (query_info : SelectQueryInfo) (context : Context) :
    Except Thrown StoragesInfoStream :=
  match StoragesInfoStream.expansion query_info context with
  | .error e => .error e
  | .ok x =>
      let filtered := x.filter query_info
      .ok
        { query_id := context.current_query_id
          settings := context.settings
          database_column := filtered.1.database
          table_column := filtered.1.table
          active_column := filtered.1.active
          rows := filtered.2
          next_row := 0
          storages := x.storages }

/-- The lambda `is_same_table` of `next` (lines 174-178). -/
def StoragesInfoStream.is_same_table (s : StoragesInfoStream) (database table : String)
    (row : Nat) : Bool :=
  s.database_column.getD row "" == database && s.table_column.getD row "" == table

/-- The inner `for` loop of `next` (lines 183-188) on the pair
(`next_row`, `info.need_inactive_parts`).  The first argument bounds the
number of iterations; `rows - next_row` is always enough. -/
def StoragesInfoStream.collectRows (s : StoragesInfoStream) (database table : String) :
    Nat → Nat → Bool → Nat × Bool
  | 0, next_row, need_inactive_parts => (next_row, need_inactive_parts)
  | fuel + 1, next_row, need_inactive_parts =>
      if next_row < s.rows && s.is_same_table database table next_row then
        let active := s.active_column.getD next_row 0
        s.collectRows database table fuel (next_row + 1)
          (if active == 0 then true else need_inactive_parts)
      else
        (next_row, need_inactive_parts)

/-- The type of `IStorage::lockStructureForShare(will_add_new_data, query_id, timeout)`:
the holder, or the exception it throws. -/
abbrev LockStructureForShare :=
  IStorage → Bool → String → Nat → Except Exception TableStructureReadLockHolder

/-- How one iteration of the `while` loop of `next` ends: with `continue` (the lock
attempt failed with TABLE_IS_DROPPED), with `return info`, or with an
exception leaving the function. -/
inductive LoopExit where
  | skipped
  | returned (info : StoragesInfo)
  | threw (e : Thrown)
deriving DecidableEq, Repr

/-- The second half of an iteration of the `while` loop of `next` (lines 190-216):
the lookup in `storages`, the lock attempt and the capability check, for the
table (`database`, `table`) whose rows have been collected into
`need_inactive_parts`.  It yields the storages on which
`lockStructureForShare` was called, and how the iteration ends. -/
def StoragesInfoStream.lockTable (lockStructureForShare : LockStructureForShare)
    (s : StoragesInfoStream) (database table : String) (need_inactive_parts : Bool) :
    List IStorage × LoopExit :=
  match s.storages.at (database, table) with
  | none => ([], .threw .out_of_range)
  | some storage =>
      match lockStructureForShare storage false s.query_id s.settings.lock_acquire_timeout with
      | .error e =>
          if e.code = ErrorCodes.TABLE_IS_DROPPED then
            ([storage], .skipped)
          else
            ([storage], .threw (.exception e))
      | .ok table_lock =>
          let engine := storage.name
          match storage.merge_tree with
          | none =>
              ([storage], .threw (.exception
                { message := "Unknown engine " ++ engine, code := ErrorCodes.LOGICAL_ERROR }))
          | some data =>
              ([storage], .returned
                { storage := storage
                  table_lock := table_lock
                  database := database
                  table := table
                  engine := engine
                  need_inactive_parts := need_inactive_parts
                  data := data })

/-- One iteration of the `while` loop of `next` (lines 169-216), entered with
`next_row < rows`: the stream it leaves, the storages on which it called
`lockStructureForShare`, and how it ended. -/
def StoragesInfoStream.iteration (lockStructureForShare : LockStructureForShare)
    (s : StoragesInfoStream) : StoragesInfoStream × List IStorage × LoopExit :=
  let database := s.database_column.getD s.next_row ""
  let table := s.table_column.getD s.next_row ""
  let scanned := s.collectRows database table (s.rows - s.next_row) s.next_row false
  let s := { s with next_row := scanned.1 }
  (s, s.lockTable lockStructureForShare database table scanned.2)

/-- What a call of `next` leaves behind: what it returned or threw (`none` is the
default-constructed `StoragesInfo` of end of stream), the stream after the
call, and the storages on which it called `lockStructureForShare`, in order. -/
structure NextResult where
  outcome : Except Thrown (Option StoragesInfo)
  stream : StoragesInfoStream
  lock_attempts : List IStorage

/-- The `while (next_row < rows)` loop of `next` (lines 167-219).  The first
argument bounds the number of iterations; every iteration moves `next_row`
forward, so `rows - next_row` is always enough. -/
def StoragesInfoStream.nextLoop (lockStructureForShare : LockStructureForShare) :
    Nat → StoragesInfoStream → List IStorage → NextResult
  | 0, s, attempts => { outcome := .ok none, stream := s, lock_attempts := attempts }
  | fuel + 1, s, attempts =>
      if s.next_row < s.rows then
        match s.iteration lockStructureForShare with
        | (s, attempted, .skipped) =>
            StoragesInfoStream.nextLoop lockStructureForShare fuel s (attempts ++ attempted)
        | (s, attempted, .returned info) =>
            { outcome := .ok (some info), stream := s, lock_attempts := attempts ++ attempted }
        | (s, attempted, .threw e) =>
            { outcome := .error e, stream := s, lock_attempts := attempts ++ attempted }
      else
        { outcome := .ok none, stream := s, lock_attempts := attempts }

/-- The function `StoragesInfoStream::next`. -/
def StoragesInfoStream.next (lockStructureForShare : LockStructureForShare)
    (s : StoragesInfoStream) : NextResult :=
  StoragesInfoStream.nextLoop lockStructureForShare (s.rows - s.next_row) s []

/-! ## The driving loop of StorageSystemPartsBase::read -/

/-- What the loop `while (StoragesInfo info = stream.next())` of `read` has seen when
it stops: the descriptors handed to `processNextStorage`, the exception that
ended it (`none` when it ran to end of stream), the stream it leaves, and the
storages whose lock was requested. -/
structure ReadResult where
  infos : List StoragesInfo
  thrown : Option Thrown
  stream : StoragesInfoStream
  lock_attempts : List IStorage

namespace StorageSystemPartsBase

/-- The loop of lines 241-244.  The first argument bounds the number of calls that
return a descriptor; each of them consumes a row, so `rows - next_row` is
always enough. -/
def readLoop (lockStructureForShare : LockStructureForShare) :
    Nat → StoragesInfoStream → ReadResult
  | 0, s =>
      let r := s.next lockStructureForShare
      match r.outcome with
      | .error e =>
          { infos := [], thrown := some e, stream := r.stream, lock_attempts := r.lock_attempts }
      | .ok _ =>
          { infos := [], thrown := none, stream := r.stream, lock_attempts := r.lock_attempts }
  | fuel + 1, s =>
      let r := s.next lockStructureForShare
      match r.outcome with
      | .error e =>
          { infos := [], thrown := some e, stream := r.stream, lock_attempts := r.lock_attempts }
      | .ok none =>
          { infos := [], thrown := none, stream := r.stream, lock_attempts := r.lock_attempts }
      | .ok (some info) =>
          let rest := readLoop lockStructureForShare fuel r.stream
          { rest with
            infos := info :: rest.infos
            lock_attempts := r.lock_attempts ++ rest.lock_attempts }

/-- The enumeration pass of `read`: the stream is driven until `next` returns the
default-constructed `StoragesInfo` or throws. -/
def readAll (lockStructureForShare : LockStructureForShare) (s : StoragesInfoStream) :
    ReadResult :=
  readLoop lockStructureForShare (s.rows - s.next_row) s

end StorageSystemPartsBase

/-! ## StorageSystemPartsBase::read -/

namespace StorageSystemPartsBase

end StorageSystemPartsBase

/-! ## Specification-side definitions -/

/-- Row `i` of the stream: (database, table, active). -/
def StoragesInfoStream.rowAt (s : StoragesInfoStream) (i : Nat) : String × String × Nat :=
  (s.database_column.getD i "", s.table_column.getD i "", s.active_column.getD i 0)

/-- The rows from the cursor `next_row` up to `rows`. -/
def StoragesInfoStream.remaining (s : StoragesInfoStream) : List (String × String × Nat) :=
  (List.range' s.next_row (s.rows - s.next_row)).map s.rowAt

/-- Whether a row belongs to the table (`database`, `table`). -/
def sameTable (database table : String) (r : String × String × Nat) : Bool :=
  r.1 == database && r.2.1 == table

/-- The maximal runs of consecutive rows with the same (database, table), in order. -/
def runs : List (String × String × Nat) → List (List (String × String × Nat))
  | [] => []
  | r :: rest =>
      (r :: rest.takeWhile (sameTable r.1 r.2.1)) ::
        runs (rest.dropWhile (sameTable r.1 r.2.1))
termination_by l => l.length
decreasing_by
  simp only [List.length_cons]
  exact Nat.lt_succ_of_le (List.Sublist.length_le (List.dropWhile_sublist _))

/-- What an enumeration pass amounts to: descriptors, the exception that ended it,
and the lock attempts. -/
structure PassSummary where
  infos : List StoragesInfo
  thrown : Option Thrown
  lock_attempts : List IStorage
deriving DecidableEq, Repr

/-- The enumeration pass told run by run: each run is looked up, locked and checked
by `lockTable`, with `need_inactive_parts` set when the run has a row with
`active = 0`; a dropped table is passed over and an exception ends the pass. -/
def StoragesInfoStream.describeRuns (lockStructureForShare : LockStructureForShare)
    (s : StoragesInfoStream) : List (List (String × String × Nat)) → PassSummary
  | [] => { infos := [], thrown := none, lock_attempts := [] }
  | [] :: rest => s.describeRuns lockStructureForShare rest
  | (r :: run) :: rest =>
      match s.lockTable lockStructureForShare r.1 r.2.1
          ((r :: run).any (fun x => x.2.2 == 0)) with
      | (attempted, .skipped) =>
          let tail := s.describeRuns lockStructureForShare rest
          { tail with lock_attempts := attempted ++ tail.lock_attempts }
      | (attempted, .returned info) =>
          let tail := s.describeRuns lockStructureForShare rest
          { tail with
            infos := info :: tail.infos
            lock_attempts := attempted ++ tail.lock_attempts }
      | (attempted, .threw e) =>
          { infos := [], thrown := some e, lock_attempts := attempted }

/-- The run of rows at the cursor: the rows `next` collects in one iteration. -/
def StoragesInfoStream.currentRun (s : StoragesInfoStream) : List (String × String × Nat) :=
  s.remaining.takeWhile (sameTable (s.rowAt s.next_row).1 (s.rowAt s.next_row).2.1)

/-- The tables of a database for which the constructor registers a storage and
emits two rows: those that pass the `MergeTreeData` cast and the access check. -/
def candidateTables (context : Context) (check_access_for_tables : Bool)
    (database_name : String) (tables : List (String × IStorage)) : List (String × IStorage) :=
  tables.filter (fun entry =>
    !entry.2.merge_tree.isNone
      && !(check_access_for_tables
            && !context.show_tables_granted_on database_name entry.1))

/-- The candidate tables of the database that `databases.at` returns for a name. -/
def tablesOf (context : Context) (databases : Databases) (check_access_for_tables : Bool)
    (database_name : String) : List (String × IStorage) :=
  match databases.at database_name with
  | some database =>
      candidateTables context check_access_for_tables database_name database.tables
  | none => []

/-- The database names that survive the first filter phase (lines 84-99). -/
def survivingDatabases (query_info : SelectQueryInfo) (context : Context) : List String :=
  VirtualColumnUtils.filterDatabaseColumn query_info
    ((context.databases.filter (fun database => database.2.engine_name != "Lazy")).map
      (fun d => d.1))

/-- The two synthetic rows of a table: (database, table, engine, active) with
`active = 0` and then `active = 1`. -/
def syntheticRows (database_name : String) (entry : String × IStorage) :
    List (String × String × String × Nat) :=
  [(database_name, entry.1, entry.2.name, 0), (database_name, entry.1, entry.2.name, 1)]

/-- The (database, table) pairs the constructor registers, each with its storage, in
the order in which their rows are emitted. -/
def candidateKeys (context : Context) (databases : Databases) (check_access_for_tables : Bool)
    (names : List String) : List (String × String × IStorage) :=
  names.flatMap (fun n =>
    (tablesOf context databases check_access_for_tables n).map (fun entry => (n, entry)))

/-- The rows handed to the second filter phase. -/
def candidateRows (context : Context) (databases : Databases) (check_access_for_tables : Bool)
    (names : List String) : List (String × String × String × Nat) :=
  (candidateKeys context databases check_access_for_tables names).flatMap
    (fun k => syntheticRows k.1 k.2)

/-- The values `offsets[i]` the constructor computes, given the value before them. -/
def offsetsFrom (context : Context) (databases : Databases) (check_access_for_tables : Bool) :
    Nat → List String → List Nat
  | _, [] => []
  | start, n :: names =>
      (start + 2 * (tablesOf context databases check_access_for_tables n).length) ::
        offsetsFrom context databases check_access_for_tables
          (start + 2 * (tablesOf context databases check_access_for_tables n).length) names

/-- The catalog invariant that `std::map` keys and table iterators provide: database
names are pairwise distinct, and so are the table names inside a database. -/
def Databases.WellFormed (databases : Databases) : Prop :=
  (databases.map (fun d => d.1)).Nodup
    ∧ ∀ d ∈ databases, (d.2.tables.map (fun entry => entry.1)).Nodup

/-- The rows that survive both filter phases, as (database, table, engine, active). -/
def survivingRows (query_info : SelectQueryInfo) (context : Context) :
    List (String × String × String × Nat) :=
  (candidateRows context context.databases (!context.show_tables_granted)
      (survivingDatabases query_info context)).filter
    (fun r => query_info.full r.1 r.2.1 r.2.2.1 r.2.2.2)

/-- The content of `storages` when the constructor is done. -/
def registeredStorages (query_info : SelectQueryInfo) (context : Context) : Storages :=
  ((candidateKeys context context.databases (!context.show_tables_granted)
      (survivingDatabases query_info context)).map
    (fun k => ((k.1, k.2.1), k.2.2))).reverse

/-- The stream the constructor leaves, told in terms of the surviving rows. -/
def StoragesInfoStream.built (query_info : SelectQueryInfo) (context : Context) :
    StoragesInfoStream :=
  { query_id := context.current_query_id
    settings := context.settings
    database_column := (survivingRows query_info context).map (fun r => r.1)
    table_column := (survivingRows query_info context).map (fun r => r.2.1)
    active_column := (survivingRows query_info context).map (fun r => r.2.2.2)
    rows := (survivingRows query_info context).length
    next_row := 0
    storages := registeredStorages query_info context }

/-- The locals of the constructor at line 149, told in terms of the candidate
tables. -/
def Expansion.built (query_info : SelectQueryInfo) (context : Context) : Expansion :=
  { rows := (survivingDatabases query_info context).length
    offsets := offsetsFrom context context.databases (!context.show_tables_granted) 0
      (survivingDatabases query_info context)
    storages := registeredStorages query_info context
    block_to_filter :=
      { database := (candidateKeys context context.databases (!context.show_tables_granted)
          (survivingDatabases query_info context)).flatMap (fun k => [k.1, k.1])
        table := (candidateKeys context context.databases (!context.show_tables_granted)
          (survivingDatabases query_info context)).flatMap (fun k => [k.2.1, k.2.1])
        engine := (candidateKeys context context.databases (!context.show_tables_granted)
          (survivingDatabases query_info context)).flatMap (fun k => [k.2.2.name, k.2.2.name])
        active := (candidateKeys context context.databases (!context.show_tables_granted)
          (survivingDatabases query_info context)).flatMap (fun _ => [0, 1]) } }

/-- The rows of one candidate table that survive the second filter phase, as
(database, table, active). -/
def survivingGroup (query_info : SelectQueryInfo) (k : String × String × IStorage) :
    List (String × String × Nat) :=
  ((syntheticRows k.1 k.2).filter (fun r => query_info.full r.1 r.2.1 r.2.2.1 r.2.2.2)).map
    (fun r => (r.1, r.2.1, r.2.2.2))

/-- Both synthetic rows of a candidate table, as (database, table, active). -/
def bothRows (k : String × String × IStorage) : List (String × String × Nat) :=
  [(k.1, k.2.1, 0), (k.1, k.2.1, 1)]

instance (databases : Databases) : Decidable databases.WellFormed := by
  unfold Databases.WellFormed
  infer_instance

/-! ## A concrete catalog

The catalog of the end-to-end scenarios of the specification: a database `d1`
with a MergeTree table `t1` that holds three Committed parts and one Outdated
part, and a table `t2` of another engine family. -/

namespace Scenario

/-- The `MergeTreeData` of `d1.t1`: three Committed parts and one Outdated part. -/
def t1Data : MergeTreeData :=
  { parts :=
      [{ name := "all_1_1_0", state := .Committed },
       { name := "all_2_2_0", state := .Committed },
       { name := "all_3_3_0", state := .Committed },
       { name := "all_0_0_0", state := .Outdated }] }

/-- The storage of `d1.t1`. -/
def t1 : IStorage := { address := 1, name := "MergeTree", merge_tree := some t1Data }

/-- The storage of `d1.t2`, which is not a `MergeTreeData`. -/
def t2 : IStorage := { address := 2, name := "Log", merge_tree := none }

/-- The catalog: the database `d1` with the tables `t1` and `t2`. -/
def databases : Databases :=
  [("d1", { engine_name := "Ordinary", tables := [("t1", t1), ("t2", t2)] })]

/-- A query context over the catalog, with the global SHOW_TABLES grant. -/
def context : Context :=
  { current_query_id := "query-1"
    settings := { lock_acquire_timeout := 120 }
    show_tables_granted := true
    show_tables_granted_on := fun _ _ => true
    databases := databases }

/-- A query context whose only database has the engine "Lazy". -/
def lazyContext : Context :=
  { context with databases := [("lazy", { engine_name := "Lazy", tables := [("t1", t1)] })] }

/-- The predicate `table = 't1'`, which does not mention `active`. -/
def tableIsT1 : SelectQueryInfo :=
  { database_only := fun _ => true, full := fun _ table _ _ => table == "t1" }

/-- The predicate `active = 1`. -/
def activeOnly : SelectQueryInfo :=
  { database_only := fun _ => true, full := fun _ _ _ active => active == 1 }

/-- The locals of the constructor at line 149 for either predicate. -/
def expansion : Expansion :=
  { rows := 1
    offsets := [2]
    storages := [(("d1", "t1"), t1)]
    block_to_filter :=
      { database := ["d1", "d1"]
        table := ["t1", "t1"]
        engine := ["MergeTree", "MergeTree"]
        active := [0, 1] } }

/-- The stream the constructor builds for `table = 't1'`. -/
def streamA : StoragesInfoStream :=
  { query_id := "query-1"
    settings := { lock_acquire_timeout := 120 }
    database_column := ["d1", "d1"]
    table_column := ["t1", "t1"]
    active_column := [0, 1]
    rows := 2
    next_row := 0
    storages := [(("d1", "t1"), t1)] }

/-- The stream the constructor builds for `active = 1`. -/
def streamB : StoragesInfoStream :=
  { streamA with database_column := ["d1"], table_column := ["t1"], active_column := [1],
                 rows := 1 }

/-- Every lock attempt succeeds. -/
def lockGranted : LockStructureForShare :=
  fun storage _ _ _ => .ok { token := storage.address }

/-- The tables that are dropped before their lock is taken: `d1.t1`. -/
def dropped : IStorage → Bool :=
  fun storage => storage.address == 1

/-- The lock attempt on a dropped table fails with TABLE_IS_DROPPED. -/
def lockDropped : LockStructureForShare :=
  fun storage will_add_new_data query_id timeout =>
    if dropped storage then
      .error { message := "Table is dropped", code := ErrorCodes.TABLE_IS_DROPPED }
    else
      lockGranted storage will_add_new_data query_id timeout

/-- The exception of a lock that is not obtained in time. -/
def timeout : Exception :=
  { message := "Locking attempt has timed out", code := 473 }

/-- Every lock attempt times out. -/
def lockTimeout : LockStructureForShare :=
  fun _ _ _ _ => .error timeout

/-- The descriptor of `d1.t1` for the predicate `table = 't1'`. -/
def infoA : StoragesInfo :=
  { storage := t1
    table_lock := { token := 1 }
    database := "d1"
    table := "t1"
    engine := "MergeTree"
    need_inactive_parts := true
    data := t1Data }

/-- The descriptor of `d1.t1` for the predicate `active = 1`. -/
def infoB : StoragesInfo :=
  { infoA with need_inactive_parts := false }

end Scenario

/-- Successive calls of `next`, each on the stream the call before left, whatever
that call returned or threw. -/
def StoragesInfoStream.calls (lockStructureForShare : LockStructureForShare) :
    Nat → StoragesInfoStream → List NextResult
  | 0, _ => []
  | n + 1, s =>
      s.next lockStructureForShare ::
        StoragesInfoStream.calls lockStructureForShare n (s.next lockStructureForShare).stream

/-- The (database, table) pair of a run: that of its first row. -/
def runKey (run : List (String × String × Nat)) : String × String :=
  ((run.headD ("", "", 0)).1, (run.headD ("", "", 0)).2.1)

/-- The storage registered in `storages` for the table of a run. -/
def StoragesInfoStream.storageOfRun (s : StoragesInfoStream)
    (run : List (String × String × Nat)) : Option IStorage :=
  s.storages.at (runKey run)

/-- Whether the lock attempt for the table of a run succeeds: the table is
registered and `lockStructureForShare` returns a holder for its storage. -/
def StoragesInfoStream.lockGranted (lockStructureForShare : LockStructureForShare)
    (s : StoragesInfoStream) (run : List (String × String × Nat)) : Bool :=
  match s.storageOfRun run with
  | none => false
  | some storage =>
      match lockStructureForShare storage false s.query_id s.settings.lock_acquire_timeout with
      | .ok _ => true
      | .error _ => false

namespace Scenario

end Scenario

namespace Scenario

/-- A query context with the global SHOW_TABLES grant whose per-table check
answers no for every table. -/
def globalOnlyContext : Context :=
  { context with show_tables_granted := true, show_tables_granted_on := fun _ _ => false }

/-- A query context without the global SHOW_TABLES grant whose per-table check
answers yes for `t1` only. -/
def perTableContext : Context :=
  { context with show_tables_granted := false
                 show_tables_granted_on := fun _ table => table == "t1" }

/-- A query context without the global SHOW_TABLES grant whose per-table check
answers no for `t1`. -/
def deniedContext : Context :=
  { context with show_tables_granted := false
                 show_tables_granted_on := fun _ table => table != "t1" }

/-- The locals of the constructor at line 149 when `d1.t1` is denied: the database
`d1` has an offset and no row. -/
def deniedExpansion : Expansion :=
  { rows := 1
    offsets := [0]
    storages := []
    block_to_filter := { database := [], table := [], engine := [], active := [] } }

/-- The stream the constructor builds when `d1.t1` is denied: no row. -/
def deniedStream : StoragesInfoStream :=
  { query_id := "query-1"
    settings := { lock_acquire_timeout := 120 }
    database_column := []
    table_column := []
    active_column := []
    rows := 0
    next_row := 0
    storages := [] }

end Scenario

/-! ## Theorems: the state selector -/

theorem mem_getDataPartsVector (data : MergeTreeData) (states : List DataPartState)
    (p : DataPart) :
    p ∈ (data.getDataPartsVector states).1 ↔ p ∈ data.parts ∧ p.state ∈ states := by
  simp [MergeTreeData.getDataPartsVector]

theorem mem_all_states (st : DataPartState) : st ∈ DataPartState.all := by
  cases st <;> simp [DataPartState.all]

/-- C2: `getParts` asks the storage engine for the Committed parts when
`need_inactive_parts` is false (whatever `has_state_column` is), for the
Committed and Outdated parts when `need_inactive_parts` is true and
`has_state_column` is false, and for the parts in every state when both are
true; the requested state sets are exactly these. -/
theorem getParts_requested_states (info : StoragesInfo) (has_state_column : Bool)
    (st : DataPartState) :
    ((StoragesInfo.getPartsCall false has_state_column = .getDataPartsVector [.Committed]
        ∧ StoragesInfo.getPartsCall true false = .getDataPartsVector [.Committed, .Outdated]
        ∧ StoragesInfo.getPartsCall true true = .getAllDataPartsVector)
      ∧ (StoragesInfo.getParts { info with need_inactive_parts := false } has_state_column
          = info.data.getDataPartsVector [.Committed]
        ∧ StoragesInfo.getParts { info with need_inactive_parts := true } false
          = info.data.getDataPartsVector [.Committed, .Outdated]
        ∧ StoragesInfo.getParts { info with need_inactive_parts := true } true
          = info.data.getAllDataPartsVector))
    ∧ ((st ∈ (StoragesInfo.getPartsCall false has_state_column).states ↔ st = .Committed)
      ∧ (st ∈ (StoragesInfo.getPartsCall true false).states ↔ st = .Committed ∨ st = .Outdated)
      ∧ st ∈ (StoragesInfo.getPartsCall true true).states) := by
  refine ⟨⟨⟨?_, ?_, ?_⟩, ?_, ?_, ?_⟩, ?_, ?_, ?_⟩
  · cases has_state_column <;> rfl
  · rfl
  · rfl
  · cases has_state_column <;> rfl
  · rfl
  · rfl
  · cases has_state_column <;> simp [StoragesInfo.getPartsCall, PartsCall.states]
  · simp [StoragesInfo.getPartsCall, PartsCall.states]
  · exact mem_all_states st

/-- C3 (P2): the state set requested for (need_inactive_parts, has_state_column) =
(true, true) contains the one for (true, false), which contains the one for
(false, b) for every b; the parts returned are nested in the same way. -/
theorem getParts_states_monotone (b : Bool) :
    ((StoragesInfo.getPartsCall false b).states ⊆ (StoragesInfo.getPartsCall true false).states
      ∧ (StoragesInfo.getPartsCall true false).states
          ⊆ (StoragesInfo.getPartsCall true true).states)
    ∧ ∀ info : StoragesInfo,
        (StoragesInfo.getParts { info with need_inactive_parts := false } b).1
            ⊆ (StoragesInfo.getParts { info with need_inactive_parts := true } false).1
        ∧ (StoragesInfo.getParts { info with need_inactive_parts := true } false).1
            ⊆ (StoragesInfo.getParts { info with need_inactive_parts := true } true).1 := by
  refine ⟨⟨?_, ?_⟩, ?_⟩
  · cases b <;> simp [StoragesInfo.getPartsCall, PartsCall.states]
  · intro st _
    exact mem_all_states st
  · intro info
    constructor
    · intro p hp
      cases b <;>
        simp_all [StoragesInfo.getParts, StoragesInfo.getPartsCall, PartsCall.perform,
          MergeTreeData.getDataPartsVector]
    · intro p hp
      simp_all [StoragesInfo.getParts, StoragesInfo.getPartsCall, PartsCall.perform,
        MergeTreeData.getDataPartsVector, MergeTreeData.getAllDataPartsVector]

/-! ## Theorems: hasStateColumn -/

theorem hasStateColumn_foldl (column_names : List String) (acc : Bool × List String) :
    column_names.foldl StorageSystemPartsBase.hasStateColumnStep acc
      = (acc.1 || decide ("_state" ∈ column_names),
          acc.2 ++ column_names.filter (fun n => decide (n ≠ "_state"))) := by
  induction column_names generalizing acc with
  | nil => simp
  | cons n ns ih =>
      rw [List.foldl_cons, ih]
      by_cases h : n = "_state"
      · subst h
        simp [StorageSystemPartsBase.hasStateColumnStep]
      · have h2 : ¬ ("_state" = n) := fun e => h e.symm
        simp [StorageSystemPartsBase.hasStateColumnStep, h, h2]

/-- C9: `hasStateColumn` returns whether "_state" is among the requested names; the
names it hands to the schema check are the requested names with every
"_state" removed, order and duplicates kept; and the check is skipped exactly
when "_state" was requested and nothing else was (shown with a check that
always throws: the function returns if and only if the check is skipped). -/
theorem hasStateColumn_spec (check : List String → Except Exception Unit)
    (column_names : List String) (e : Exception) :
    StorageSystemPartsBase.hasStateColumn check column_names
        = (if "_state" ∈ column_names ∧ ∀ n ∈ column_names, n = "_state" then
            .ok true
          else
            match check (column_names.filter (fun n => decide (n ≠ "_state"))) with
            | .error e => .error e
            | .ok _ => .ok (decide ("_state" ∈ column_names)))
    ∧ ((∃ b, StorageSystemPartsBase.hasStateColumn (fun _ => .error e) column_names = .ok b)
        ↔ ("_state" ∈ column_names ∧ ∀ n ∈ column_names, n = "_state")) := by
  have hempty : (column_names.filter (fun n => decide (n ≠ "_state"))).isEmpty = true
      ↔ ∀ n ∈ column_names, n = "_state" := by
    simp [List.isEmpty_iff, List.filter_eq_nil_iff]
  have key : ∀ chk : List String → Except Exception Unit,
      StorageSystemPartsBase.hasStateColumn chk column_names
        = (if "_state" ∈ column_names ∧ ∀ n ∈ column_names, n = "_state" then
            .ok true
          else
            match chk (column_names.filter (fun n => decide (n ≠ "_state"))) with
            | .error e => .error e
            | .ok _ => .ok (decide ("_state" ∈ column_names))) := by
    intro chk
    unfold StorageSystemPartsBase.hasStateColumn
    rw [hasStateColumn_foldl]
    simp only [Bool.false_or, List.nil_append]
    by_cases h1 : "_state" ∈ column_names
    · by_cases h2 : ∀ n ∈ column_names, n = "_state"
      · rw [if_pos (show "_state" ∈ column_names ∧ ∀ n ∈ column_names, n = "_state"
          from ⟨h1, h2⟩), hempty.mpr h2, decide_eq_true h1]
        rfl
      · have h3 : (column_names.filter (fun n => decide (n ≠ "_state"))).isEmpty = false := by
          rw [Bool.eq_false_iff]
          exact fun hh => h2 (hempty.mp hh)
        rw [if_neg (show ¬ ("_state" ∈ column_names ∧ ∀ n ∈ column_names, n = "_state")
          from fun hh => h2 hh.2), h3, decide_eq_true h1]
        rfl
    · rw [if_neg (show ¬ ("_state" ∈ column_names ∧ ∀ n ∈ column_names, n = "_state")
        from fun hh => h1 hh.1), decide_eq_false h1]
      rfl
  refine ⟨key check, ?_⟩
  rw [key]
  by_cases h : "_state" ∈ column_names ∧ ∀ n ∈ column_names, n = "_state"
  · rw [if_pos h]
    exact ⟨fun _ => h, fun _ => ⟨true, rfl⟩⟩
  · rw [if_neg h]
    constructor
    · rintro ⟨b, hb⟩
      cases hb
    · intro hh
      exact absurd hh h

/-! ## Theorems: the loops of `next` -/

theorem is_same_table_eq (s : StoragesInfoStream) (database table : String) (row : Nat) :
    s.is_same_table database table row = sameTable database table (s.rowAt row) := rfl

theorem collectRows_spec (s : StoragesInfoStream) (database table : String) :
    ∀ (fuel next_row : Nat) (need : Bool), next_row + fuel ≤ s.rows →
      s.collectRows database table fuel next_row need
        = (next_row + (((List.range' next_row fuel).map s.rowAt).takeWhile
              (sameTable database table)).length,
            need || (((List.range' next_row fuel).map s.rowAt).takeWhile
              (sameTable database table)).any (fun x => x.2.2 == 0)) := by
  intro fuel
  induction fuel with
  | zero => intro next_row need _; simp [StoragesInfoStream.collectRows]
  | succ fuel ih =>
      intro next_row need h
      have hlt : next_row < s.rows := by omega
      rw [StoragesInfoStream.collectRows, is_same_table_eq]
      by_cases hs : sameTable database table (s.rowAt next_row) = true
      · have h1 : (decide (next_row < s.rows) && sameTable database table (s.rowAt next_row)) = true := by
          simp [hlt, hs]
        rw [if_pos h1, ih (next_row + 1) _ (by omega)]
        simp only [List.range'_succ, List.map_cons, List.takeWhile_cons, hs, if_true,
          List.length_cons, List.any_cons]
        refine Prod.ext (by simp; omega) ?_
        simp only [StoragesInfoStream.rowAt]
        cases need <;> cases (s.active_column.getD next_row 0 == 0) <;> simp
      · have h1 : ¬ (decide (next_row < s.rows) && sameTable database table (s.rowAt next_row)) = true := by
          simp [hlt, hs]
        rw [if_neg h1]
        simp [List.range'_succ, List.takeWhile_cons, hs]

theorem sameTable_self (r : String × String × Nat) : sameTable r.1 r.2.1 r = true := by
  simp [sameTable]

theorem remaining_eq_cons (s : StoragesInfoStream) (h : s.next_row < s.rows) :
    s.remaining = s.rowAt s.next_row ::
      (List.range' (s.next_row + 1) (s.rows - s.next_row - 1)).map s.rowAt := by
  unfold StoragesInfoStream.remaining
  obtain ⟨k, hk⟩ : ∃ k, s.rows - s.next_row = k + 1 := ⟨s.rows - s.next_row - 1, by omega⟩
  rw [hk, List.range'_succ]
  simp

theorem remaining_eq_nil (s : StoragesInfoStream) (h : ¬ s.next_row < s.rows) :
    s.remaining = [] := by
  unfold StoragesInfoStream.remaining
  have : s.rows - s.next_row = 0 := by omega
  rw [this]
  rfl

theorem remaining_length (s : StoragesInfoStream) :
    s.remaining.length = s.rows - s.next_row := by
  simp [StoragesInfoStream.remaining]

theorem lockTable_next_row (lock : LockStructureForShare) (s : StoragesInfoStream) (n : Nat)
    (database table : String) (need : Bool) :
    StoragesInfoStream.lockTable lock { s with next_row := n } database table need
      = s.lockTable lock database table need := rfl

theorem rowAt_next_row (s : StoragesInfoStream) (n i : Nat) :
    StoragesInfoStream.rowAt { s with next_row := n } i = s.rowAt i := rfl

theorem remaining_advance (s : StoragesInfoStream) (n : Nat) :
    StoragesInfoStream.remaining { s with next_row := s.next_row + n } = s.remaining.drop n := by
  unfold StoragesInfoStream.remaining
  simp only [← List.map_drop]
  congr 1
  apply List.ext_getElem
  · simp; omega
  · intro i h1 h2
    simp
    omega

theorem iteration_eq (lock : LockStructureForShare) (s : StoragesInfoStream)
    (h : s.next_row < s.rows) :
    s.iteration lock
      = ({ s with next_row := s.next_row + s.currentRun.length },
          s.lockTable lock (s.rowAt s.next_row).1 (s.rowAt s.next_row).2.1
            (s.currentRun.any (fun x => x.2.2 == 0))) := by
  unfold StoragesInfoStream.iteration
  simp only [lockTable_next_row]
  rw [collectRows_spec s _ _ _ _ _ (by omega)]
  simp only [Bool.false_or]
  rfl

theorem currentRun_length (s : StoragesInfoStream) (h : s.next_row < s.rows) :
    0 < s.currentRun.length ∧ s.next_row + s.currentRun.length ≤ s.rows := by
  constructor
  · unfold StoragesInfoStream.currentRun
    rw [remaining_eq_cons s h, List.takeWhile_cons, sameTable_self]
    simp
  · have h1 : s.currentRun.length ≤ s.remaining.length :=
      List.Sublist.length_le (List.takeWhile_sublist _)
    rw [remaining_length] at h1
    omega

theorem nextLoop_eq_next (lock : LockStructureForShare) (fuel : Nat) :
    ∀ (s : StoragesInfoStream) (att : List IStorage), s.rows - s.next_row ≤ fuel →
      StoragesInfoStream.nextLoop lock fuel s att
        = { outcome := (s.next lock).outcome
            stream := (s.next lock).stream
            lock_attempts := att ++ (s.next lock).lock_attempts } := by
  induction fuel using Nat.strong_induction_on with
  | _ fuel ih =>
    intro s att hle
    by_cases hlt : s.next_row < s.rows
    · obtain ⟨m, hm⟩ : ∃ m, s.rows - s.next_row = m + 1 := ⟨s.rows - s.next_row - 1, by omega⟩
      obtain ⟨f, hf⟩ : ∃ f, fuel = f + 1 := ⟨fuel - 1, by omega⟩
      subst hf
      have hrun := currentRun_length s hlt
      unfold StoragesInfoStream.next
      rw [hm]
      simp only [StoragesInfoStream.nextLoop, hlt, if_true, iteration_eq lock s hlt]
      generalize s.lockTable lock (s.rowAt s.next_row).1 (s.rowAt s.next_row).2.1
        (s.currentRun.any (fun x => x.2.2 == 0)) = lt
      obtain ⟨att1, ex⟩ := lt
      cases ex with
      | skipped =>
          simp only
          rw [ih f (by omega) _ _ (by simp only; omega), ih m (by omega) _ _ (by simp only; omega)]
          simp
      | returned info => simp
      | threw e => simp
    · have h0 : s.rows - s.next_row = 0 := by omega
      unfold StoragesInfoStream.next
      rw [h0]
      cases fuel with
      | zero => simp [StoragesInfoStream.nextLoop]
      | succ f => simp [StoragesInfoStream.nextLoop, hlt]

/-- The loop of `next`, unfolded once, with no bound on the iterations. -/
theorem next_unfold (lock : LockStructureForShare) (s : StoragesInfoStream) :
    s.next lock
      = if s.next_row < s.rows then
          match s.lockTable lock (s.rowAt s.next_row).1 (s.rowAt s.next_row).2.1
              (s.currentRun.any (fun x => x.2.2 == 0)) with
          | (attempted, .skipped) =>
              { outcome :=
                  (StoragesInfoStream.next lock
                    { s with next_row := s.next_row + s.currentRun.length }).outcome
                stream :=
                  (StoragesInfoStream.next lock
                    { s with next_row := s.next_row + s.currentRun.length }).stream
                lock_attempts := attempted ++
                  (StoragesInfoStream.next lock
                    { s with next_row := s.next_row + s.currentRun.length }).lock_attempts }
          | (attempted, .returned info) =>
              { outcome := .ok (some info)
                stream := { s with next_row := s.next_row + s.currentRun.length }
                lock_attempts := attempted }
          | (attempted, .threw e) =>
              { outcome := .error e
                stream := { s with next_row := s.next_row + s.currentRun.length }
                lock_attempts := attempted }
        else
          { outcome := .ok none, stream := s, lock_attempts := [] } := by
  by_cases hlt : s.next_row < s.rows
  · obtain ⟨m, hm⟩ : ∃ m, s.rows - s.next_row = m + 1 := ⟨s.rows - s.next_row - 1, by omega⟩
    have hrun := currentRun_length s hlt
    rw [if_pos hlt]
    conv => lhs; unfold StoragesInfoStream.next
    rw [hm]
    simp only [StoragesInfoStream.nextLoop, hlt, if_true, iteration_eq lock s hlt]
    generalize s.lockTable lock (s.rowAt s.next_row).1 (s.rowAt s.next_row).2.1
      (s.currentRun.any (fun x => x.2.2 == 0)) = lt
    obtain ⟨att1, ex⟩ := lt
    cases ex with
    | skipped =>
        simp only
        rw [nextLoop_eq_next lock m _ _ (by simp only; omega)]
        simp
    | returned info => simp
    | threw e => simp
  · have h0 : s.rows - s.next_row = 0 := by omega
    rw [if_neg hlt]
    unfold StoragesInfoStream.next
    rw [h0]
    rfl

theorem next_at_end (lock : LockStructureForShare) (s : StoragesInfoStream)
    (h : ¬ s.next_row < s.rows) :
    s.next lock = { outcome := .ok none, stream := s, lock_attempts := [] } := by
  rw [next_unfold, if_neg h]

theorem next_stream (lock : LockStructureForShare) (n : Nat) :
    ∀ s : StoragesInfoStream, s.rows - s.next_row = n → s.next_row < s.rows →
      (s.next lock).stream = { s with next_row := (s.next lock).stream.next_row }
      ∧ s.next_row < (s.next lock).stream.next_row
      ∧ (s.next lock).stream.next_row ≤ s.rows := by
  induction n using Nat.strong_induction_on with
  | _ n ih =>
    intro s hn hlt
    have hrun := currentRun_length s hlt
    rw [next_unfold, if_pos hlt]
    generalize s.lockTable lock (s.rowAt s.next_row).1 (s.rowAt s.next_row).2.1
      (s.currentRun.any (fun x => x.2.2 == 0)) = lt
    obtain ⟨att1, ex⟩ := lt
    cases ex with
    | skipped =>
        simp only
        by_cases h2 : s.next_row + s.currentRun.length < s.rows
        · have := ih (s.rows - (s.next_row + s.currentRun.length)) (by omega)
            { s with next_row := s.next_row + s.currentRun.length } rfl h2
          obtain ⟨e1, e2, e3⟩ := this
          refine ⟨?_, ?_, ?_⟩
          · rw [e1]
          · simp only at e2; omega
          · exact e3
        · rw [next_at_end lock _ h2]
          simp only
          refine ⟨trivial, ?_, ?_⟩ <;> omega
    | returned info => simp only; refine ⟨trivial, ?_, ?_⟩ <;> omega
    | threw e => simp only; refine ⟨trivial, ?_, ?_⟩ <;> omega

theorem next_stream_rows (lock : LockStructureForShare) (s : StoragesInfoStream) :
    (s.next lock).stream.rows = s.rows
    ∧ s.next_row ≤ (s.next lock).stream.next_row
    ∧ (s.next_row < s.rows → s.next_row < (s.next lock).stream.next_row
        ∧ (s.next lock).stream.next_row ≤ s.rows) := by
  by_cases hlt : s.next_row < s.rows
  · obtain ⟨e1, e2, e3⟩ := next_stream lock _ s rfl hlt
    refine ⟨?_, by omega, fun _ => ⟨e2, e3⟩⟩
    rw [e1]
  · rw [next_at_end lock s hlt]
    exact ⟨rfl, le_refl _, fun h => absurd h hlt⟩

theorem readLoop_eq_readAll (lock : LockStructureForShare) (fuel : Nat) :
    ∀ s : StoragesInfoStream, s.rows - s.next_row ≤ fuel →
      StorageSystemPartsBase.readLoop lock fuel s = StorageSystemPartsBase.readAll lock s := by
  induction fuel using Nat.strong_induction_on with
  | _ fuel ih =>
    intro s hle
    by_cases hlt : s.next_row < s.rows
    · obtain ⟨m, hm⟩ : ∃ m, s.rows - s.next_row = m + 1 := ⟨s.rows - s.next_row - 1, by omega⟩
      obtain ⟨f, hf⟩ : ∃ f, fuel = f + 1 := ⟨fuel - 1, by omega⟩
      subst hf
      obtain ⟨e1, _, e3⟩ := next_stream_rows lock s
      obtain ⟨e4, e5⟩ := e3 hlt
      unfold StorageSystemPartsBase.readAll
      rw [hm]
      simp only [StorageSystemPartsBase.readLoop]
      have h1 := ih f (by omega) (s.next lock).stream (by omega)
      have h2 := ih m (by omega) (s.next lock).stream (by omega)
      rw [h1, h2]
    · have h0 : s.rows - s.next_row = 0 := by omega
      unfold StorageSystemPartsBase.readAll
      rw [h0]
      cases fuel with
      | zero => rfl
      | succ f => simp [StorageSystemPartsBase.readLoop, next_at_end lock s hlt]

/-- The enumeration pass, unfolded by one iteration of the loop of `next`. -/
theorem readAll_unfold (lock : LockStructureForShare) (s : StoragesInfoStream) :
    StorageSystemPartsBase.readAll lock s
      = if s.next_row < s.rows then
          match s.lockTable lock (s.rowAt s.next_row).1 (s.rowAt s.next_row).2.1
              (s.currentRun.any (fun x => x.2.2 == 0)) with
          | (attempted, .skipped) =>
              { StorageSystemPartsBase.readAll lock { s with next_row := s.next_row + s.currentRun.length } with
                lock_attempts := attempted ++
                  (StorageSystemPartsBase.readAll lock
                    { s with next_row := s.next_row + s.currentRun.length }).lock_attempts }
          | (attempted, .returned info) =>
              { StorageSystemPartsBase.readAll lock { s with next_row := s.next_row + s.currentRun.length } with
                infos := info ::
                  (StorageSystemPartsBase.readAll lock { s with next_row := s.next_row + s.currentRun.length }).infos
                lock_attempts := attempted ++
                  (StorageSystemPartsBase.readAll lock
                    { s with next_row := s.next_row + s.currentRun.length }).lock_attempts }
          | (attempted, .threw e) =>
              { infos := []
                thrown := some e
                stream := { s with next_row := s.next_row + s.currentRun.length }
                lock_attempts := attempted }
        else
          { infos := [], thrown := none, stream := s, lock_attempts := [] } := by
  by_cases hlt : s.next_row < s.rows
  · obtain ⟨m, hm⟩ : ∃ m, s.rows - s.next_row = m + 1 := ⟨s.rows - s.next_row - 1, by omega⟩
    have hrun := currentRun_length s hlt
    rw [if_pos hlt]
    conv => lhs; unfold StorageSystemPartsBase.readAll
    rw [hm]
    simp only [StorageSystemPartsBase.readLoop]
    rw [next_unfold lock s, if_pos hlt]
    generalize s.lockTable lock (s.rowAt s.next_row).1 (s.rowAt s.next_row).2.1
      (s.currentRun.any (fun x => x.2.2 == 0)) = lt
    obtain ⟨att1, ex⟩ := lt
    cases ex with
    | skipped =>
        simp only
        generalize hs2 : ({ s with next_row := s.next_row + s.currentRun.length } :
          StoragesInfoStream) = s2
        have hrows : s2.rows = s.rows := by rw [← hs2]
        have hnext : s2.next_row = s.next_row + s.currentRun.length := by rw [← hs2]
        by_cases h2 : s2.next_row < s2.rows
        · obtain ⟨k, hk⟩ : ∃ k, s2.rows - s2.next_row = k + 1 :=
            ⟨s2.rows - s2.next_row - 1, by omega⟩
          obtain ⟨e1, _, e3⟩ := next_stream_rows lock s2
          obtain ⟨e4, e5⟩ := e3 h2
          have h3 : StorageSystemPartsBase.readAll lock s2 = StorageSystemPartsBase.readLoop lock (k + 1) s2 := by
            unfold StorageSystemPartsBase.readAll
            rw [hk]
          rw [h3]
          simp only [StorageSystemPartsBase.readLoop]
          rw [readLoop_eq_readAll lock m _ (by omega), readLoop_eq_readAll lock k _ (by omega)]
          cases hout : (s2.next lock).outcome with
          | error e => simp
          | ok o =>
              cases o with
              | none => simp
              | some info => simp
        · have h3 : StorageSystemPartsBase.readAll lock s2 = StorageSystemPartsBase.readLoop lock 0 s2 := by
            unfold StorageSystemPartsBase.readAll
            have : s2.rows - s2.next_row = 0 := by omega
            rw [this]
          rw [h3]
          simp only [StorageSystemPartsBase.readLoop, next_at_end lock s2 h2]
    | returned info =>
        simp only
        rw [readLoop_eq_readAll lock m _ (by simp only; omega)]
    | threw e => simp only
  · have h0 : s.rows - s.next_row = 0 := by omega
    rw [if_neg hlt]
    unfold StorageSystemPartsBase.readAll
    rw [h0]
    simp only [StorageSystemPartsBase.readLoop, next_at_end lock s hlt]

theorem drop_length_takeWhile {α : Type} (p : α → Bool) (l : List α) :
    l.drop (l.takeWhile p).length = l.dropWhile p := by
  induction l with
  | nil => rfl
  | cons a l ih =>
      by_cases h : p a = true
      · simp [List.takeWhile_cons, List.dropWhile_cons, h, ih]
      · simp [List.takeWhile_cons, List.dropWhile_cons, h]

theorem runs_cons (r : String × String × Nat) (rest : List (String × String × Nat)) :
    runs (r :: rest)
      = (r :: rest.takeWhile (sameTable r.1 r.2.1)) ::
          runs (rest.dropWhile (sameTable r.1 r.2.1)) := by
  rw [runs]

theorem describeRuns_next_row (lock : LockStructureForShare) (s : StoragesInfoStream) (n : Nat)
    (rs : List (List (String × String × Nat))) :
    StoragesInfoStream.describeRuns lock { s with next_row := n } rs
      = s.describeRuns lock rs := by
  induction rs with
  | nil => rfl
  | cons run rest ih =>
      cases run with
      | nil => simp only [StoragesInfoStream.describeRuns, ih]
      | cons r run => simp only [StoragesInfoStream.describeRuns, ih, lockTable_next_row]

/-- The enumeration pass is the run-by-run account of the rows from the cursor on. -/
theorem readAll_spec (lock : LockStructureForShare) (n : Nat) :
    ∀ s : StoragesInfoStream, s.rows - s.next_row = n →
      ({ infos := (StorageSystemPartsBase.readAll lock s).infos
         thrown := (StorageSystemPartsBase.readAll lock s).thrown
         lock_attempts := (StorageSystemPartsBase.readAll lock s).lock_attempts } : PassSummary)
        = s.describeRuns lock (runs s.remaining) := by
  induction n using Nat.strong_induction_on with
  | _ n ih =>
    intro s hn
    by_cases hlt : s.next_row < s.rows
    · have hrun := currentRun_length s hlt
      have hrem := remaining_eq_cons s hlt
      have hcur : s.currentRun = s.rowAt s.next_row ::
          ((List.range' (s.next_row + 1) (s.rows - s.next_row - 1)).map s.rowAt).takeWhile
            (sameTable (s.rowAt s.next_row).1 (s.rowAt s.next_row).2.1) := by
        unfold StoragesInfoStream.currentRun
        rw [hrem, List.takeWhile_cons, sameTable_self]
        rfl
      have hnext : StoragesInfoStream.remaining
          { s with next_row := s.next_row + s.currentRun.length }
            = ((List.range' (s.next_row + 1) (s.rows - s.next_row - 1)).map s.rowAt).dropWhile
                (sameTable (s.rowAt s.next_row).1 (s.rowAt s.next_row).2.1) := by
        rw [remaining_advance]
        unfold StoragesInfoStream.currentRun
        rw [drop_length_takeWhile, hrem, List.dropWhile_cons, sameTable_self]
        rfl
      have hih := ih (s.rows - (s.next_row + s.currentRun.length)) (by omega)
        { s with next_row := s.next_row + s.currentRun.length } rfl
      rw [describeRuns_next_row, hnext] at hih
      rw [readAll_unfold, if_pos hlt, hrem, runs_cons, ← hcur]
      simp only [StoragesInfoStream.describeRuns]
      rw [hcur, StoragesInfoStream.describeRuns, ← hcur, ← hih]
      generalize s.lockTable lock (s.rowAt s.next_row).1 (s.rowAt s.next_row).2.1
        (s.currentRun.any (fun x => x.2.2 == 0)) = lt
      obtain ⟨att1, ex⟩ := lt
      cases ex <;> rfl
    · rw [readAll_unfold, if_neg hlt, remaining_eq_nil s hlt, runs]
      rfl

/-! ## Theorems: the constructor -/

theorem addTable_foldl (context : Context) (chk : Bool) (n : String) :
    ∀ (tables : List (String × IStorage)) (acc : Candidates × Nat),
      tables.foldl (addTable context chk n) acc
        = ({ storages :=
              ((candidateTables context chk n tables).map
                (fun entry => ((n, entry.1), entry.2))).reverse ++ acc.1.storages
             table_column := acc.1.table_column ++
              (candidateTables context chk n tables).flatMap (fun entry => [entry.1, entry.1])
             engine_column := acc.1.engine_column ++
              (candidateTables context chk n tables).flatMap
                (fun entry => [entry.2.name, entry.2.name])
             active_column := acc.1.active_column ++
              (candidateTables context chk n tables).flatMap (fun _ => [0, 1]) },
            acc.2 + 2 * (candidateTables context chk n tables).length) := by
  intro tables
  induction tables with
  | nil => intro acc; simp [candidateTables]
  | cons entry rest ih =>
      intro acc
      rw [List.foldl_cons, ih]
      by_cases h1 : entry.2.merge_tree.isNone = true
      · simp [addTable, candidateTables, h1, List.filter_cons]
      · by_cases h2 : (chk && !context.show_tables_granted_on n entry.1) = true
        · simp only [addTable, candidateTables, h1, h2, List.filter_cons]
          simp
        · simp only [addTable, candidateTables, h1, h2, List.filter_cons]
          simp [addActiveRow, Storages.set, Nat.mul_add, Nat.add_assoc, Nat.add_comm]

theorem candidateKeys_cons (context : Context) (databases : Databases) (chk : Bool)
    (n : String) (names : List String) :
    candidateKeys context databases chk (n :: names)
      = (tablesOf context databases chk n).map (fun entry => (n, entry))
          ++ candidateKeys context databases chk names := by
  simp [candidateKeys]

theorem addDatabases_spec (context : Context) (databases : Databases) (chk : Bool) :
    ∀ (names : List String) (c : Candidates) (offsets : List Nat),
      (∀ n ∈ names, (databases.at n).isSome = true) →
      addDatabases context databases chk names c offsets
        = .ok ({ storages :=
                  ((candidateKeys context databases chk names).map
                    (fun k => ((k.1, k.2.1), k.2.2))).reverse ++ c.storages
                 table_column := c.table_column ++
                  (candidateKeys context databases chk names).flatMap
                    (fun k => [k.2.1, k.2.1])
                 engine_column := c.engine_column ++
                  (candidateKeys context databases chk names).flatMap
                    (fun k => [k.2.2.name, k.2.2.name])
                 active_column := c.active_column ++
                  (candidateKeys context databases chk names).flatMap (fun _ => [0, 1]) },
                offsets ++ offsetsFrom context databases chk
                  (offsets.getLast?.getD 0) names) := by
  intro names
  induction names with
  | nil => intro c offsets _; simp [addDatabases, candidateKeys, offsetsFrom]
  | cons n names ih =>
      intro c offsets h
      have hn := h n (List.mem_cons_self _ _)
      obtain ⟨database, hdb⟩ := Option.isSome_iff_exists.mp hn
      have htab : tablesOf context databases chk n
          = candidateTables context chk n database.tables := by
        simp [tablesOf, hdb]
      rw [addDatabases]
      simp only [hdb]
      rw [addTable_foldl, ih _ _ (fun m hm => h m (List.mem_cons_of_mem _ hm))]
      rw [candidateKeys_cons, offsetsFrom, htab]
      simp [List.flatMap_append, List.flatMap_map, List.map_append, List.reverse_append,
        Function.comp_def]

theorem replicateFrom_offsetsFrom (context : Context) (databases : Databases) (chk : Bool) :
    ∀ (names : List String) (start : Nat),
      IColumn.replicateFrom start names (offsetsFrom context databases chk start names)
        = names.flatMap (fun n =>
            List.replicate (2 * (tablesOf context databases chk n).length) n) := by
  intro names
  induction names with
  | nil => intro start; rfl
  | cons n names ih =>
      intro start
      rw [offsetsFrom, IColumn.replicateFrom, ih, List.flatMap_cons]
      congr 2
      omega

theorem replicate_two_mul {α β : Type} (l : List α) (n : β) :
    List.replicate (2 * l.length) n = l.flatMap (fun _ => [n, n]) := by
  induction l with
  | nil => rfl
  | cons a l ih =>
      rw [List.flatMap_cons, ← ih, List.length_cons, Nat.mul_add]
      rfl

theorem replicated_database_column (context : Context) (databases : Databases) (chk : Bool)
    (names : List String) :
    names.flatMap (fun n => List.replicate (2 * (tablesOf context databases chk n).length) n)
      = (candidateKeys context databases chk names).flatMap (fun k => [k.1, k.1]) := by
  induction names with
  | nil => rfl
  | cons n names ih =>
      rw [List.flatMap_cons, candidateKeys_cons, List.flatMap_append, ← ih, replicate_two_mul,
        List.flatMap_map]

theorem toRows_candidates (keys : List (String × String × IStorage)) :
    Block.toRows
        { database := keys.flatMap (fun k => [k.1, k.1])
          table := keys.flatMap (fun k => [k.2.1, k.2.1])
          engine := keys.flatMap (fun k => [k.2.2.name, k.2.2.name])
          active := keys.flatMap (fun _ => [0, 1]) }
      = keys.flatMap (fun k => syntheticRows k.1 k.2) := by
  induction keys with
  | nil => rfl
  | cons k keys ih =>
      simp only [Block.toRows] at ih
      simp [Block.toRows, syntheticRows, ih]

theorem lookup_isSome_of_mem {α β : Type} [BEq α] [LawfulBEq α] (l : List (α × β)) (a : α)
    (h : a ∈ l.map (fun d => d.1)) : (l.lookup a).isSome = true := by
  induction l with
  | nil => simp at h
  | cons d l ih =>
      obtain ⟨k, v⟩ := d
      by_cases hk : a = k
      · subst hk
        simp [List.lookup]
      · have hne : (a == k) = false := by simpa using hk
        rw [List.lookup, hne]
        simp only [List.map_cons, List.mem_cons] at h
        rcases h with h | h
        · exact absurd h hk
        · exact ih h

theorem survivingDatabases_at (query_info : SelectQueryInfo) (context : Context) :
    ∀ n ∈ survivingDatabases query_info context, (context.databases.at n).isSome = true := by
  intro n hn
  apply lookup_isSome_of_mem
  simp only [survivingDatabases, VirtualColumnUtils.filterDatabaseColumn, List.mem_filter,
    List.mem_map] at hn
  obtain ⟨⟨d, hd, rfl⟩, _⟩ := hn
  exact List.mem_map_of_mem _ hd.1

theorem toRows_filterBlockWithQuery (query_info : SelectQueryInfo) (block : Block) :
    (VirtualColumnUtils.filterBlockWithQuery query_info block).toRows
      = block.toRows.filter (fun r => query_info.full r.1 r.2.1 r.2.2.1 r.2.2.2) := by
  unfold VirtualColumnUtils.filterBlockWithQuery
  generalize block.toRows.filter (fun r => query_info.full r.1 r.2.1 r.2.2.1 r.2.2.2) = kept
  simp only [Block.toRows]
  induction kept with
  | nil => rfl
  | cons r kept ih => simp [ih]

/-- The first part of the constructor never throws; its locals at line 149 are the
candidate tables' columns. -/
theorem expansion_eq_built (query_info : SelectQueryInfo) (context : Context) :
    StoragesInfoStream.expansion query_info context
      = .ok (Expansion.built query_info context) := by
  have hnames : VirtualColumnUtils.filterDatabaseColumn query_info
      ((context.databases.filter (fun database => database.2.engine_name != "Lazy")).map
        (fun d => d.1)) = survivingDatabases query_info context := rfl
  unfold StoragesInfoStream.expansion
  simp only [hnames]
  by_cases h0 : ((survivingDatabases query_info context).length != 0) = true
  · simp only [h0, if_true]
    rw [addDatabases_spec _ _ _ _ _ _ (survivingDatabases_at query_info context)]
    simp only [List.nil_append, List.getLast?_nil, Option.getD_none, IColumn.replicate,
      replicateFrom_offsetsFrom, replicated_database_column, List.append_nil]
    rfl
  · have hnil : survivingDatabases query_info context = [] := by
      simpa using h0
    simp only [h0]
    simp [Expansion.built, registeredStorages, hnil, candidateKeys, offsetsFrom]

theorem built_toRows (query_info : SelectQueryInfo) (context : Context) :
    (Expansion.built query_info context).block_to_filter.toRows
      = candidateRows context context.databases (!context.show_tables_granted)
          (survivingDatabases query_info context) := by
  simp only [Expansion.built, toRows_candidates]
  rfl

theorem built_filter_toRows (query_info : SelectQueryInfo) (context : Context) :
    ((Expansion.built query_info context).filter query_info).1.toRows
      = survivingRows query_info context := by
  unfold Expansion.filter
  by_cases h0 : ((Expansion.built query_info context).rows != 0) = true
  · simp only [h0, if_true]
    rw [toRows_filterBlockWithQuery, built_toRows]
    rfl
  · have hnil : survivingDatabases query_info context = [] := by
      simpa [Expansion.built] using h0
    simp only [h0]
    simp [Expansion.built, survivingRows, hnil, candidateRows, candidateKeys, Block.toRows]

/-- The constructor never throws, and the stream it builds holds the rows that
survive both filter phases. -/
theorem ctor_eq_built (query_info : SelectQueryInfo) (context : Context) :
    StoragesInfoStream.ctor query_info context
      = .ok (StoragesInfoStream.built query_info context) := by
  unfold StoragesInfoStream.ctor
  rw [expansion_eq_built]
  simp only
  have h := built_filter_toRows query_info context
  unfold Expansion.filter at h ⊢
  by_cases h0 : ((Expansion.built query_info context).rows != 0) = true
  · simp only [h0, if_true] at h ⊢
    simp only [Block.rows, h]
    simp only [VirtualColumnUtils.filterBlockWithQuery, built_toRows]
    rfl
  · have hnil : survivingDatabases query_info context = [] := by
      simpa [Expansion.built] using h0
    simp only [h0]
    simp [StoragesInfoStream.built, Expansion.built, survivingRows, registeredStorages, hnil,
      candidateRows, candidateKeys]

/-! ## Theorems: the enumeration pass -/

theorem lockTable_cases (lock : LockStructureForShare) (s : StoragesInfoStream)
    (database table : String) (need : Bool) :
    (s.storages.at (database, table) = none
      ∧ s.lockTable lock database table need = ([], .threw .out_of_range))
    ∨ ∃ st, s.storages.at (database, table) = some st
      ∧ ((∃ e, lock st false s.query_id s.settings.lock_acquire_timeout = .error e
            ∧ e.code = ErrorCodes.TABLE_IS_DROPPED
            ∧ s.lockTable lock database table need = ([st], .skipped))
        ∨ (∃ e, lock st false s.query_id s.settings.lock_acquire_timeout = .error e
            ∧ e.code ≠ ErrorCodes.TABLE_IS_DROPPED
            ∧ s.lockTable lock database table need = ([st], .threw (.exception e)))
        ∨ (∃ l, lock st false s.query_id s.settings.lock_acquire_timeout = .ok l
            ∧ st.merge_tree = none
            ∧ s.lockTable lock database table need
                = ([st], .threw (.exception
                    { message := "Unknown engine " ++ st.name
                      code := ErrorCodes.LOGICAL_ERROR })))
        ∨ (∃ l d, lock st false s.query_id s.settings.lock_acquire_timeout = .ok l
            ∧ st.merge_tree = some d
            ∧ s.lockTable lock database table need
                = ([st], .returned
                    { storage := st
                      table_lock := l
                      database := database
                      table := table
                      engine := st.name
                      need_inactive_parts := need
                      data := d }))) := by
  cases hat : s.storages.at (database, table) with
  | none =>
      refine Or.inl ⟨rfl, ?_⟩
      unfold StoragesInfoStream.lockTable
      simp only [hat]
  | some st =>
      refine Or.inr ⟨st, rfl, ?_⟩
      cases hl : lock st false s.query_id s.settings.lock_acquire_timeout with
      | error e =>
          by_cases hc : e.code = ErrorCodes.TABLE_IS_DROPPED
          · refine Or.inl ⟨e, rfl, hc, ?_⟩
            unfold StoragesInfoStream.lockTable
            simp only [hat, hl, hc, if_true]
          · refine Or.inr (Or.inl ⟨e, rfl, hc, ?_⟩)
            unfold StoragesInfoStream.lockTable
            simp only [hat, hl, hc, if_false]
      | ok l =>
          cases hm : st.merge_tree with
          | none =>
              refine Or.inr (Or.inr (Or.inl ⟨l, rfl, rfl, ?_⟩))
              unfold StoragesInfoStream.lockTable
              simp only [hat, hl, hm]
          | some d =>
              refine Or.inr (Or.inr (Or.inr ⟨l, d, rfl, rfl, ?_⟩))
              unfold StoragesInfoStream.lockTable
              simp only [hat, hl, hm]

theorem mem_remaining_iff (s : StoragesInfoStream) (x : String × String × Nat) :
    x ∈ s.remaining ↔ ∃ i, s.next_row ≤ i ∧ i < s.rows ∧ s.rowAt i = x := by
  unfold StoragesInfoStream.remaining
  simp only [List.mem_map, List.mem_range'_1]
  constructor
  · rintro ⟨i, ⟨h1, h2⟩, rfl⟩
    exact ⟨i, h1, by omega, rfl⟩
  · rintro ⟨i, h1, h2, rfl⟩
    exact ⟨i, ⟨h1, by omega⟩, rfl⟩

theorem range_map_getD {α : Type} (l : List α) (f1 f2 : α → String) (f3 : α → Nat) :
    (List.range' 0 l.length).map
        (fun i => ((l.map f1).getD i "", (l.map f2).getD i "", (l.map f3).getD i 0))
      = l.map (fun r => (f1 r, f2 r, f3 r)) := by
  apply List.ext_getElem
  · simp
  · intro i h1 h2
    simp only [List.length_map, List.length_range'] at h1
    simp [List.getD_eq_getElem?_getD, h1]

theorem built_remaining (query_info : SelectQueryInfo) (context : Context) :
    (StoragesInfoStream.built query_info context).remaining
      = (survivingRows query_info context).map (fun r => (r.1, r.2.1, r.2.2.2)) := by
  unfold StoragesInfoStream.remaining
  simp only [StoragesInfoStream.built, Nat.sub_zero]
  exact range_map_getD _ _ _ _

theorem mem_runs (n : Nat) :
    ∀ l : List (String × String × Nat), l.length = n →
      ∀ run ∈ runs l, ∃ r tl, run = r :: tl ∧ r ∈ l
        ∧ ∀ x ∈ run, x ∈ l ∧ sameTable r.1 r.2.1 x = true := by
  induction n using Nat.strong_induction_on with
  | _ n ih =>
    intro l hl run hrun
    cases l with
    | nil => simp [runs] at hrun
    | cons r rest =>
        rw [runs_cons] at hrun
        simp only [List.mem_cons] at hrun
        rcases hrun with hrun | hrun
        · refine ⟨r, _, hrun, List.mem_cons_self _ _, ?_⟩
          intro x hx
          rw [hrun] at hx
          simp only [List.mem_cons] at hx
          rcases hx with hx | hx
          · subst hx
            exact ⟨List.mem_cons_self _ _, sameTable_self _⟩
          · exact ⟨List.mem_cons_of_mem _ ((List.takeWhile_sublist _).subset hx),
              (List.mem_takeWhile_imp hx)⟩
        · have hlen : (rest.dropWhile (sameTable r.1 r.2.1)).length < n := by
            have := List.Sublist.length_le (List.dropWhile_sublist (sameTable r.1 r.2.1) (l := rest))
            simp only [List.length_cons] at hl
            omega
          obtain ⟨r1, tl, e1, e2, e3⟩ := ih _ hlen _ rfl run hrun
          have hsub : ∀ y, y ∈ rest.dropWhile (sameTable r.1 r.2.1) → y ∈ r :: rest :=
            fun y hy => List.mem_cons_of_mem _ ((List.dropWhile_sublist _).subset hy)
          exact ⟨r1, tl, e1, hsub _ e2, fun x hx => ⟨hsub _ (e3 x hx).1, (e3 x hx).2⟩⟩

theorem lockTable_returned (lock : LockStructureForShare) (s : StoragesInfoStream)
    (database table : String) (need : Bool) (att : List IStorage) (info : StoragesInfo)
    (h : s.lockTable lock database table need = (att, .returned info)) :
    info.database = database ∧ info.table = table ∧ info.need_inactive_parts = need
      ∧ s.storages.at (database, table) = some info.storage
      ∧ info.engine = info.storage.name
      ∧ info.storage.merge_tree = some info.data
      ∧ lock info.storage false s.query_id s.settings.lock_acquire_timeout = .ok info.table_lock
      ∧ att = [info.storage] := by
  rcases lockTable_cases lock s database table need with ⟨_, h1⟩ | ⟨st, hat, h1⟩
  · rw [h1] at h
    cases h
  · rcases h1 with ⟨e1, hl, hc, h1⟩ | ⟨e1, hl, hc, h1⟩ | ⟨l, hl, _, h1⟩ | ⟨l, d, hl, hm, h1⟩
    · rw [h1] at h; cases h
    · rw [h1] at h; cases h
    · rw [h1] at h; cases h
    · rw [h1] at h
      cases h
      exact ⟨rfl, rfl, rfl, hat, rfl, hm, hl, rfl⟩

/-- Every descriptor of the run-by-run account comes from one of the runs. -/
theorem describeRuns_infos (lock : LockStructureForShare) (s : StoragesInfoStream) :
    ∀ (rs : List (List (String × String × Nat))) (info : StoragesInfo),
      info ∈ (s.describeRuns lock rs).infos →
      ∃ r tl att, (r :: tl) ∈ rs
        ∧ s.lockTable lock r.1 r.2.1 ((r :: tl).any (fun x => x.2.2 == 0))
            = (att, .returned info) := by
  intro rs
  induction rs with
  | nil => intro info h; simp [StoragesInfoStream.describeRuns] at h
  | cons run rest ih =>
      intro info h
      cases run with
      | nil =>
          rw [StoragesInfoStream.describeRuns] at h
          obtain ⟨r, tl, att, h1, h2⟩ := ih info h
          exact ⟨r, tl, att, List.mem_cons_of_mem _ h1, h2⟩
      | cons r tl =>
          rw [StoragesInfoStream.describeRuns] at h
          cases hlt : s.lockTable lock r.1 r.2.1 ((r :: tl).any (fun x => x.2.2 == 0)) with
          | mk att ex =>
              rw [hlt] at h
              cases ex with
              | skipped =>
                  simp only at h
                  obtain ⟨r1, tl1, att1, h1, h2⟩ := ih info h
                  exact ⟨r1, tl1, att1, List.mem_cons_of_mem _ h1, h2⟩
              | returned info1 =>
                  simp only [List.mem_cons] at h
                  rcases h with h | h
                  · subst h
                    exact ⟨r, tl, att, List.mem_cons_self _ _, hlt⟩
                  · obtain ⟨r1, tl1, att1, h1, h2⟩ := ih info h
                    exact ⟨r1, tl1, att1, List.mem_cons_of_mem _ h1, h2⟩
              | threw e => simp at h

theorem readAll_infos_eq (lock : LockStructureForShare) (s : StoragesInfoStream) :
    (StorageSystemPartsBase.readAll lock s).infos = (s.describeRuns lock (runs s.remaining)).infos
    ∧ (StorageSystemPartsBase.readAll lock s).thrown = (s.describeRuns lock (runs s.remaining)).thrown
    ∧ (StorageSystemPartsBase.readAll lock s).lock_attempts = (s.describeRuns lock (runs s.remaining)).lock_attempts := by
  have h := readAll_spec lock _ s rfl
  rw [← h]
  exact ⟨rfl, rfl, rfl⟩

theorem mem_of_lookup {α β : Type} [BEq α] [LawfulBEq α] (l : List (α × β)) (a : α) (b : β)
    (h : l.lookup a = some b) : (a, b) ∈ l := by
  induction l with
  | nil => simp [List.lookup] at h
  | cons d l ih =>
      obtain ⟨k, v⟩ := d
      by_cases hk : a = k
      · subst hk
        simp [List.lookup] at h
        subst h
        exact List.mem_cons_self _ _
      · have hne : (a == k) = false := by simpa using hk
        rw [List.lookup, hne] at h
        exact List.mem_cons_of_mem _ (ih h)

theorem mem_candidateKeys (context : Context) (databases : Databases) (chk : Bool)
    (names : List String) (k : String × String × IStorage)
    (h : k ∈ candidateKeys context databases chk names) :
    k.1 ∈ names ∧ k.2 ∈ tablesOf context databases chk k.1 := by
  simp only [candidateKeys, List.mem_flatMap, List.mem_map] at h
  obtain ⟨n, hn, entry, he, rfl⟩ := h
  exact ⟨hn, he⟩

theorem mem_tablesOf (context : Context) (databases : Databases) (chk : Bool)
    (n : String) (entry : String × IStorage)
    (h : entry ∈ tablesOf context databases chk n) :
    (∃ database, databases.at n = some database ∧ entry ∈ database.tables)
      ∧ entry.2.merge_tree.isNone = false
      ∧ (chk && !context.show_tables_granted_on n entry.1) = false := by
  unfold tablesOf at h
  cases hat : databases.at n with
  | none => simp [hat] at h
  | some database =>
      simp only [hat, candidateTables, List.mem_filter, Bool.and_eq_true,
        Bool.not_eq_true'] at h
      exact ⟨⟨database, rfl, h.1⟩, h.2.1, h.2.2⟩

theorem mem_survivingRows (query_info : SelectQueryInfo) (context : Context)
    (r : String × String × String × Nat) (h : r ∈ survivingRows query_info context) :
    query_info.full r.1 r.2.1 r.2.2.1 r.2.2.2 = true
      ∧ ∃ k ∈ candidateKeys context context.databases (!context.show_tables_granted)
            (survivingDatabases query_info context),
          r.1 = k.1 ∧ r.2.1 = k.2.1 ∧ r.2.2.1 = k.2.2.name ∧ (r.2.2.2 = 0 ∨ r.2.2.2 = 1) := by
  simp only [survivingRows, List.mem_filter, candidateRows, List.mem_flatMap, syntheticRows,
    List.mem_cons, List.mem_singleton, List.not_mem_nil, or_false] at h
  obtain ⟨⟨k, hk, hr⟩, hfull⟩ := h
  refine ⟨hfull, k, hk, ?_⟩
  rcases hr with rfl | rfl
  · exact ⟨rfl, rfl, rfl, Or.inl rfl⟩
  · exact ⟨rfl, rfl, rfl, Or.inr rfl⟩

theorem mem_survivingDatabases (query_info : SelectQueryInfo) (context : Context) (n : String)
    (h : n ∈ survivingDatabases query_info context) :
    query_info.database_only n = true
      ∧ ∃ d ∈ context.databases, d.1 = n ∧ d.2.engine_name ≠ "Lazy" := by
  simp only [survivingDatabases, VirtualColumnUtils.filterDatabaseColumn, List.mem_filter,
    List.mem_map] at h
  obtain ⟨⟨d, hd, rfl⟩, hp⟩ := h
  refine ⟨hp, d, hd.1, rfl, ?_⟩
  simpa using hd.2

/-- Every (database, table) pair of a surviving row is a key of `storages`, bound to
a storage that passes the `MergeTreeData` cast. -/
theorem built_registered (query_info : SelectQueryInfo) (context : Context)
    (x : String × String × Nat)
    (h : x ∈ (StoragesInfoStream.built query_info context).remaining) :
    ∃ st d, (StoragesInfoStream.built query_info context).storages.at (x.1, x.2.1) = some st
      ∧ st.merge_tree = some d := by
  rw [built_remaining, List.mem_map] at h
  obtain ⟨r, hr, rfl⟩ := h
  obtain ⟨_, k, hk, h1, h2, _, _⟩ := mem_survivingRows query_info context r hr
  have hsome : ((StoragesInfoStream.built query_info context).storages.at (r.1, r.2.1)).isSome
      = true := by
    apply lookup_isSome_of_mem
    simp only [StoragesInfoStream.built, registeredStorages, List.map_reverse, List.mem_reverse,
      List.map_map, List.mem_map]
    exact ⟨k, hk, by simp [h1, h2]⟩
  obtain ⟨st, hst⟩ := Option.isSome_iff_exists.mp hsome
  have hmem := mem_of_lookup _ _ _ hst
  simp only [StoragesInfoStream.built, registeredStorages, List.mem_reverse, List.mem_map] at hmem
  obtain ⟨k1, hk1, hk1e⟩ := hmem
  have hst2 : st = k1.2.2 := by
    have := congrArg Prod.snd hk1e
    exact this.symm
  obtain ⟨_, hk1t⟩ := mem_candidateKeys _ _ _ _ _ hk1
  obtain ⟨_, hm, _⟩ := mem_tablesOf _ _ _ _ _ hk1t
  cases hmt : st.merge_tree with
  | none =>
      rw [hst2] at hmt
      simp [hmt] at hm
  | some d => exact ⟨st, d, hst, hmt⟩

theorem next_propagates_aux (lock : LockStructureForShare) (n : Nat) :
    ∀ s : StoragesInfoStream, s.rows - s.next_row = n →
      ∀ (st : IStorage) (e : Exception), st ∈ (s.next lock).lock_attempts →
        lock st false s.query_id s.settings.lock_acquire_timeout = .error e →
        e.code ≠ ErrorCodes.TABLE_IS_DROPPED →
        (s.next lock).outcome = .error (.exception e)
          ∧ (s.next lock).lock_attempts.getLast? = some st := by
  induction n using Nat.strong_induction_on with
  | _ n ih =>
    intro s hn st e hst he hcode
    rw [next_unfold] at hst ⊢
    by_cases hlt : s.next_row < s.rows
    · have hrun := currentRun_length s hlt
      rw [if_pos hlt] at hst ⊢
      rcases lockTable_cases lock s (s.rowAt s.next_row).1 (s.rowAt s.next_row).2.1
        (s.currentRun.any (fun x => x.2.2 == 0)) with ⟨_, h⟩ | ⟨st1, _, h⟩
      · rw [h] at hst
        simp at hst
      · rcases h with ⟨e1, hl, hc, h⟩ | ⟨e1, hl, hc, h⟩ | ⟨l, hl, _, h⟩ | ⟨l, d, hl, _, h⟩
        · rw [h] at hst ⊢
          simp only [List.mem_append, List.mem_singleton] at hst
          rcases hst with hst | hst
          · subst hst
            rw [hl] at he
            cases he
            exact absurd hc hcode
          · have := ih (s.rows - (s.next_row + s.currentRun.length)) (by omega)
              { s with next_row := s.next_row + s.currentRun.length } rfl st e hst he hcode
            refine ⟨this.1, ?_⟩
            simp only
            rw [List.getLast?_append, this.2]
            rfl
        · rw [h] at hst ⊢
          simp only [List.mem_singleton] at hst
          subst hst
          rw [hl] at he
          cases he
          exact ⟨rfl, rfl⟩
        · rw [h] at hst
          simp only [List.mem_singleton] at hst
          subst hst
          rw [hl] at he
          cases he
        · rw [h] at hst
          simp only [List.mem_singleton] at hst
          subst hst
          rw [hl] at he
          cases he
    · rw [if_neg hlt] at hst
      simp at hst

/-- C5: when a lock attempt made inside a call of `next` fails with an exception
whose code is not TABLE_IS_DROPPED, the call throws exactly that exception (so
it returns no descriptor), and the failing attempt is the last one the call
makes; hence TABLE_IS_DROPPED is the only lock failure a call of `next` gets
past. -/
theorem next_propagates_lock_failure (lock : LockStructureForShare) (s : StoragesInfoStream)
    (st : IStorage) (e : Exception) (hst : st ∈ (s.next lock).lock_attempts)
    (he : lock st false s.query_id s.settings.lock_acquire_timeout = .error e)
    (hcode : e.code ≠ ErrorCodes.TABLE_IS_DROPPED) :
    (s.next lock).outcome = .error (.exception e)
      ∧ (s.next lock).lock_attempts.getLast? = some st :=
  next_propagates_aux lock _ s rfl st e hst he hcode


/-- C7 (P5): when the database-level filter phase leaves no row (as it does when
every database of the catalog, if any, has the engine "Lazy"), the constructor
leaves `rows = 0`, no offsets, an empty `storages` map and empty columns, the
second filter phase hands the block back untouched, and the first call of
`next` returns end of stream with no lock attempt and the stream unchanged. -/
theorem no_candidate_short_circuit (query_info : SelectQueryInfo) (context : Context)
    (lock : LockStructureForShare)
    (h : VirtualColumnUtils.filterDatabaseColumn query_info
        ((context.databases.filter (fun database => database.2.engine_name != "Lazy")).map
          (fun d => d.1)) = []) :
    StoragesInfoStream.expansion query_info context
        = .ok { rows := 0, offsets := [], storages := [],
                block_to_filter := { database := [], table := [], engine := [], active := [] } }
    ∧ Expansion.filter query_info
          { rows := 0, offsets := [], storages := [],
            block_to_filter := { database := [], table := [], engine := [], active := [] } }
        = ({ database := [], table := [], engine := [], active := [] }, 0)
    ∧ StoragesInfoStream.ctor query_info context
        = .ok { query_id := context.current_query_id, settings := context.settings,
                database_column := [], table_column := [], active_column := [],
                rows := 0, next_row := 0, storages := [] }
    ∧ StoragesInfoStream.next lock
          { query_id := context.current_query_id, settings := context.settings,
            database_column := [], table_column := [], active_column := [],
            rows := 0, next_row := 0, storages := [] }
        = { outcome := .ok none
            stream :=
              { query_id := context.current_query_id, settings := context.settings,
                database_column := [], table_column := [], active_column := [],
                rows := 0, next_row := 0, storages := [] }
            lock_attempts := [] }
    ∧ ((∀ d ∈ context.databases, d.2.engine_name = "Lazy") →
        VirtualColumnUtils.filterDatabaseColumn query_info
          ((context.databases.filter (fun database => database.2.engine_name != "Lazy")).map
            (fun d => d.1)) = []) := by
  have h1 : StoragesInfoStream.expansion query_info context
      = .ok { rows := 0, offsets := [], storages := [],
              block_to_filter := { database := [], table := [], engine := [], active := [] } } := by
    unfold StoragesInfoStream.expansion
    simp only [h]
    rfl
  refine ⟨h1, rfl, ?_, rfl, ?_⟩
  · unfold StoragesInfoStream.ctor
    rw [h1]
    rfl
  · intro hlazy
    have : context.databases.filter (fun database => database.2.engine_name != "Lazy") = [] := by
      rw [List.filter_eq_nil_iff]
      intro d hd
      simp [hlazy d hd]
    rw [this]
    rfl


theorem readAll_stream (lock : LockStructureForShare) (n : Nat) :
    ∀ s : StoragesInfoStream, s.rows - s.next_row = n → s.next_row ≤ s.rows →
      (StorageSystemPartsBase.readAll lock s).thrown = none →
      (StorageSystemPartsBase.readAll lock s).stream = { s with next_row := s.rows } := by
  induction n using Nat.strong_induction_on with
  | _ n ih =>
    intro s hn hle hth
    rw [readAll_unfold] at hth ⊢
    by_cases hlt : s.next_row < s.rows
    · have hrun := currentRun_length s hlt
      rw [if_pos hlt] at hth ⊢
      have hih := ih (s.rows - (s.next_row + s.currentRun.length)) (by omega)
        { s with next_row := s.next_row + s.currentRun.length } rfl hrun.2
      generalize s.lockTable lock (s.rowAt s.next_row).1 (s.rowAt s.next_row).2.1
        (s.currentRun.any (fun x => x.2.2 == 0)) = lt at hth ⊢
      obtain ⟨att1, ex⟩ := lt
      cases ex with
      | skipped => exact hih hth
      | returned info => exact hih hth
      | threw e => simp at hth
    · rw [if_neg hlt]
      have hnr : s.next_row = s.rows := by omega
      cases s
      simp only at hnr ⊢
      subst hnr
      rfl

theorem describeRuns_dropped (s : StoragesInfoStream) (D : IStorage → Bool)
    (lock0 lockD : LockStructureForShare)
    (h0 : ∀ st b qid t, ∃ l, lock0 st b qid t = .ok l)
    (hD : ∀ st b qid t, D st = true →
      ∃ e, lockD st b qid t = .error e ∧ e.code = ErrorCodes.TABLE_IS_DROPPED)
    (hnD : ∀ st b qid t, D st = false → lockD st b qid t = lock0 st b qid t) :
    ∀ rs : List (List (String × String × Nat)),
      (∀ run ∈ rs, ∀ r tl, run = r :: tl →
        ∃ st d, s.storages.at (r.1, r.2.1) = some st ∧ st.merge_tree = some d) →
      (s.describeRuns lockD rs).thrown = none
        ∧ (s.describeRuns lock0 rs).thrown = none
        ∧ (s.describeRuns lockD rs).infos
            = (s.describeRuns lock0 rs).infos.filter (fun info => !D info.storage) := by
  intro rs
  induction rs with
  | nil => intro _; exact ⟨rfl, rfl, rfl⟩
  | cons run rest ih =>
      intro hreg
      have hrest := ih (fun run hrun => hreg run (List.mem_cons_of_mem _ hrun))
      cases run with
      | nil => simpa only [StoragesInfoStream.describeRuns] using hrest
      | cons r tl =>
          obtain ⟨st, d, hat, hm⟩ := hreg _ (List.mem_cons_self _ _) r tl rfl
          obtain ⟨l0, hl0⟩ := h0 st false s.query_id s.settings.lock_acquire_timeout
          have e0 : ∀ need, s.lockTable lock0 r.1 r.2.1 need
              = ([st], .returned
                  { storage := st, table_lock := l0, database := r.1, table := r.2.1,
                    engine := st.name, need_inactive_parts := need, data := d }) := by
            intro need
            unfold StoragesInfoStream.lockTable
            simp only [hat, hl0, hm]
          cases hd : D st with
          | true =>
              obtain ⟨e, hle, hc⟩ := hD st false s.query_id s.settings.lock_acquire_timeout hd
              have eD : ∀ need, s.lockTable lockD r.1 r.2.1 need = ([st], .skipped) := by
                intro need
                unfold StoragesInfoStream.lockTable
                simp only [hat, hle, hc, if_true]
              simp only [StoragesInfoStream.describeRuns, e0, eD]
              refine ⟨hrest.1, hrest.2.1, ?_⟩
              rw [List.filter_cons]
              simp only [hd, Bool.not_true, Bool.false_eq_true, if_false]
              exact hrest.2.2
          | false =>
              have eD : ∀ need, s.lockTable lockD r.1 r.2.1 need
                  = ([st], .returned
                      { storage := st, table_lock := l0, database := r.1, table := r.2.1,
                        engine := st.name, need_inactive_parts := need, data := d }) := by
                intro need
                unfold StoragesInfoStream.lockTable
                simp only [hat, hnD st false s.query_id s.settings.lock_acquire_timeout hd,
                  hl0, hm]
              simp only [StoragesInfoStream.describeRuns, e0, eD]
              refine ⟨hrest.1, hrest.2.1, ?_⟩
              rw [List.filter_cons]
              simp only [hd, Bool.not_false, if_true]
              rw [hrest.2.2]

/-- C4 (P3): let the lock attempts on the storages in `D` fail with
TABLE_IS_DROPPED while every other attempt succeeds as it does in the run with
no drops.  Then the enumeration pass over a stream built by the constructor
ends with no exception, its descriptors are those of the run with no drops
without the ones whose storage is in `D` (the others unchanged, in the same
order), the cursor ends at `rows` and a further call of `next` reports end of
stream; when every table is dropped the pass yields no descriptor. -/
theorem benign_race (query_info : SelectQueryInfo) (context : Context) (s : StoragesInfoStream)
    (D : IStorage → Bool) (lock0 lockD : LockStructureForShare)
    (hs : StoragesInfoStream.ctor query_info context = .ok s)
    (h0 : ∀ st b qid t, ∃ l, lock0 st b qid t = .ok l)
    (hD : ∀ st b qid t, D st = true →
      ∃ e, lockD st b qid t = .error e ∧ e.code = ErrorCodes.TABLE_IS_DROPPED)
    (hnD : ∀ st b qid t, D st = false → lockD st b qid t = lock0 st b qid t) :
    (StorageSystemPartsBase.readAll lockD s).thrown = none
      ∧ (StorageSystemPartsBase.readAll lockD s).infos
          = (StorageSystemPartsBase.readAll lock0 s).infos.filter (fun info => !D info.storage)
      ∧ (StorageSystemPartsBase.readAll lockD s).stream.next_row = s.rows
      ∧ ((StorageSystemPartsBase.readAll lockD s).stream.next lockD).outcome = .ok none
      ∧ ((StorageSystemPartsBase.readAll lockD s).stream.next lockD).lock_attempts = []
      ∧ ((∀ info ∈ (StorageSystemPartsBase.readAll lock0 s).infos, D info.storage = true) →
          (StorageSystemPartsBase.readAll lockD s).infos = []) := by
  rw [ctor_eq_built] at hs
  cases hs
  have hreg : ∀ run ∈ runs (StoragesInfoStream.built query_info context).remaining,
      ∀ r tl, run = r :: tl →
        ∃ st d, (StoragesInfoStream.built query_info context).storages.at (r.1, r.2.1) = some st
          ∧ st.merge_tree = some d := by
    intro run hrun r tl hr
    obtain ⟨r1, tl1, e1, e2, _⟩ := mem_runs _ _ rfl run hrun
    rw [hr] at e1
    cases e1
    exact built_registered query_info context r e2
  obtain ⟨a1, a2, a3⟩ := describeRuns_dropped _ D lock0 lockD h0 hD hnD _ hreg
  obtain ⟨b1, b2, _⟩ := readAll_infos_eq lockD (StoragesInfoStream.built query_info context)
  obtain ⟨c1, _, _⟩ := readAll_infos_eq lock0 (StoragesInfoStream.built query_info context)
  have hth : (StorageSystemPartsBase.readAll lockD (StoragesInfoStream.built query_info context)).thrown = none := by
    rw [b2, a1]
  have hinf : (StorageSystemPartsBase.readAll lockD (StoragesInfoStream.built query_info context)).infos
      = (StorageSystemPartsBase.readAll lock0 (StoragesInfoStream.built query_info context)).infos.filter
          (fun info => !D info.storage) := by
    rw [b1, c1, a3]
  have hstream := readAll_stream lockD _ (StoragesInfoStream.built query_info context) rfl
    (Nat.zero_le _) hth
  refine ⟨hth, hinf, ?_, ?_, ?_, ?_⟩
  · rw [hstream]
  · rw [hstream, next_at_end lockD _ (by simp)]
  · rw [hstream, next_at_end lockD _ (by simp)]
  · intro hall
    rw [hinf, List.filter_eq_nil_iff]
    intro info hinfo
    simp [hall info hinfo]

/-- C6 (P4): with the predicate engine as an order-preserving row filter, the
columns of the stream are those of the block left by the second filter phase;
on every row (database, table, engine, active) of that block the
database-only predicate holds of the database value and the full predicate
holds of the row; and every descriptor the enumeration pass yields has such a
row for its (database, table). -/
theorem predicate_soundness (query_info : SelectQueryInfo) (context : Context)
    (lock : LockStructureForShare) (x : Expansion) (s : StoragesInfoStream)
    (hx : StoragesInfoStream.expansion query_info context = .ok x)
    (hs : StoragesInfoStream.ctor query_info context = .ok s) :
    (s.database_column = (x.filter query_info).1.database
        ∧ s.table_column = (x.filter query_info).1.table
        ∧ s.active_column = (x.filter query_info).1.active
        ∧ s.rows = (x.filter query_info).2)
      ∧ (∀ r ∈ (x.filter query_info).1.toRows,
          query_info.database_only r.1 = true
            ∧ query_info.full r.1 r.2.1 r.2.2.1 r.2.2.2 = true)
      ∧ ∀ info ∈ (StorageSystemPartsBase.readAll lock s).infos,
          ∃ r ∈ (x.filter query_info).1.toRows,
            r.1 = info.database ∧ r.2.1 = info.table
              ∧ query_info.database_only r.1 = true
              ∧ query_info.full r.1 r.2.1 r.2.2.1 r.2.2.2 = true := by
  have hcols : s.database_column = (x.filter query_info).1.database
      ∧ s.table_column = (x.filter query_info).1.table
      ∧ s.active_column = (x.filter query_info).1.active
      ∧ s.rows = (x.filter query_info).2 := by
    unfold StoragesInfoStream.ctor at hs
    rw [hx] at hs
    cases hs
    exact ⟨rfl, rfl, rfl, rfl⟩
  rw [expansion_eq_built] at hx
  cases hx
  rw [ctor_eq_built] at hs
  cases hs
  have hrows : ∀ r ∈ ((Expansion.built query_info context).filter query_info).1.toRows,
      query_info.database_only r.1 = true
        ∧ query_info.full r.1 r.2.1 r.2.2.1 r.2.2.2 = true := by
    intro r hr
    rw [built_filter_toRows] at hr
    obtain ⟨hfull, k, hk, h1, _⟩ := mem_survivingRows query_info context r hr
    obtain ⟨hn, _⟩ := mem_candidateKeys _ _ _ _ _ hk
    rw [← h1] at hn
    exact ⟨(mem_survivingDatabases query_info context _ hn).1, hfull⟩
  refine ⟨hcols, hrows, ?_⟩
  intro info hinfo
  rw [(readAll_infos_eq lock _).1] at hinfo
  obtain ⟨r, tl, att, hrun, hlt⟩ := describeRuns_infos lock _ _ info hinfo
  obtain ⟨hdb, htb, _⟩ := lockTable_returned lock _ _ _ _ _ _ hlt
  obtain ⟨r1, tl1, e1, e2, _⟩ := mem_runs _ _ rfl _ hrun
  cases e1
  rw [built_remaining, List.mem_map] at e2
  obtain ⟨r4, hr4, rfl⟩ := e2
  rw [← built_filter_toRows] at hr4
  exact ⟨r4, hr4, hdb.symm, htb.symm, (hrows r4 hr4).1, (hrows r4 hr4).2⟩

/-! ## Theorems: runs of a stream built from a well-formed catalog -/

theorem takeWhile_dropWhile_append {α : Type} (p : α → Bool) (a b : List α)
    (ha : ∀ x ∈ a, p x = true) (hb : ∀ y ∈ b, p y = false) :
    (a ++ b).takeWhile p = a ∧ (a ++ b).dropWhile p = b := by
  induction a with
  | nil =>
      cases b with
      | nil => exact ⟨rfl, rfl⟩
      | cons y b =>
          have := hb y (List.mem_cons_self _ _)
          simp [List.takeWhile_cons, List.dropWhile_cons, this]
  | cons x a ih =>
      have hx := ha x (List.mem_cons_self _ _)
      have := ih (fun z hz => ha z (List.mem_cons_of_mem _ hz))
      simp [List.takeWhile_cons, List.dropWhile_cons, hx, this]

theorem runs_flatMap {κ : Type} (key : κ → String × String)
    (g : κ → List (String × String × Nat)) :
    ∀ ks : List κ, (∀ k ∈ ks, ∀ x ∈ g k, (x.1, x.2.1) = key k) → (ks.map key).Nodup →
      runs (ks.flatMap g) = (ks.map g).filter (fun l => !l.isEmpty) := by
  intro ks
  induction ks with
  | nil => intro _ _; simp [runs]
  | cons k ks ih =>
      intro hkey hnd
      rw [List.map_cons, List.nodup_cons] at hnd
      have hih := ih (fun k1 hk1 => hkey k1 (List.mem_cons_of_mem _ hk1)) hnd.2
      rw [List.flatMap_cons, List.map_cons, List.filter_cons]
      cases hg : g k with
      | nil => simpa using hih
      | cons r tl =>
          have hr : (r.1, r.2.1) = key k := hkey k (List.mem_cons_self _ _) r (by simp [hg])
          have htl : ∀ x ∈ tl, sameTable r.1 r.2.1 x = true := by
            intro x hx
            have := hkey k (List.mem_cons_self _ _) x (by simp [hg, hx])
            rw [← hr] at this
            simp only [Prod.mk.injEq] at this
            simp [sameTable, this.1, this.2]
          have hrest : ∀ y ∈ ks.flatMap g, sameTable r.1 r.2.1 y = false := by
            intro y hy
            rw [List.mem_flatMap] at hy
            obtain ⟨k1, hk1, hy1⟩ := hy
            have h1 := hkey k1 (List.mem_cons_of_mem _ hk1) y hy1
            rw [Bool.eq_false_iff]
            intro hs
            simp only [sameTable, Bool.and_eq_true, beq_iff_eq] at hs
            apply hnd.1
            rw [← hr, ← hs.1, ← hs.2, h1]
            exact List.mem_map_of_mem _ hk1
          obtain ⟨e1, e2⟩ := takeWhile_dropWhile_append _ tl _ htl hrest
          rw [List.cons_append, runs_cons, e1, e2, hih]
          simp

theorem survivingDatabases_nodup (query_info : SelectQueryInfo) (context : Context)
    (hwf : context.databases.WellFormed) : (survivingDatabases query_info context).Nodup := by
  unfold survivingDatabases VirtualColumnUtils.filterDatabaseColumn
  apply List.Nodup.sublist (List.filter_sublist _)
  exact List.Nodup.sublist (List.Sublist.map _ (List.filter_sublist _)) hwf.1

theorem tablesOf_nodup (context : Context) (chk : Bool) (n : String)
    (hwf : context.databases.WellFormed) :
    ((tablesOf context context.databases chk n).map (fun entry => entry.1)).Nodup := by
  unfold tablesOf
  cases hat : context.databases.at n with
  | none => simp
  | some database =>
      simp only
      have hmem := mem_of_lookup _ _ _ hat
      have := hwf.2 _ hmem
      exact List.Nodup.sublist (List.Sublist.map _ (List.filter_sublist _)) this

theorem candidateKeys_nodup (context : Context) (chk : Bool)
    (hwf : context.databases.WellFormed) :
    ∀ names : List String, names.Nodup →
      ((candidateKeys context context.databases chk names).map
        (fun k => (k.1, k.2.1))).Nodup := by
  intro names
  induction names with
  | nil => intro _; simp [candidateKeys]
  | cons n names ih =>
      intro hnd
      rw [List.nodup_cons] at hnd
      rw [candidateKeys_cons, List.map_append, List.nodup_append]
      refine ⟨?_, ih hnd.2, ?_⟩
      · rw [List.map_map]
        have := tablesOf_nodup context chk n hwf
        have h2 : ((tablesOf context context.databases chk n).map
            ((fun k : String × String × IStorage => (k.1, k.2.1)) ∘ fun entry => (n, entry)))
            = ((tablesOf context context.databases chk n).map (fun entry => entry.1)).map
                (fun t => (n, t)) := by
          rw [List.map_map]
          rfl
        rw [h2]
        exact List.Nodup.map (fun a b hab => (Prod.mk.inj hab).2) this
      · intro a ha hb
        simp only [List.mem_map] at ha hb
        obtain ⟨k1, hk1, rfl⟩ := ha
        obtain ⟨e, _, rfl⟩ := hk1
        obtain ⟨k2, hk2, hk2e⟩ := hb
        have := (mem_candidateKeys _ _ _ _ _ hk2).1
        have h3 : k2.1 = n := (Prod.mk.inj hk2e).1
        rw [h3] at this
        exact hnd.1 this

theorem built_remaining_groups (query_info : SelectQueryInfo) (context : Context) :
    (StoragesInfoStream.built query_info context).remaining
      = (candidateKeys context context.databases (!context.show_tables_granted)
          (survivingDatabases query_info context)).flatMap (survivingGroup query_info) := by
  rw [built_remaining]
  simp only [survivingRows, candidateRows, List.filter_flatMap, List.map_flatMap]
  rfl

theorem survivingGroup_key (query_info : SelectQueryInfo) (k : String × String × IStorage)
    (x : String × String × Nat) (hx : x ∈ survivingGroup query_info k) :
    (x.1, x.2.1) = (k.1, k.2.1) := by
  simp only [survivingGroup, syntheticRows, List.mem_map, List.mem_filter, List.mem_cons,
    List.mem_singleton, List.not_mem_nil, or_false] at hx
  obtain ⟨r, ⟨hr | hr, _⟩, rfl⟩ := hx <;> rw [hr]

/-- The runs of the rows of a stream built from a well-formed catalog are the
non-empty groups of surviving rows of the candidate tables. -/
theorem built_runs (query_info : SelectQueryInfo) (context : Context)
    (hwf : context.databases.WellFormed) :
    runs (StoragesInfoStream.built query_info context).remaining
      = ((candidateKeys context context.databases (!context.show_tables_granted)
            (survivingDatabases query_info context)).map (survivingGroup query_info)).filter
          (fun l => !l.isEmpty) := by
  rw [built_remaining_groups]
  exact runs_flatMap (fun k => (k.1, k.2.1)) _ _
    (fun k _ x hx => survivingGroup_key query_info k x hx)
    (candidateKeys_nodup context _ hwf _ (survivingDatabases_nodup query_info context hwf))

theorem rowAt_eq_iff (s : StoragesInfoStream) (i : Nat) (a b : String) (c : Nat) :
    s.rowAt i = (a, b, c)
      ↔ s.database_column.getD i "" = a ∧ s.table_column.getD i "" = b
          ∧ s.active_column.getD i 0 = c := by
  simp [StoragesInfoStream.rowAt]

/-- C1 (P1): over the rows built by the constructor from a catalog whose database
names are distinct and whose table names are distinct inside each database,
every descriptor the enumeration pass yields has `need_inactive_parts` set if
and only if some row that survived both filter phases has the descriptor's
database and table and `active = 0`. -/
theorem need_inactive_parts_iff (query_info : SelectQueryInfo) (context : Context)
    (lock : LockStructureForShare) (s : StoragesInfoStream) (info : StoragesInfo)
    (hwf : context.databases.WellFormed)
    (hs : StoragesInfoStream.ctor query_info context = .ok s)
    (hinfo : info ∈ (StorageSystemPartsBase.readAll lock s).infos) :
    info.need_inactive_parts = true
      ↔ ∃ i, i < s.rows ∧ s.database_column.getD i "" = info.database
          ∧ s.table_column.getD i "" = info.table ∧ s.active_column.getD i 0 = 0 := by
  rw [ctor_eq_built] at hs
  cases hs
  have hrhs : (∃ i, i < (StoragesInfoStream.built query_info context).rows
        ∧ (StoragesInfoStream.built query_info context).database_column.getD i "" = info.database
        ∧ (StoragesInfoStream.built query_info context).table_column.getD i "" = info.table
        ∧ (StoragesInfoStream.built query_info context).active_column.getD i 0 = 0)
      ↔ (info.database, info.table, 0)
          ∈ (StoragesInfoStream.built query_info context).remaining := by
    rw [mem_remaining_iff]
    constructor
    · rintro ⟨i, h1, h2⟩
      exact ⟨i, Nat.zero_le _, h1, (rowAt_eq_iff _ _ _ _ _).mpr h2⟩
    · rintro ⟨i, _, h1, h2⟩
      exact ⟨i, h1, (rowAt_eq_iff _ _ _ _ _).mp h2⟩
  rw [hrhs]
  rw [(readAll_infos_eq lock _).1] at hinfo
  obtain ⟨r, tl, att, hrun, hlt⟩ := describeRuns_infos lock _ _ info hinfo
  obtain ⟨hdb, htb, hneed, _⟩ := lockTable_returned lock _ _ _ _ _ _ hlt
  have hrun2 := hrun
  rw [built_runs query_info context hwf, List.mem_filter, List.mem_map] at hrun2
  obtain ⟨⟨k, hk, hgk⟩, _⟩ := hrun2
  have hkey : (r.1, r.2.1) = (k.1, k.2.1) :=
    survivingGroup_key query_info k r (by rw [hgk]; exact List.mem_cons_self _ _)
  rw [hneed, hdb, htb, List.any_eq_true]
  constructor
  · rintro ⟨x, hx, hx0⟩
    have hxk := survivingGroup_key query_info k x (by rw [hgk]; exact hx)
    rw [← hkey] at hxk
    simp only [Prod.mk.injEq] at hxk
    have hx0' : x.2.2 = 0 := by simpa using hx0
    have hxe : x = (r.1, r.2.1, 0) := by
      rw [← hxk.1, ← hxk.2, ← hx0']
    rw [← hxe, built_remaining_groups, List.mem_flatMap]
    exact ⟨k, hk, by rw [hgk]; exact hx⟩
  · intro hmem
    rw [built_remaining_groups, List.mem_flatMap] at hmem
    obtain ⟨k1, hk1, hx⟩ := hmem
    have hk1key := survivingGroup_key query_info k1 _ hx
    simp only at hk1key
    have hkk : k1 = k := by
      apply List.inj_on_of_nodup_map
        (candidateKeys_nodup context _ hwf _ (survivingDatabases_nodup query_info context hwf))
        hk1 hk
      rw [← hk1key, hkey]
    rw [hkk, hgk] at hx
    exact ⟨_, hx, by simp⟩

theorem describeRuns_keys_sublist (lock : LockStructureForShare) (s : StoragesInfoStream) :
    ∀ rs : List (List (String × String × Nat)),
      ((s.describeRuns lock rs).infos.map (fun info => (info.database, info.table))).Sublist
        (rs.filterMap (fun run => run.head?.map (fun r => (r.1, r.2.1)))) := by
  intro rs
  induction rs with
  | nil => simp [StoragesInfoStream.describeRuns]
  | cons run rest ih =>
      cases run with
      | nil => simpa [StoragesInfoStream.describeRuns] using ih
      | cons r tl =>
          rw [StoragesInfoStream.describeRuns]
          have hhead : (List.filterMap (fun run : List (String × String × Nat) =>
              run.head?.map (fun r => (r.1, r.2.1))) ((r :: tl) :: rest))
              = (r.1, r.2.1) :: List.filterMap (fun run : List (String × String × Nat) =>
                  run.head?.map (fun r => (r.1, r.2.1))) rest := by
            simp [List.filterMap_cons]
          rw [hhead]
          cases hlt : s.lockTable lock r.1 r.2.1 ((r :: tl).any (fun x => x.2.2 == 0)) with
          | mk att ex =>
              cases ex with
              | skipped => exact List.Sublist.cons _ ih
              | returned info =>
                  obtain ⟨hdb, htb, _⟩ := lockTable_returned lock _ _ _ _ _ _ hlt
                  simp only [List.map_cons, hdb, htb]
                  exact List.Sublist.cons₂ _ ih
              | threw e => simp

theorem groups_keys_sublist {κ : Type} (key : κ → String × String)
    (g : κ → List (String × String × Nat)) :
    ∀ ks : List κ, (∀ k ∈ ks, ∀ x ∈ g k, (x.1, x.2.1) = key k) →
      ((((ks.map g).filter (fun l => !l.isEmpty)).filterMap
          (fun run => run.head?.map (fun r => (r.1, r.2.1))))).Sublist (ks.map key) := by
  intro ks
  induction ks with
  | nil => intro _; simp
  | cons k ks ih =>
      intro hkey
      have hih := ih (fun k1 hk1 => hkey k1 (List.mem_cons_of_mem _ hk1))
      rw [List.map_cons, List.filter_cons, List.map_cons]
      cases hg : g k with
      | nil => simpa using List.Sublist.cons _ hih
      | cons r tl =>
          have hr : (r.1, r.2.1) = key k := hkey k (List.mem_cons_self _ _) r (by simp [hg])
          simp only [List.isEmpty_cons, Bool.not_false, if_true, List.filterMap_cons,
            List.head?_cons, Option.map_some']
          rw [hr]
          exact List.Sublist.cons₂ _ hih

theorem contiguous_append {α : Type} (A B : List α) (c : α)
    (hA : ∀ a ∈ A, a = c) (hB : c ∉ B)
    (hcont : ∀ (i m j : Nat) (x : α), i ≤ m → m ≤ j → B[i]? = some x → B[j]? = some x → B[m]? = some x) :
    ∀ (i m j : Nat) (x : α), i ≤ m → m ≤ j → (A ++ B)[i]? = some x → (A ++ B)[j]? = some x →
      (A ++ B)[m]? = some x := by
  intro i m j x him hmj hi hj
  by_cases hjA : j < A.length
  · have hmA : m < A.length := by omega
    have hiA : i < A.length := by omega
    rw [List.getElem?_append_left hiA] at hi
    rw [List.getElem?_append_left hmA]
    have hx : x = c := hA x (List.getElem?_mem hi)
    rw [List.getElem?_eq_getElem hmA, hx, hA _ (List.getElem_mem hmA)]
  · have hjA' : A.length ≤ j := by omega
    rw [List.getElem?_append_right hjA'] at hj
    have hxB : x ∈ B := List.getElem?_mem hj
    by_cases hiA : i < A.length
    · rw [List.getElem?_append_left hiA] at hi
      have hx : x = c := hA x (List.getElem?_mem hi)
      rw [hx] at hxB
      exact absurd hxB hB
    · have hiA' : A.length ≤ i := by omega
      have hmA' : A.length ≤ m := by omega
      rw [List.getElem?_append_right hiA'] at hi
      rw [List.getElem?_append_right hmA']
      exact hcont (i - A.length) (m - A.length) (j - A.length) x (by omega) (by omega) hi hj

theorem contiguous_flatMap {κ : Type} (key : κ → String × String)
    (g : κ → List (String × String × Nat)) :
    ∀ ks : List κ, (∀ k ∈ ks, ∀ x ∈ g k, (x.1, x.2.1) = key k) → (ks.map key).Nodup →
      ∀ (i m j : Nat) (x : String × String), i ≤ m → m ≤ j →
        ((ks.flatMap g).map (fun r => (r.1, r.2.1)))[i]? = some x →
        ((ks.flatMap g).map (fun r => (r.1, r.2.1)))[j]? = some x →
        ((ks.flatMap g).map (fun r => (r.1, r.2.1)))[m]? = some x := by
  intro ks
  induction ks with
  | nil =>
      intro _ _ i m j x _ _ hi _
      simp at hi
  | cons k ks ih =>
      intro hkey hnd
      rw [List.map_cons, List.nodup_cons] at hnd
      have hih := ih (fun k1 hk1 => hkey k1 (List.mem_cons_of_mem _ hk1)) hnd.2
      rw [List.flatMap_cons, List.map_append]
      apply contiguous_append _ _ (key k)
      · intro a ha
        rw [List.mem_map] at ha
        obtain ⟨r, hr, rfl⟩ := ha
        exact hkey k (List.mem_cons_self _ _) r hr
      · intro hmem
        rw [List.mem_map] at hmem
        obtain ⟨r, hr, hrk⟩ := hmem
        rw [List.mem_flatMap] at hr
        obtain ⟨k1, hk1, hr1⟩ := hr
        apply hnd.1
        rw [← hrk, hkey k1 (List.mem_cons_of_mem _ hk1) r hr1]
        exact List.mem_map_of_mem _ hk1
      · exact hih

theorem remaining_getElem? (s : StoragesInfoStream) (h0 : s.next_row = 0) (i : Nat)
    (hi : i < s.rows) :
    (s.remaining.map (fun r => (r.1, r.2.1)))[i]?
      = some (s.database_column.getD i "", s.table_column.getD i "") := by
  unfold StoragesInfoStream.remaining
  rw [h0]
  simp [List.getElem?_map, List.getElem?_range', hi, StoragesInfoStream.rowAt]

/-- C8: for a catalog whose database names are distinct and whose table names are
distinct inside each database, the rows surviving both filter phases lie in
contiguous runs per (database, table): between two rows of the same pair there
are only rows of that pair.  So an enumeration pass yields at most one
descriptor per (database, table): the pairs of its descriptors are pairwise
distinct. -/
theorem one_descriptor_per_table (query_info : SelectQueryInfo) (context : Context)
    (lock : LockStructureForShare) (s : StoragesInfoStream)
    (hwf : context.databases.WellFormed)
    (hs : StoragesInfoStream.ctor query_info context = .ok s) :
    (∀ i m j, i ≤ m → m ≤ j → j < s.rows →
        (s.database_column.getD i "", s.table_column.getD i "")
          = (s.database_column.getD j "", s.table_column.getD j "") →
        (s.database_column.getD m "", s.table_column.getD m "")
          = (s.database_column.getD i "", s.table_column.getD i ""))
      ∧ ((StorageSystemPartsBase.readAll lock s).infos.map (fun info => (info.database, info.table))).Nodup := by
  rw [ctor_eq_built] at hs
  cases hs
  have hnd := candidateKeys_nodup context (!context.show_tables_granted) hwf _
    (survivingDatabases_nodup query_info context hwf)
  constructor
  · intro i m j him hmj hj heq
    have h0 : (StoragesInfoStream.built query_info context).next_row = 0 := rfl
    have hi := remaining_getElem? _ h0 i (by omega)
    have hm := remaining_getElem? _ h0 m (by omega)
    have hj' := remaining_getElem? _ h0 j hj
    rw [← heq] at hj'
    rw [built_remaining_groups] at hi hm hj'
    have := contiguous_flatMap (fun k : String × String × IStorage => (k.1, k.2.1))
      (survivingGroup query_info) _
      (fun k _ x hx => survivingGroup_key query_info k x hx) hnd i m j _ him hmj hi hj'
    rw [hm] at this
    exact Option.some.inj this
  · rw [(readAll_infos_eq lock _).1, built_runs query_info context hwf]
    apply List.Nodup.sublist _ hnd
    exact (describeRuns_keys_sublist lock _ _).trans
      (groups_keys_sublist (fun k : String × String × IStorage => (k.1, k.2.1))
        (survivingGroup query_info) _ (fun k _ x hx => survivingGroup_key query_info k x hx))

theorem dropWhile_bothRows (d t : String) :
    ∀ ks : List (String × String × IStorage),
      (ks.flatMap bothRows).dropWhile (sameTable d t)
        = (ks.dropWhile (fun k => k.1 == d && k.2.1 == t)).flatMap bothRows := by
  intro ks
  induction ks with
  | nil => rfl
  | cons k ks ih =>
      by_cases hk : (k.1 == d && k.2.1 == t) = true
      · rw [List.dropWhile_cons, if_pos hk, ← ih]
        simp only [List.flatMap_cons, bothRows, List.cons_append, List.nil_append,
          List.dropWhile_cons, sameTable, hk, if_true]
      · rw [List.dropWhile_cons, if_neg hk]
        simp only [List.flatMap_cons, bothRows, List.cons_append, List.nil_append,
          List.dropWhile_cons, sameTable, hk]
        rfl

theorem runs_bothRows (n : Nat) :
    ∀ ks : List (String × String × IStorage), ks.length = n →
      ∀ run ∈ runs (ks.flatMap bothRows), run.any (fun x => x.2.2 == 0) = true := by
  induction n using Nat.strong_induction_on with
  | _ n ih =>
    intro ks hn run hrun
    cases ks with
    | nil => simp [runs] at hrun
    | cons k ks =>
        simp only [List.flatMap_cons, bothRows, List.cons_append, List.nil_append] at hrun
        rw [runs_cons] at hrun
        simp only [List.mem_cons] at hrun
        rcases hrun with hrun | hrun
        · rw [hrun]
          simp
        · have h1 : sameTable k.1 k.2.1 (k.1, k.2.1, 1) = true := by simp [sameTable]
          rw [List.dropWhile_cons, if_pos h1] at hrun
          have h2 := dropWhile_bothRows k.1 k.2.1 ks
          simp only [bothRows] at h2
          rw [h2] at hrun
          have hlen : (ks.dropWhile (fun k1 => k1.1 == k.1 && k1.2.1 == k.2.1)).length < n := by
            have := List.Sublist.length_le
              (List.dropWhile_sublist (fun k1 : String × String × IStorage =>
                k1.1 == k.1 && k1.2.1 == k.2.1) (l := ks))
            simp only [List.length_cons] at hn
            omega
          exact ih _ hlen _ rfl run hrun

theorem survivingGroup_of_independent (query_info : SelectQueryInfo)
    (hind : ∀ d t e a a', query_info.full d t e a = query_info.full d t e a')
    (k : String × String × IStorage) :
    survivingGroup query_info k
      = if query_info.full k.1 k.2.1 k.2.2.name 0 = true then bothRows k else [] := by
  have h1 := hind k.1 k.2.1 k.2.2.name 1 0
  by_cases h0 : query_info.full k.1 k.2.1 k.2.2.name 0 = true
  · simp [survivingGroup, syntheticRows, bothRows, List.filter_cons, h0, h1]
  · simp [survivingGroup, syntheticRows, List.filter_cons, h0, h1]

theorem built_remaining_bothRows (query_info : SelectQueryInfo) (context : Context)
    (hind : ∀ d t e a a', query_info.full d t e a = query_info.full d t e a') :
    (StoragesInfoStream.built query_info context).remaining
      = ((candidateKeys context context.databases (!context.show_tables_granted)
            (survivingDatabases query_info context)).filter
          (fun k => query_info.full k.1 k.2.1 k.2.2.name 0)).flatMap bothRows := by
  rw [built_remaining_groups]
  generalize candidateKeys context context.databases (!context.show_tables_granted)
    (survivingDatabases query_info context) = ks
  induction ks with
  | nil => rfl
  | cons k ks ih =>
      rw [List.flatMap_cons, ih, survivingGroup_of_independent query_info hind, List.filter_cons]
      by_cases h0 : query_info.full k.1 k.2.1 k.2.2.name 0 = true
      · simp [h0]
      · simp [h0]

theorem countP_committed_outdated (parts : List DataPart)
    (h : ∀ p ∈ parts, p.state = .Committed ∨ p.state = .Outdated) :
    parts.length = parts.countP (fun p => p.state == .Committed)
      + parts.countP (fun p => p.state == .Outdated) := by
  induction parts with
  | nil => rfl
  | cons p parts ih =>
      have hp := h p (List.mem_cons_self _ _)
      have := ih (fun q hq => h q (List.mem_cons_of_mem _ hq))
      rcases hp with hp | hp
      · simp [List.countP_cons, hp]
        omega
      · simp [List.countP_cons, hp]
        omega

/-- C10 (scenario A): when the predicate does not depend on `active`, a row
(database, table, 0) survives both filter phases if and only if the row
(database, table, 1) does; every descriptor the pass yields has
`need_inactive_parts` set; `getParts` then asks at least for the Committed and
Outdated states and returns every Committed or Outdated part, so that for a
table whose parts are all Committed or Outdated it returns all of them, as
many as there are Committed parts plus Outdated parts. -/
theorem active_independent_predicate (query_info : SelectQueryInfo) (context : Context)
    (lock : LockStructureForShare) (s : StoragesInfoStream)
    (hind : ∀ d t e a a', query_info.full d t e a = query_info.full d t e a')
    (hs : StoragesInfoStream.ctor query_info context = .ok s) :
    (∀ d t : String,
        (∃ i, i < s.rows ∧ s.database_column.getD i "" = d ∧ s.table_column.getD i "" = t
            ∧ s.active_column.getD i 0 = 0)
          ↔ (∃ i, i < s.rows ∧ s.database_column.getD i "" = d ∧ s.table_column.getD i "" = t
              ∧ s.active_column.getD i 0 = 1))
      ∧ ∀ info ∈ (StorageSystemPartsBase.readAll lock s).infos,
          info.need_inactive_parts = true
            ∧ ∀ has_state_column : Bool,
                DataPartState.Committed
                    ∈ (StoragesInfo.getPartsCall info.need_inactive_parts has_state_column).states
                  ∧ DataPartState.Outdated
                    ∈ (StoragesInfo.getPartsCall info.need_inactive_parts has_state_column).states
                  ∧ (∀ p ∈ info.data.parts, p.state = .Committed ∨ p.state = .Outdated →
                      p ∈ (info.getParts has_state_column).1)
                  ∧ ((∀ p ∈ info.data.parts, p.state = .Committed ∨ p.state = .Outdated) →
                      (info.getParts has_state_column).1 = info.data.parts
                        ∧ (info.getParts has_state_column).1.length
                            = info.data.parts.countP (fun p => p.state == .Committed)
                              + info.data.parts.countP (fun p => p.state == .Outdated)) := by
  rw [ctor_eq_built] at hs
  cases hs
  have hmem : ∀ (d t : String) (a : Nat),
      (∃ i, i < (StoragesInfoStream.built query_info context).rows
          ∧ (StoragesInfoStream.built query_info context).database_column.getD i "" = d
          ∧ (StoragesInfoStream.built query_info context).table_column.getD i "" = t
          ∧ (StoragesInfoStream.built query_info context).active_column.getD i 0 = a)
        ↔ (d, t, a) ∈ (StoragesInfoStream.built query_info context).remaining := by
    intro d t a
    rw [mem_remaining_iff]
    constructor
    · rintro ⟨i, h1, h2⟩
      exact ⟨i, Nat.zero_le _, h1, (rowAt_eq_iff _ _ _ _ _).mpr h2⟩
    · rintro ⟨i, _, h1, h2⟩
      exact ⟨i, h1, (rowAt_eq_iff _ _ _ _ _).mp h2⟩
  constructor
  · intro d t
    rw [hmem, hmem, built_remaining_bothRows query_info context hind]
    simp only [List.mem_flatMap, bothRows, List.mem_cons, Prod.mk.injEq, List.mem_singleton,
      List.not_mem_nil, or_false]
    constructor
    · rintro ⟨k, hk, h | h⟩
      · exact ⟨k, hk, Or.inr ⟨h.1, h.2.1, trivial⟩⟩
      · exact absurd h.2.2 (by decide)
    · rintro ⟨k, hk, h | h⟩
      · exact absurd h.2.2 (by decide)
      · exact ⟨k, hk, Or.inl ⟨h.1, h.2.1, trivial⟩⟩
  · intro info hinfo
    rw [(readAll_infos_eq lock _).1] at hinfo
    obtain ⟨r, tl, att, hrun, hlt⟩ := describeRuns_infos lock _ _ info hinfo
    obtain ⟨_, _, hneed, _⟩ := lockTable_returned lock _ _ _ _ _ _ hlt
    rw [built_remaining_bothRows query_info context hind] at hrun
    have hany := runs_bothRows _ _ rfl _ hrun
    have hn : info.need_inactive_parts = true := by rw [hneed, hany]
    refine ⟨hn, ?_⟩
    intro b
    rw [hn]
    refine ⟨?_, ?_, ?_, ?_⟩
    · cases b <;> simp [StoragesInfo.getPartsCall, PartsCall.states, DataPartState.all]
    · cases b <;> simp [StoragesInfo.getPartsCall, PartsCall.states, DataPartState.all]
    · intro p hp hst
      cases b <;>
        simp [StoragesInfo.getParts, StoragesInfo.getPartsCall, PartsCall.perform,
          MergeTreeData.getDataPartsVector, MergeTreeData.getAllDataPartsVector, hn, hp, hst]
    · intro hall
      have hparts : (info.getParts b).1 = info.data.parts := by
        cases b
        · simp only [StoragesInfo.getParts, StoragesInfo.getPartsCall, PartsCall.perform,
            MergeTreeData.getDataPartsVector, hn, if_true, Bool.not_false]
          rw [List.filter_eq_self]
          intro p hp
          simpa using hall p hp
        · simp [StoragesInfo.getParts, StoragesInfo.getPartsCall, PartsCall.perform,
            MergeTreeData.getAllDataPartsVector, hn]
      exact ⟨hparts, by rw [hparts]; exact countP_committed_outdated _ hall⟩

/-! ## The theorems at the concrete catalog -/

/-- Scenario B at C1: for `active = 1` the descriptor of `d1.t1` has
`need_inactive_parts` unset, and no surviving row of `d1.t1` has `active = 0`. -/
theorem need_inactive_parts_iff_witness :
    Scenario.context.databases.WellFormed
      ∧ StoragesInfoStream.ctor Scenario.activeOnly Scenario.context = .ok Scenario.streamB
      ∧ Scenario.infoB
          ∈ (StorageSystemPartsBase.readAll Scenario.lockGranted Scenario.streamB).infos
      ∧ (Scenario.infoB.need_inactive_parts = true
          ↔ ∃ i, i < Scenario.streamB.rows
              ∧ Scenario.streamB.database_column.getD i "" = Scenario.infoB.database
              ∧ Scenario.streamB.table_column.getD i "" = Scenario.infoB.table
              ∧ Scenario.streamB.active_column.getD i 0 = 0) :=
  ⟨by decide, rfl, by decide,
    need_inactive_parts_iff Scenario.activeOnly Scenario.context Scenario.lockGranted
      Scenario.streamB Scenario.infoB (by decide) rfl (by decide)⟩

/-- Scenario C at C4: `d1.t1`, the only candidate table, is dropped before its lock
is taken; the pass yields no descriptor and no exception, and ends the stream. -/
theorem benign_race_witness :
    StoragesInfoStream.ctor Scenario.tableIsT1 Scenario.context = .ok Scenario.streamA
      ∧ (StorageSystemPartsBase.readAll Scenario.lockGranted Scenario.streamA).infos
          = [Scenario.infoA]
      ∧ (StorageSystemPartsBase.readAll Scenario.lockDropped Scenario.streamA).thrown = none
      ∧ (StorageSystemPartsBase.readAll Scenario.lockDropped Scenario.streamA).infos
          = (StorageSystemPartsBase.readAll Scenario.lockGranted Scenario.streamA).infos.filter
              (fun info => !Scenario.dropped info.storage)
      ∧ (StorageSystemPartsBase.readAll Scenario.lockDropped Scenario.streamA).stream.next_row
          = Scenario.streamA.rows
      ∧ ((StorageSystemPartsBase.readAll Scenario.lockDropped Scenario.streamA).stream.next
            Scenario.lockDropped).outcome = .ok none
      ∧ ((StorageSystemPartsBase.readAll Scenario.lockDropped Scenario.streamA).stream.next
            Scenario.lockDropped).lock_attempts = []
      ∧ ((∀ info ∈ (StorageSystemPartsBase.readAll Scenario.lockGranted
              Scenario.streamA).infos, Scenario.dropped info.storage = true) →
          (StorageSystemPartsBase.readAll Scenario.lockDropped Scenario.streamA).infos = []) :=
  ⟨rfl, by decide,
    benign_race Scenario.tableIsT1 Scenario.context Scenario.streamA Scenario.dropped
      Scenario.lockGranted Scenario.lockDropped rfl
      (fun st _ _ _ => ⟨{ token := st.address }, rfl⟩)
      (fun st _ _ _ hd =>
        ⟨{ message := "Table is dropped", code := ErrorCodes.TABLE_IS_DROPPED },
          by simp [Scenario.lockDropped, hd], rfl⟩)
      (fun st _ _ _ hd => by simp [Scenario.lockDropped, hd])⟩

/-- A lock timeout at C5: the attempt on `d1.t1` times out and the call of `next`
throws that very exception. -/
theorem next_propagates_lock_failure_witness :
    Scenario.t1 ∈ (Scenario.streamA.next Scenario.lockTimeout).lock_attempts
      ∧ Scenario.lockTimeout Scenario.t1 false Scenario.streamA.query_id
          Scenario.streamA.settings.lock_acquire_timeout = .error Scenario.timeout
      ∧ Scenario.timeout.code ≠ ErrorCodes.TABLE_IS_DROPPED
      ∧ (Scenario.streamA.next Scenario.lockTimeout).outcome
          = .error (.exception Scenario.timeout)
      ∧ (Scenario.streamA.next Scenario.lockTimeout).lock_attempts.getLast?
          = some Scenario.t1 :=
  ⟨by decide, rfl, by decide,
    next_propagates_lock_failure Scenario.lockTimeout Scenario.streamA Scenario.t1
      Scenario.timeout (by decide) rfl (by decide)⟩

/-- Scenario A at C6: the descriptor of `d1.t1` has a row of the filtered block on
which both predicates hold. -/
theorem predicate_soundness_witness :
    StoragesInfoStream.expansion Scenario.tableIsT1 Scenario.context = .ok Scenario.expansion
      ∧ StoragesInfoStream.ctor Scenario.tableIsT1 Scenario.context = .ok Scenario.streamA
      ∧ (Scenario.expansion.filter Scenario.tableIsT1).1.toRows
          = [("d1", "t1", "MergeTree", 0), ("d1", "t1", "MergeTree", 1)]
      ∧ ∀ info ∈ (StorageSystemPartsBase.readAll Scenario.lockGranted Scenario.streamA).infos,
          ∃ r ∈ (Scenario.expansion.filter Scenario.tableIsT1).1.toRows,
            r.1 = info.database ∧ r.2.1 = info.table
              ∧ Scenario.tableIsT1.database_only r.1 = true
              ∧ Scenario.tableIsT1.full r.1 r.2.1 r.2.2.1 r.2.2.2 = true :=
  ⟨rfl, rfl, by decide,
    (predicate_soundness Scenario.tableIsT1 Scenario.context Scenario.lockGranted
      Scenario.expansion Scenario.streamA rfl rfl).2.2⟩

/-- A catalog with only a "Lazy" database at C7: nothing is registered and the first
call of `next` ends the stream with no lock attempt. -/
theorem no_candidate_short_circuit_witness :
    VirtualColumnUtils.filterDatabaseColumn Scenario.tableIsT1
        ((Scenario.lazyContext.databases.filter
          (fun database => database.2.engine_name != "Lazy")).map (fun d => d.1)) = []
      ∧ StoragesInfoStream.ctor Scenario.tableIsT1 Scenario.lazyContext
          = .ok { query_id := "query-1", settings := { lock_acquire_timeout := 120 },
                  database_column := [], table_column := [], active_column := [],
                  rows := 0, next_row := 0, storages := [] }
      ∧ (StoragesInfoStream.next Scenario.lockTimeout
            { query_id := "query-1", settings := { lock_acquire_timeout := 120 },
              database_column := [], table_column := [], active_column := [],
              rows := 0, next_row := 0, storages := [] }).lock_attempts = [] :=
  ⟨by decide,
    (no_candidate_short_circuit Scenario.tableIsT1 Scenario.lazyContext Scenario.lockTimeout
      (by decide)).2.2.1,
    congrArg NextResult.lock_attempts
      (no_candidate_short_circuit Scenario.tableIsT1 Scenario.lazyContext Scenario.lockTimeout
        (by decide)).2.2.2.1⟩

/-- Scenario A at C8: the two rows of `d1.t1` form one run and the pass yields one
descriptor for it. -/
theorem one_descriptor_per_table_witness :
    Scenario.context.databases.WellFormed
      ∧ StoragesInfoStream.ctor Scenario.tableIsT1 Scenario.context = .ok Scenario.streamA
      ∧ ((StorageSystemPartsBase.readAll Scenario.lockGranted Scenario.streamA).infos.map
          (fun info => (info.database, info.table))) = [("d1", "t1")]
      ∧ ((StorageSystemPartsBase.readAll Scenario.lockGranted Scenario.streamA).infos.map
          (fun info => (info.database, info.table))).Nodup :=
  ⟨by decide, rfl, by decide,
    (one_descriptor_per_table Scenario.tableIsT1 Scenario.context Scenario.lockGranted
      Scenario.streamA (by decide) rfl).2⟩

/-- Scenario A at C10: `table = 't1'` keeps both rows of `d1.t1`, the descriptor has
`need_inactive_parts` set and `getParts` returns the four parts. -/
theorem active_independent_predicate_witness :
    (∀ d t e a a', Scenario.tableIsT1.full d t e a = Scenario.tableIsT1.full d t e a')
      ∧ StoragesInfoStream.ctor Scenario.tableIsT1 Scenario.context = .ok Scenario.streamA
      ∧ Scenario.infoA
          ∈ (StorageSystemPartsBase.readAll Scenario.lockGranted Scenario.streamA).infos
      ∧ Scenario.infoA.need_inactive_parts = true
      ∧ (Scenario.infoA.getParts false).1.length = 4 :=
  ⟨fun _ _ _ _ _ => rfl, rfl, by decide,
    ((active_independent_predicate Scenario.tableIsT1 Scenario.context Scenario.lockGranted
      Scenario.streamA (fun _ _ _ _ _ => rfl) rfl).2 Scenario.infoA (by decide)).1,
    by decide⟩

/-! ## Theorems: scenario B, the cursor, runs and lock attempts, the read path -/

theorem built_remaining_active (query_info : SelectQueryInfo) (context : Context)
    (hfalse : ∀ d t e, query_info.full d t e 0 = false)
    (x : String × String × Nat)
    (hx : x ∈ (StoragesInfoStream.built query_info context).remaining) : x.2.2 ≠ 0 := by
  rw [built_remaining, List.mem_map] at hx
  obtain ⟨r, hr, rfl⟩ := hx
  obtain ⟨hfull, _⟩ := mem_survivingRows query_info context r hr
  intro h0
  simp only at h0
  rw [h0, hfalse] at hfull
  cases hfull

/-- C11 (scenario B): when the predicate is false on every row with `active = 0`
(as `active = 1` is), no surviving row has `active = 0`, every descriptor the
pass yields has `need_inactive_parts` unset, and `getParts` asks for the
Committed state only, whether or not the state column was requested: it
returns exactly the Committed parts of the table. -/
theorem active_only_predicate (query_info : SelectQueryInfo) (context : Context)
    (lock : LockStructureForShare) (s : StoragesInfoStream)
    (hfalse : ∀ d t e, query_info.full d t e 0 = false)
    (hs : StoragesInfoStream.ctor query_info context = .ok s) :
    (∀ i, i < s.rows → s.active_column.getD i 0 ≠ 0)
      ∧ ∀ info ∈ (StorageSystemPartsBase.readAll lock s).infos,
          info.need_inactive_parts = false
            ∧ ∀ has_state_column : Bool,
                StoragesInfo.getPartsCall info.need_inactive_parts has_state_column
                    = .getDataPartsVector [.Committed]
                  ∧ (info.getParts has_state_column).1
                      = info.data.parts.filter (fun p => p.state == .Committed)
                  ∧ (info.getParts has_state_column).1.length
                      = info.data.parts.countP (fun p => p.state == .Committed) := by
  rw [ctor_eq_built] at hs
  cases hs
  constructor
  · intro i hi
    have hmem : (StoragesInfoStream.built query_info context).rowAt i
        ∈ (StoragesInfoStream.built query_info context).remaining :=
      (mem_remaining_iff _ _).mpr ⟨i, Nat.zero_le _, hi, rfl⟩
    exact built_remaining_active query_info context hfalse _ hmem
  · intro info hinfo
    rw [(readAll_infos_eq lock _).1] at hinfo
    obtain ⟨r, tl, att, hrun, hlt⟩ := describeRuns_infos lock _ _ info hinfo
    obtain ⟨_, _, hneed, _⟩ := lockTable_returned lock _ _ _ _ _ _ hlt
    obtain ⟨r1, tl1, e1, _, e3⟩ := mem_runs _ _ rfl _ hrun
    have hn : info.need_inactive_parts = false := by
      rw [hneed, Bool.eq_false_iff]
      intro hany
      rw [List.any_eq_true] at hany
      obtain ⟨x, hx, hx0⟩ := hany
      exact built_remaining_active query_info context hfalse x (e3 x hx).1 (by simpa using hx0)
    refine ⟨hn, ?_⟩
    intro b
    rw [hn]
    have hcall : StoragesInfo.getPartsCall false b = .getDataPartsVector [.Committed] := by
      cases b <;> rfl
    have hparts : (info.getParts b).1
        = info.data.parts.filter (fun p => p.state == .Committed) := by
      simp only [StoragesInfo.getParts, hn, hcall, PartsCall.perform,
        MergeTreeData.getDataPartsVector]
      congr 1
      funext p
      simp only [List.mem_singleton]
      cases hp : p.state <;> rfl
    refine ⟨hcall, hparts, ?_⟩
    rw [hparts, List.countP_eq_length_filter]

theorem remaining_getElem (s : StoragesInfoStream) (j : Nat) (hj : j < s.remaining.length) :
    s.remaining[j] = s.rowAt (s.next_row + j) := by
  simp [StoragesInfoStream.remaining]

theorem iteration_run (lock : LockStructureForShare) (s : StoragesInfoStream)
    (hlt : s.next_row < s.rows) :
    s.next_row < (s.iteration lock).1.next_row
      ∧ (s.iteration lock).1.next_row ≤ s.rows
      ∧ (∀ i, s.next_row ≤ i → i < (s.iteration lock).1.next_row →
          sameTable (s.rowAt s.next_row).1 (s.rowAt s.next_row).2.1 (s.rowAt i) = true)
      ∧ ((s.iteration lock).1.next_row = s.rows
          ∨ sameTable (s.rowAt s.next_row).1 (s.rowAt s.next_row).2.1
              (s.rowAt (s.iteration lock).1.next_row) = false) := by
  rw [iteration_eq lock s hlt]
  simp only
  have hrun := currentRun_length s hlt
  refine ⟨by omega, hrun.2, ?_, ?_⟩
  · intro i h1 h2
    have hpre : s.currentRun <+: s.remaining := List.takeWhile_prefix _
    have hj : i - s.next_row < s.currentRun.length := by omega
    have hj2 : i - s.next_row < s.remaining.length := by
      rw [remaining_length]; omega
    have hget : s.currentRun[i - s.next_row] = s.remaining[i - s.next_row] :=
      List.IsPrefix.getElem hpre hj
    have hmem : s.currentRun[i - s.next_row] ∈ s.currentRun := List.getElem_mem hj
    have hp := List.mem_takeWhile_imp hmem
    rw [hget, remaining_getElem] at hp
    have : s.next_row + (i - s.next_row) = i := by omega
    rw [this] at hp
    exact hp
  · by_cases hc : s.next_row + s.currentRun.length < s.rows
    · right
      have h1 := remaining_advance s s.currentRun.length
      have h2 : s.remaining.drop s.currentRun.length
          = s.remaining.dropWhile
              (sameTable (s.rowAt s.next_row).1 (s.rowAt s.next_row).2.1) := by
        unfold StoragesInfoStream.currentRun
        exact drop_length_takeWhile _ _
      have h3 := remaining_eq_cons { s with next_row := s.next_row + s.currentRun.length } hc
      rw [h1, h2] at h3
      have hne : s.remaining.dropWhile
          (sameTable (s.rowAt s.next_row).1 (s.rowAt s.next_row).2.1) ≠ [] := by
        rw [h3]; exact List.cons_ne_nil _ _
      have h4 := List.head_dropWhile_not
        (sameTable (s.rowAt s.next_row).1 (s.rowAt s.next_row).2.1) s.remaining hne
      simp only [h3, List.head_cons] at h4
      exact h4
    · left
      omega

theorem next_boundary (lock : LockStructureForShare) (n : Nat) :
    ∀ s : StoragesInfoStream, s.rows - s.next_row = n → s.next_row < s.rows →
      (s.next lock).stream.next_row = s.rows
        ∨ (s.database_column.getD (s.next lock).stream.next_row "",
            s.table_column.getD (s.next lock).stream.next_row "")
          ≠ (s.database_column.getD ((s.next lock).stream.next_row - 1) "",
              s.table_column.getD ((s.next lock).stream.next_row - 1) "") := by
  induction n using Nat.strong_induction_on with
  | _ n ih =>
    intro s hn hlt
    have hrun := currentRun_length s hlt
    have hit := iteration_run lock s hlt
    rw [iteration_eq lock s hlt] at hit
    simp only at hit
    obtain ⟨_, _, hall, hend⟩ := hit
    have hstep : s.next_row + s.currentRun.length = s.rows
        ∨ (s.database_column.getD (s.next_row + s.currentRun.length) "",
            s.table_column.getD (s.next_row + s.currentRun.length) "")
          ≠ (s.database_column.getD (s.next_row + s.currentRun.length - 1) "",
              s.table_column.getD (s.next_row + s.currentRun.length - 1) "") := by
      rcases hend with hend | hend
      · exact Or.inl hend
      · right
        have hprev := hall (s.next_row + s.currentRun.length - 1) (by omega) (by omega)
        intro heq
        simp only [sameTable, StoragesInfoStream.rowAt, Bool.and_eq_true, beq_iff_eq] at hprev
        simp only [Prod.mk.injEq] at heq
        rw [Bool.eq_false_iff] at hend
        apply hend
        simp only [sameTable, StoragesInfoStream.rowAt, Bool.and_eq_true, beq_iff_eq]
        exact ⟨heq.1.trans hprev.1, heq.2.trans hprev.2⟩
    rw [next_unfold, if_pos hlt]
    generalize s.lockTable lock (s.rowAt s.next_row).1 (s.rowAt s.next_row).2.1
      (s.currentRun.any (fun x => x.2.2 == 0)) = lt
    obtain ⟨att1, ex⟩ := lt
    cases ex with
    | skipped =>
        simp only
        by_cases h2 : s.next_row + s.currentRun.length < s.rows
        · exact ih (s.rows - (s.next_row + s.currentRun.length)) (by omega)
            { s with next_row := s.next_row + s.currentRun.length } rfl h2
        · rw [next_at_end lock _ h2]
          exact hstep
    | returned info => exact hstep
    | threw e => exact hstep

theorem next_end_cursor (lock : LockStructureForShare) (n : Nat) :
    ∀ s : StoragesInfoStream, s.rows - s.next_row = n → (s.next lock).outcome = .ok none →
      ¬ (s.next lock).stream.next_row < (s.next lock).stream.rows := by
  induction n using Nat.strong_induction_on with
  | _ n ih =>
    intro s hn hout
    by_cases hlt : s.next_row < s.rows
    · have hrun := currentRun_length s hlt
      rw [next_unfold, if_pos hlt] at hout ⊢
      generalize s.lockTable lock (s.rowAt s.next_row).1 (s.rowAt s.next_row).2.1
        (s.currentRun.any (fun x => x.2.2 == 0)) = lt at hout ⊢
      obtain ⟨att1, ex⟩ := lt
      cases ex with
      | skipped =>
          exact ih (s.rows - (s.next_row + s.currentRun.length)) (by omega)
            { s with next_row := s.next_row + s.currentRun.length } rfl hout
      | returned info => simp at hout
      | threw e => simp at hout
    · rw [next_at_end lock s hlt]
      exact hlt

theorem calls_at_end (lock : LockStructureForShare) (s : StoragesInfoStream)
    (h : ¬ s.next_row < s.rows) :
    ∀ n, s.calls lock n
      = List.replicate n { outcome := .ok none, stream := s, lock_attempts := [] } := by
  intro n
  induction n with
  | zero => rfl
  | succ n ih =>
      rw [StoragesInfoStream.calls, next_at_end lock s h, ih]
      rfl

/-- C19: a call of `next` on a stream with `next_row <= rows` ends: any bound of at
least `rows - next_row` iterations gives the same result, because every
iteration of the outer loop takes at least the row at the cursor (which
matches its own database and table), takes only rows of that table, and stops
at `rows` or at a row of another table.  The call leaves `rows` unchanged and
`next_row <= rows`, with the cursor at `rows` or at a row whose (database,
table) differs from the row before it; and once a call has returned end of
stream, every later call returns end of stream with no lock attempt and
leaves the stream as it is. -/
theorem next_terminates (lock : LockStructureForShare) (s : StoragesInfoStream)
    (hle : s.next_row ≤ s.rows) :
    (∀ fuel, s.rows - s.next_row ≤ fuel →
        StoragesInfoStream.nextLoop lock fuel s [] = s.next lock)
      ∧ (s.next_row < s.rows →
          s.is_same_table (s.database_column.getD s.next_row "")
              (s.table_column.getD s.next_row "") s.next_row = true
            ∧ s.next_row < (s.iteration lock).1.next_row
            ∧ (s.iteration lock).1.next_row ≤ s.rows
            ∧ (∀ i, s.next_row ≤ i → i < (s.iteration lock).1.next_row →
                s.is_same_table (s.database_column.getD s.next_row "")
                  (s.table_column.getD s.next_row "") i = true)
            ∧ ((s.iteration lock).1.next_row = s.rows
                ∨ s.is_same_table (s.database_column.getD s.next_row "")
                    (s.table_column.getD s.next_row "") (s.iteration lock).1.next_row = false))
      ∧ ((s.next lock).stream.rows = s.rows
          ∧ s.next_row ≤ (s.next lock).stream.next_row
          ∧ (s.next lock).stream.next_row ≤ s.rows)
      ∧ (s.next_row < s.rows →
          s.next_row < (s.next lock).stream.next_row
            ∧ ((s.next lock).stream.next_row = s.rows
                ∨ (s.database_column.getD (s.next lock).stream.next_row "",
                    s.table_column.getD (s.next lock).stream.next_row "")
                  ≠ (s.database_column.getD ((s.next lock).stream.next_row - 1) "",
                      s.table_column.getD ((s.next lock).stream.next_row - 1) "")))
      ∧ ((s.next lock).outcome = .ok none →
          ∀ n, (s.next lock).stream.calls lock n
            = List.replicate n
                { outcome := .ok none, stream := (s.next lock).stream, lock_attempts := [] }) := by
  obtain ⟨e1, e2, e3⟩ := next_stream_rows lock s
  refine ⟨?_, ?_, ⟨e1, e2, ?_⟩, ?_, ?_⟩
  · intro fuel hfuel
    rw [nextLoop_eq_next lock fuel s [] hfuel]
    rfl
  · intro hlt
    obtain ⟨h1, h2, h3, h4⟩ := iteration_run lock s hlt
    exact ⟨sameTable_self (s.rowAt s.next_row), h1, h2, h3, h4⟩
  · by_cases hlt : s.next_row < s.rows
    · exact (e3 hlt).2
    · rw [next_at_end lock s hlt]
      exact hle
  · intro hlt
    exact ⟨(e3 hlt).1, next_boundary lock _ s rfl hlt⟩
  · intro hout
    exact calls_at_end lock _ (next_end_cursor lock _ s rfl hout)

theorem runs_flatten (n : Nat) :
    ∀ l : List (String × String × Nat), l.length = n → (runs l).flatten = l := by
  induction n using Nat.strong_induction_on with
  | _ n ih =>
    intro l hl
    cases l with
    | nil => simp [runs]
    | cons r rest =>
        rw [runs_cons, List.flatten_cons]
        have hlen : (rest.dropWhile (sameTable r.1 r.2.1)).length < n := by
          have := List.Sublist.length_le (List.dropWhile_sublist (sameTable r.1 r.2.1) (l := rest))
          simp only [List.length_cons] at hl
          omega
        rw [ih _ hlen _ rfl, List.cons_append, List.takeWhile_append_dropWhile]

theorem runKey_cons (r : String × String × Nat) (tl : List (String × String × Nat)) :
    runKey (r :: tl) = (r.1, r.2.1) := rfl

theorem runs_chain (n : Nat) :
    ∀ l : List (String × String × Nat), l.length = n →
      List.Chain' (fun a b => runKey a ≠ runKey b) (runs l) := by
  induction n using Nat.strong_induction_on with
  | _ n ih =>
    intro l hl
    cases l with
    | nil => simp [runs]
    | cons r rest =>
        rw [runs_cons]
        have hlen : (rest.dropWhile (sameTable r.1 r.2.1)).length < n := by
          have := List.Sublist.length_le (List.dropWhile_sublist (sameTable r.1 r.2.1) (l := rest))
          simp only [List.length_cons] at hl
          omega
        have hrec := ih _ hlen _ rfl
        cases hd : rest.dropWhile (sameTable r.1 r.2.1) with
        | nil => simp [runs]
        | cons y ys =>
            rw [hd] at hrec
            rw [runs_cons] at hrec ⊢
            refine List.Chain'.cons ?_ hrec
            rw [runKey_cons, runKey_cons]
            have hne : rest.dropWhile (sameTable r.1 r.2.1) ≠ [] := by
              rw [hd]; exact List.cons_ne_nil _ _
            have hy := List.head_dropWhile_not (sameTable r.1 r.2.1) rest hne
            simp only [hd, List.head_cons] at hy
            intro heq
            rw [Bool.eq_false_iff] at hy
            apply hy
            simp only [Prod.mk.injEq] at heq
            simp [sameTable, heq.1, heq.2]

theorem mem_runs_key (l : List (String × String × Nat)) (run : List (String × String × Nat))
    (h : run ∈ runs l) : run ≠ [] ∧ ∀ x ∈ run, (x.1, x.2.1) = runKey run := by
  obtain ⟨r, tl, e1, _, e3⟩ := mem_runs _ l rfl run h
  subst e1
  refine ⟨List.cons_ne_nil _ _, ?_⟩
  intro x hx
  have := (e3 x hx).2
  simp only [sameTable, Bool.and_eq_true, beq_iff_eq] at this
  rw [runKey_cons, this.1, this.2]

theorem describeRuns_granted (lock : LockStructureForShare) (s : StoragesInfoStream) :
    ∀ rs : List (List (String × String × Nat)), (∀ run ∈ rs, run ≠ []) →
      (s.describeRuns lock rs).thrown = none →
      (s.describeRuns lock rs).infos.map (fun info => (info.database, info.table))
        = (rs.filter (s.lockGranted lock)).map runKey := by
  intro rs
  induction rs with
  | nil => intro _ _; rfl
  | cons run rest ih =>
      intro hne hth
      have hrest := ih (fun run hrun => hne run (List.mem_cons_of_mem _ hrun))
      cases run with
      | nil => exact absurd rfl (hne [] (List.mem_cons_self _ _))
      | cons r tl =>
          rw [StoragesInfoStream.describeRuns] at hth ⊢
          rw [List.filter_cons]
          rcases lockTable_cases lock s r.1 r.2.1 ((r :: tl).any (fun x => x.2.2 == 0))
            with ⟨_, h⟩ | ⟨st, hat, h⟩
          · rw [h] at hth
            simp at hth
          · have hst : s.storageOfRun (r :: tl) = some st := hat
            rcases h with ⟨e1, hl, hc, h⟩ | ⟨e1, hl, hc, h⟩ | ⟨l, hl, _, h⟩ | ⟨l, d, hl, _, h⟩
            · rw [h] at hth ⊢
              have hg : s.lockGranted lock (r :: tl) = false := by
                simp only [StoragesInfoStream.lockGranted, hst, hl]
              simp only [hg, Bool.false_eq_true, if_false]
              exact hrest hth
            · rw [h] at hth
              simp at hth
            · rw [h] at hth
              simp at hth
            · rw [h] at hth ⊢
              have hg : s.lockGranted lock (r :: tl) = true := by
                simp only [StoragesInfoStream.lockGranted, hst, hl]
              simp only [hg, if_true, List.map_cons, runKey_cons]
              rw [hrest hth]

/-- C20: when the enumeration pass ends with no exception, the (database, table)
pairs of its descriptors are, in order, those of the maximal runs of
consecutive rows with the same (database, table) from the cursor on, kept
when the lock attempt for the run succeeds; each descriptor carries the
storage registered for its pair in `storages` and that storage's name as
engine.  The runs, concatenated, are the rows; each is non-empty, all of one
(database, table), and neighbouring runs differ in it. -/
theorem descriptor_order (lock : LockStructureForShare) (s : StoragesInfoStream)
    (hth : (StorageSystemPartsBase.readAll lock s).thrown = none) :
    (StorageSystemPartsBase.readAll lock s).infos.map (fun info => (info.database, info.table))
        = ((runs s.remaining).filter (s.lockGranted lock)).map runKey
      ∧ (∀ info ∈ (StorageSystemPartsBase.readAll lock s).infos,
          s.storages.at (info.database, info.table) = some info.storage
            ∧ info.engine = info.storage.name)
      ∧ ((runs s.remaining).flatten = s.remaining
          ∧ (∀ run ∈ runs s.remaining, run ≠ [] ∧ ∀ x ∈ run, (x.1, x.2.1) = runKey run)
          ∧ List.Chain' (fun a b => runKey a ≠ runKey b) (runs s.remaining)) := by
  obtain ⟨b1, b2, _⟩ := readAll_infos_eq lock s
  refine ⟨?_, ?_, runs_flatten _ _ rfl, mem_runs_key _, runs_chain _ _ rfl⟩
  · rw [b1]
    rw [b2] at hth
    exact describeRuns_granted lock s _ (fun run hrun => (mem_runs_key _ run hrun).1) hth
  · intro info hinfo
    rw [b1] at hinfo
    obtain ⟨r, tl, att, _, hlt⟩ := describeRuns_infos lock _ _ info hinfo
    obtain ⟨hdb, htb, _, hat, heng, _⟩ := lockTable_returned lock _ _ _ _ _ _ hlt
    rw [hdb, htb]
    exact ⟨hat, heng⟩

theorem runs_remaining (s : StoragesInfoStream) (hlt : s.next_row < s.rows) :
    runs s.remaining
        = s.currentRun
            :: runs (StoragesInfoStream.remaining
                { s with next_row := s.next_row + s.currentRun.length })
      ∧ runKey s.currentRun = ((s.rowAt s.next_row).1, (s.rowAt s.next_row).2.1) := by
  have hrem := remaining_eq_cons s hlt
  have hcur : s.currentRun = s.rowAt s.next_row ::
      ((List.range' (s.next_row + 1) (s.rows - s.next_row - 1)).map s.rowAt).takeWhile
        (sameTable (s.rowAt s.next_row).1 (s.rowAt s.next_row).2.1) := by
    unfold StoragesInfoStream.currentRun
    rw [hrem, List.takeWhile_cons, sameTable_self]
    rfl
  have hnext : StoragesInfoStream.remaining
      { s with next_row := s.next_row + s.currentRun.length }
        = ((List.range' (s.next_row + 1) (s.rows - s.next_row - 1)).map s.rowAt).dropWhile
            (sameTable (s.rowAt s.next_row).1 (s.rowAt s.next_row).2.1) := by
    rw [remaining_advance]
    unfold StoragesInfoStream.currentRun
    rw [drop_length_takeWhile, hrem, List.dropWhile_cons, sameTable_self]
    rfl
  constructor
  · rw [hnext, hcur, hrem, runs_cons]
  · rw [hcur]
    rfl

theorem next_stream_eq (lock : LockStructureForShare) (s : StoragesInfoStream) :
    (s.next lock).stream = { s with next_row := (s.next lock).stream.next_row } := by
  by_cases hlt : s.next_row < s.rows
  · exact (next_stream lock _ s rfl hlt).1
  · rw [next_at_end lock s hlt]

theorem storageOfRun_next_row (s : StoragesInfoStream) (n : Nat) :
    StoragesInfoStream.storageOfRun { s with next_row := n } = s.storageOfRun := rfl

/-- A call of `next` takes the first runs of the rows from the cursor on, one lock
attempt for each that is registered in `storages`, and leaves the others. -/
theorem next_runs (lock : LockStructureForShare) (n : Nat) :
    ∀ s : StoragesInfoStream, s.rows - s.next_row = n →
      ∃ pre, runs s.remaining = pre ++ runs (s.next lock).stream.remaining
        ∧ (s.next lock).lock_attempts = pre.filterMap s.storageOfRun := by
  induction n using Nat.strong_induction_on with
  | _ n ih =>
    intro s hn
    by_cases hlt : s.next_row < s.rows
    · have hrun := currentRun_length s hlt
      obtain ⟨hruns, hkey⟩ := runs_remaining s hlt
      rw [next_unfold, if_pos hlt]
      rcases lockTable_cases lock s (s.rowAt s.next_row).1 (s.rowAt s.next_row).2.1
        (s.currentRun.any (fun x => x.2.2 == 0)) with ⟨hat, h⟩ | ⟨st, hat, h⟩
      · rw [h]
        refine ⟨[s.currentRun], by rw [hruns]; rfl, ?_⟩
        have : s.storageOfRun s.currentRun = none := by
          unfold StoragesInfoStream.storageOfRun
          rw [hkey, hat]
        simp [List.filterMap_cons, this]
      · have hst : s.storageOfRun s.currentRun = some st := by
          unfold StoragesInfoStream.storageOfRun
          rw [hkey, hat]
        rcases h with ⟨e1, hl, hc, h⟩ | ⟨e1, hl, hc, h⟩ | ⟨l, hl, _, h⟩ | ⟨l, d, hl, _, h⟩
        · rw [h]
          obtain ⟨pre, hp1, hp2⟩ := ih (s.rows - (s.next_row + s.currentRun.length)) (by omega)
            { s with next_row := s.next_row + s.currentRun.length } rfl
          refine ⟨s.currentRun :: pre, ?_, ?_⟩
          · rw [hruns, hp1]
            rfl
          · simp only [hp2, storageOfRun_next_row, List.filterMap_cons, hst]
            rfl
        · rw [h]
          exact ⟨[s.currentRun], by rw [hruns]; rfl, by simp [List.filterMap_cons, hst]⟩
        · rw [h]
          exact ⟨[s.currentRun], by rw [hruns]; rfl, by simp [List.filterMap_cons, hst]⟩
        · rw [h]
          exact ⟨[s.currentRun], by rw [hruns]; rfl, by simp [List.filterMap_cons, hst]⟩
    · rw [next_at_end lock s hlt]
      exact ⟨[], rfl, rfl⟩

theorem calls_runs (lock : LockStructureForShare) (n : Nat) :
    ∀ s : StoragesInfoStream,
      ∃ pre post, runs s.remaining = pre ++ post
        ∧ (s.calls lock n).flatMap (fun r => r.lock_attempts) = pre.filterMap s.storageOfRun := by
  induction n with
  | zero => intro s; exact ⟨[], runs s.remaining, rfl, rfl⟩
  | succ n ih =>
      intro s
      obtain ⟨pre0, h1, h2⟩ := next_runs lock _ s rfl
      obtain ⟨pre1, post1, h3, h4⟩ := ih (s.next lock).stream
      have hso : (s.next lock).stream.storageOfRun = s.storageOfRun := by
        rw [next_stream_eq lock s]
        rfl
      refine ⟨pre0 ++ pre1, post1, ?_, ?_⟩
      · rw [h1, h3, List.append_assoc]
      · rw [StoragesInfoStream.calls, List.flatMap_cons, h2, h4, hso, List.filterMap_append]

theorem describeRuns_attempts (lock : LockStructureForShare) (s : StoragesInfoStream) :
    ∀ rs : List (List (String × String × Nat)), (∀ run ∈ rs, run ≠ []) →
      ∃ pre post, rs = pre ++ post
        ∧ (s.describeRuns lock rs).lock_attempts = pre.filterMap s.storageOfRun := by
  intro rs
  induction rs with
  | nil => intro _; exact ⟨[], [], rfl, rfl⟩
  | cons run rest ih =>
      intro hne
      obtain ⟨pre, post, h1, h2⟩ := ih (fun run hrun => hne run (List.mem_cons_of_mem _ hrun))
      cases run with
      | nil => exact absurd rfl (hne [] (List.mem_cons_self _ _))
      | cons r tl =>
          rw [StoragesInfoStream.describeRuns]
          rcases lockTable_cases lock s r.1 r.2.1 ((r :: tl).any (fun x => x.2.2 == 0))
            with ⟨hat, h⟩ | ⟨st, hat, h⟩
          · have hst : s.storageOfRun (r :: tl) = none := hat
            rw [h]
            exact ⟨[r :: tl], rest, rfl, by simp [List.filterMap_cons, hst]⟩
          · have hst : s.storageOfRun (r :: tl) = some st := hat
            rcases h with ⟨e1, hl, hc, h⟩ | ⟨e1, hl, hc, h⟩ | ⟨l, hl, _, h⟩ | ⟨l, d, hl, _, h⟩
            · rw [h]
              refine ⟨(r :: tl) :: pre, post, by rw [h1]; rfl, ?_⟩
              simp only [h2, List.filterMap_cons, hst]
              rfl
            · rw [h]
              exact ⟨[r :: tl], rest, rfl, by simp [List.filterMap_cons, hst]⟩
            · rw [h]
              exact ⟨[r :: tl], rest, rfl, by simp [List.filterMap_cons, hst]⟩
            · rw [h]
              refine ⟨(r :: tl) :: pre, post, by rw [h1]; rfl, ?_⟩
              simp only [h2, List.filterMap_cons, hst]
              rfl

theorem filterMap_map_some {α β : Type} (f : α → Option β) (l : List α) :
    (l.filterMap f).map some = (l.map f).filter (fun o => o.isSome) := by
  induction l with
  | nil => rfl
  | cons a l ih =>
      cases h : f a with
      | none => simp [List.filterMap_cons, h, ih]
      | some b => simp [List.filterMap_cons, h, ih]

theorem nodup_filterMap_of_inj_on {α β : Type} (f : α → Option β) (l : List α)
    (hnd : l.Nodup) (hinj : ∀ x ∈ l, ∀ y ∈ l, f x = f y → x = y) :
    (l.filterMap f).Nodup := by
  have h1 : (l.map f).Nodup := List.Nodup.map_on hinj hnd
  have h2 : ((l.filterMap f).map some).Nodup := by
    rw [filterMap_map_some]
    exact List.Nodup.sublist (List.filter_sublist _) h1
  exact List.Nodup.of_map _ h2

theorem groups_runKey_sublist {κ : Type} (key : κ → String × String)
    (g : κ → List (String × String × Nat)) :
    ∀ ks : List κ, (∀ k ∈ ks, ∀ x ∈ g k, (x.1, x.2.1) = key k) →
      ((((ks.map g).filter (fun l => !l.isEmpty)).map runKey)).Sublist (ks.map key) := by
  intro ks
  induction ks with
  | nil => intro _; simp
  | cons k ks ih =>
      intro hkey
      have hih := ih (fun k1 hk1 => hkey k1 (List.mem_cons_of_mem _ hk1))
      rw [List.map_cons, List.filter_cons, List.map_cons]
      cases hg : g k with
      | nil => simpa using List.Sublist.cons _ hih
      | cons r tl =>
          have hr : (r.1, r.2.1) = key k := hkey k (List.mem_cons_self _ _) r (by simp [hg])
          simp only [List.isEmpty_cons, Bool.not_false, if_true, List.map_cons, runKey_cons]
          rw [hr]
          exact List.Sublist.cons₂ _ hih

theorem built_runKeys_nodup (query_info : SelectQueryInfo) (context : Context)
    (hwf : context.databases.WellFormed) :
    ((runs (StoragesInfoStream.built query_info context).remaining).map runKey).Nodup := by
  rw [built_runs query_info context hwf]
  exact List.Nodup.sublist
    (groups_runKey_sublist (fun k : String × String × IStorage => (k.1, k.2.1))
      (survivingGroup query_info) _ (fun k _ x hx => survivingGroup_key query_info k x hx))
    (candidateKeys_nodup context _ hwf _ (survivingDatabases_nodup query_info context hwf))

theorem readAll_attempts_prefix (lock : LockStructureForShare) (s : StoragesInfoStream) :
    (StorageSystemPartsBase.readAll lock s).lock_attempts <+: (runs s.remaining).filterMap s.storageOfRun := by
  rw [(readAll_infos_eq lock s).2.2]
  obtain ⟨pre, post, h1, h2⟩ := describeRuns_attempts lock s _
    (fun run hrun => (mem_runs_key _ run hrun).1)
  rw [h2, h1, List.filterMap_append]
  exact List.prefix_append _ _

theorem calls_attempts_prefix (lock : LockStructureForShare) (s : StoragesInfoStream) (n : Nat) :
    (s.calls lock n).flatMap (fun r => r.lock_attempts)
      <+: (runs s.remaining).filterMap s.storageOfRun := by
  obtain ⟨pre, post, h1, h2⟩ := calls_runs lock n s
  rw [h2, h1, List.filterMap_append]
  exact List.prefix_append _ _

/-- C13: over the rows built by the constructor from a catalog with distinct
database names and distinct table names inside each database, the lock
attempts of any number of successive calls of `next` (whatever each returned
or threw), and those of an enumeration pass, are an initial part of the list
that holds, run by run, the storage registered for the run: at most one
attempt per run, in run order.  The runs have pairwise distinct (database,
table) pairs, so no table is tried twice; when distinct pairs are bound to
distinct storages, no storage occurs twice among the attempts. -/
theorem no_retries (query_info : SelectQueryInfo) (context : Context)
    (lock : LockStructureForShare) (s : StoragesInfoStream) (n : Nat)
    (hwf : context.databases.WellFormed)
    (hs : StoragesInfoStream.ctor query_info context = .ok s) :
    ((s.calls lock n).flatMap (fun r => r.lock_attempts)
        <+: (runs s.remaining).filterMap s.storageOfRun)
      ∧ ((StorageSystemPartsBase.readAll lock s).lock_attempts <+: (runs s.remaining).filterMap s.storageOfRun)
      ∧ ((s.calls lock n).flatMap (fun r => r.lock_attempts)).length ≤ (runs s.remaining).length
      ∧ ((runs s.remaining).map runKey).Nodup
      ∧ ((∀ k1 ∈ (runs s.remaining).map runKey, ∀ k2 ∈ (runs s.remaining).map runKey,
            s.storages.at k1 = s.storages.at k2 → k1 = k2) →
          ((s.calls lock n).flatMap (fun r => r.lock_attempts)).Nodup
            ∧ (StorageSystemPartsBase.readAll lock s).lock_attempts.Nodup) := by
  rw [ctor_eq_built] at hs
  cases hs
  have hnd := built_runKeys_nodup query_info context hwf
  have hp1 := calls_attempts_prefix lock (StoragesInfoStream.built query_info context) n
  have hp2 := readAll_attempts_prefix lock (StoragesInfoStream.built query_info context)
  refine ⟨hp1, hp2, ?_, hnd, ?_⟩
  · exact (List.IsPrefix.length_le hp1).trans (List.length_filterMap_le _ _)
  · intro hinj
    have hall : ((runs (StoragesInfoStream.built query_info context).remaining).filterMap
        (StoragesInfoStream.built query_info context).storageOfRun).Nodup := by
      apply nodup_filterMap_of_inj_on _ _ (List.Nodup.of_map _ hnd)
      intro x hx y hy hxy
      exact List.inj_on_of_nodup_map hnd hx hy
        (hinj _ (List.mem_map_of_mem _ hx) _ (List.mem_map_of_mem _ hy) hxy)
    exact ⟨List.Nodup.sublist hp1.sublist hall, List.Nodup.sublist hp2.sublist hall⟩

theorem built_storages_probe (query_info : SelectQueryInfo) (context : Context)
    (key : String × String) (st : IStorage)
    (h : (StoragesInfoStream.built query_info context).storages.at key = some st) :
    ∃ d, st.merge_tree = some d := by
  have hmem := mem_of_lookup _ _ _ h
  simp only [StoragesInfoStream.built, registeredStorages, List.mem_reverse, List.mem_map] at hmem
  obtain ⟨k1, hk1, hk1e⟩ := hmem
  have hst2 : st = k1.2.2 := (congrArg Prod.snd hk1e).symm
  obtain ⟨_, hk1t⟩ := mem_candidateKeys _ _ _ _ _ hk1
  obtain ⟨_, hm, _⟩ := mem_tablesOf _ _ _ _ _ hk1t
  cases hmt : st.merge_tree with
  | none =>
      rw [hst2] at hmt
      simp [hmt] at hm
  | some d => exact ⟨d, rfl⟩

theorem lockTable_threw_of_probe (lock : LockStructureForShare) (s : StoragesInfoStream)
    (hprobe : ∀ key st, s.storages.at key = some st → ∃ d, st.merge_tree = some d)
    (database table : String) (need : Bool) (att : List IStorage) (e : Exception)
    (h : s.lockTable lock database table need = (att, .threw (.exception e))) :
    ∃ st, att = [st] ∧ s.storages.at (database, table) = some st
      ∧ lock st false s.query_id s.settings.lock_acquire_timeout = .error e
      ∧ e.code ≠ ErrorCodes.TABLE_IS_DROPPED := by
  rcases lockTable_cases lock s database table need with ⟨_, h1⟩ | ⟨st, hat, h1⟩
  · rw [h1] at h
    cases h
  · rcases h1 with ⟨e1, hl, hc, h1⟩ | ⟨e1, hl, hc, h1⟩ | ⟨l, hl, hm, h1⟩ | ⟨l, d, hl, hm, h1⟩
    · rw [h1] at h; cases h
    · rw [h1] at h
      cases h
      exact ⟨st, rfl, hat, hl, hc⟩
    · obtain ⟨d, hd⟩ := hprobe _ _ hat
      rw [hm] at hd
      cases hd
    · rw [h1] at h; cases h

theorem next_exception_of_probe (lock : LockStructureForShare) (n : Nat) :
    ∀ s : StoragesInfoStream, s.rows - s.next_row = n →
      (∀ key st, s.storages.at key = some st → ∃ d, st.merge_tree = some d) →
      ∀ e, (s.next lock).outcome = .error (.exception e) →
        ∃ st ∈ (s.next lock).lock_attempts,
          lock st false s.query_id s.settings.lock_acquire_timeout = .error e
            ∧ e.code ≠ ErrorCodes.TABLE_IS_DROPPED := by
  induction n using Nat.strong_induction_on with
  | _ n ih =>
    intro s hn hprobe e hout
    by_cases hlt : s.next_row < s.rows
    · have hrun := currentRun_length s hlt
      rw [next_unfold, if_pos hlt] at hout ⊢
      cases hlk : s.lockTable lock (s.rowAt s.next_row).1 (s.rowAt s.next_row).2.1
        (s.currentRun.any (fun x => x.2.2 == 0)) with
      | mk att1 ex =>
          rw [hlk] at hout
          cases ex with
          | skipped =>
              simp only at hout ⊢
              obtain ⟨st, hst, h1⟩ := ih (s.rows - (s.next_row + s.currentRun.length)) (by omega)
                { s with next_row := s.next_row + s.currentRun.length } rfl hprobe e hout
              exact ⟨st, List.mem_append_right _ hst, h1⟩
          | returned info => simp at hout
          | threw t =>
              simp only at hout ⊢
              have ht : t = .exception e := by
                injection hout
              subst ht
              obtain ⟨st, hatt, _, hl, hc⟩ :=
                lockTable_threw_of_probe lock s hprobe _ _ _ _ _ hlk
              exact ⟨st, by rw [hatt]; exact List.mem_singleton_self _, hl, hc⟩
    · rw [next_at_end lock s hlt] at hout
      cases hout

theorem calls_exception_of_probe (lock : LockStructureForShare) (n : Nat) :
    ∀ s : StoragesInfoStream,
      (∀ key st, s.storages.at key = some st → ∃ d, st.merge_tree = some d) →
      ∀ r ∈ s.calls lock n, ∀ e, r.outcome = .error (.exception e) →
        ∃ st ∈ r.lock_attempts,
          lock st false s.query_id s.settings.lock_acquire_timeout = .error e
            ∧ e.code ≠ ErrorCodes.TABLE_IS_DROPPED := by
  induction n with
  | zero => intro s _ r hr; simp [StoragesInfoStream.calls] at hr
  | succ n ih =>
      intro s hprobe r hr e hout
      rw [StoragesInfoStream.calls, List.mem_cons] at hr
      rcases hr with hr | hr
      · subst hr
        exact next_exception_of_probe lock _ s rfl hprobe e hout
      · have heq := next_stream_eq lock s
        have hprobe' : ∀ key st, (s.next lock).stream.storages.at key = some st →
            ∃ d, st.merge_tree = some d := by
          rw [heq]
          exact hprobe
        have := ih (s.next lock).stream hprobe' r hr e hout
        rw [heq] at this
        exact this

/-- C17: every storage the constructor puts into `storages` passes the
`MergeTreeData` cast.  So on a stream it built the throw of "Unknown engine"
is never reached: whenever the second half of an iteration throws an
exception, and whenever any of a series of calls of `next` does, the
exception is the one `lockStructureForShare` threw for a storage of that
call, with a code other than TABLE_IS_DROPPED. -/
theorem unknown_engine_unreachable (query_info : SelectQueryInfo) (context : Context)
    (lock : LockStructureForShare) (s : StoragesInfoStream) (n : Nat)
    (hs : StoragesInfoStream.ctor query_info context = .ok s) :
    (∀ key st, s.storages.at key = some st → ∃ d, st.merge_tree = some d)
      ∧ (∀ database table need att e,
          s.lockTable lock database table need = (att, .threw (.exception e)) →
          ∃ st, att = [st] ∧ s.storages.at (database, table) = some st
            ∧ lock st false s.query_id s.settings.lock_acquire_timeout = .error e
            ∧ e.code ≠ ErrorCodes.TABLE_IS_DROPPED)
      ∧ ∀ r ∈ s.calls lock n, ∀ e, r.outcome = .error (.exception e) →
          ∃ st ∈ r.lock_attempts,
            lock st false s.query_id s.settings.lock_acquire_timeout = .error e
              ∧ e.code ≠ ErrorCodes.TABLE_IS_DROPPED := by
  rw [ctor_eq_built] at hs
  cases hs
  have hprobe := built_storages_probe query_info context
  exact ⟨hprobe, lockTable_threw_of_probe lock _ hprobe,
    calls_exception_of_probe lock n _ hprobe⟩

theorem next_not_out_of_range (lock : LockStructureForShare) (n : Nat) :
    ∀ s : StoragesInfoStream, s.rows - s.next_row = n →
      (∀ x ∈ s.remaining, (s.storages.at (x.1, x.2.1)).isSome = true) →
      (s.next lock).outcome ≠ .error .out_of_range := by
  induction n using Nat.strong_induction_on with
  | _ n ih =>
    intro s hn hreg hout
    by_cases hlt : s.next_row < s.rows
    · have hrun := currentRun_length s hlt
      have hhead : s.rowAt s.next_row ∈ s.remaining := by
        rw [remaining_eq_cons s hlt]
        exact List.mem_cons_self _ _
      have hsome := hreg _ hhead
      rw [next_unfold, if_pos hlt] at hout
      rcases lockTable_cases lock s (s.rowAt s.next_row).1 (s.rowAt s.next_row).2.1
        (s.currentRun.any (fun x => x.2.2 == 0)) with ⟨hat, _⟩ | ⟨st, _, h⟩
      · rw [hat] at hsome
        cases hsome
      · rcases h with ⟨e1, _, _, h⟩ | ⟨e1, _, _, h⟩ | ⟨l, _, _, h⟩ | ⟨l, d, _, _, h⟩
        · rw [h] at hout
          simp only at hout
          refine ih (s.rows - (s.next_row + s.currentRun.length)) (by omega)
            { s with next_row := s.next_row + s.currentRun.length } rfl ?_ hout
          intro x hx
          rw [remaining_advance] at hx
          exact hreg x (List.mem_of_mem_drop hx)
        · rw [h] at hout
          simp at hout
        · rw [h] at hout
          simp at hout
        · rw [h] at hout
          simp at hout
    · rw [next_at_end lock s hlt] at hout
      cases hout

theorem next_remaining_subset (lock : LockStructureForShare) (s : StoragesInfoStream)
    (x : String × String × Nat) (hx : x ∈ (s.next lock).stream.remaining) : x ∈ s.remaining := by
  obtain ⟨_, e2, _⟩ := next_stream_rows lock s
  rw [next_stream_eq lock s, mem_remaining_iff] at hx
  obtain ⟨i, h1, h2, h3⟩ := hx
  exact (mem_remaining_iff _ _).mpr ⟨i, le_trans e2 h1, h2, h3⟩

theorem calls_not_out_of_range (lock : LockStructureForShare) (n : Nat) :
    ∀ s : StoragesInfoStream,
      (∀ x ∈ s.remaining, (s.storages.at (x.1, x.2.1)).isSome = true) →
      ∀ r ∈ s.calls lock n, r.outcome ≠ .error .out_of_range := by
  induction n with
  | zero => intro s _ r hr; simp [StoragesInfoStream.calls] at hr
  | succ n ih =>
      intro s hreg r hr
      rw [StoragesInfoStream.calls, List.mem_cons] at hr
      rcases hr with hr | hr
      · subst hr
        exact next_not_out_of_range lock _ s rfl hreg
      · refine ih (s.next lock).stream ?_ r hr
        intro x hx
        have hx' := next_remaining_subset lock s x hx
        have := hreg x hx'
        rw [next_stream_eq lock s]
        exact this

/-- C18: with the predicate engine as a filter that only removes rows, every
database name that survives the first filter phase is a key of `databases`,
so the constructor returns a stream; every (database, table) pair of its rows
is a key of `storages`; and no call of `next` in a series of calls on that
stream throws `std::out_of_range`. -/
theorem lookups_never_fail (query_info : SelectQueryInfo) (context : Context)
    (lock : LockStructureForShare) (n : Nat) :
    (∀ name ∈ VirtualColumnUtils.filterDatabaseColumn query_info
          ((context.databases.filter (fun database => database.2.engine_name != "Lazy")).map
            (fun d => d.1)),
        (context.databases.at name).isSome = true)
      ∧ ∃ s, StoragesInfoStream.ctor query_info context = .ok s
          ∧ (∀ i, i < s.rows →
              (s.storages.at (s.database_column.getD i "", s.table_column.getD i "")).isSome
                = true)
          ∧ ∀ r ∈ s.calls lock n, r.outcome ≠ .error .out_of_range := by
  have hreg : ∀ x ∈ (StoragesInfoStream.built query_info context).remaining,
      ((StoragesInfoStream.built query_info context).storages.at (x.1, x.2.1)).isSome = true := by
    intro x hx
    obtain ⟨st, d, h, _⟩ := built_registered query_info context x hx
    rw [h]
    rfl
  refine ⟨survivingDatabases_at query_info context,
    StoragesInfoStream.built query_info context, ctor_eq_built query_info context, ?_,
    calls_not_out_of_range lock n _ hreg⟩
  intro i hi
  exact hreg _ ((mem_remaining_iff _ _).mpr ⟨i, Nat.zero_le _, hi, rfl⟩)

theorem addTable_unchecked (c1 c2 : Context) (n : String) (acc : Candidates × Nat)
    (entry : String × IStorage) :
    addTable c1 false n acc entry = addTable c2 false n acc entry := by
  simp [addTable]

theorem addDatabases_unchecked (c1 c2 : Context) (databases : Databases) :
    ∀ (names : List String) (c : Candidates) (offsets : List Nat),
      addDatabases c1 databases false names c offsets
        = addDatabases c2 databases false names c offsets := by
  intro names
  induction names with
  | nil => intro c offsets; rfl
  | cons n names ih =>
      intro c offsets
      rw [addDatabases, addDatabases]
      have hf : addTable c1 false n = addTable c2 false n := by
        funext acc entry
        exact addTable_unchecked c1 c2 n acc entry
      rw [hf]
      cases databases.at n with
      | none => rfl
      | some database => exact ih _ _

theorem expansion_unchecked (query_info : SelectQueryInfo) (context : Context)
    (granted_on : String → String → Bool) (h : context.show_tables_granted = true) :
    StoragesInfoStream.expansion query_info { context with show_tables_granted_on := granted_on }
      = StoragesInfoStream.expansion query_info context := by
  unfold StoragesInfoStream.expansion
  simp only [h, Bool.not_true]
  rw [addDatabases_unchecked _ context context.databases]

theorem candidateKeys_granted (context : Context) (names : List String)
    (k : String × String × IStorage)
    (hk : k ∈ candidateKeys context context.databases (!context.show_tables_granted) names)
    (h : context.show_tables_granted = false) :
    context.show_tables_granted_on k.1 k.2.1 = true := by
  obtain ⟨_, hk1⟩ := mem_candidateKeys _ _ _ _ _ hk
  obtain ⟨_, _, hg⟩ := mem_tablesOf _ _ _ _ _ hk1
  rw [h] at hg
  simpa using hg

theorem offsetsFrom_length (context : Context) (databases : Databases) (chk : Bool) :
    ∀ (names : List String) (start : Nat),
      (offsetsFrom context databases chk start names).length = names.length := by
  intro names
  induction names with
  | nil => intro start; rfl
  | cons n names ih => intro start; simp [offsetsFrom, ih]

theorem offsetsFrom_getD (context : Context) (databases : Databases) (chk : Bool) :
    ∀ (names : List String) (start i : Nat), i < names.length →
      (offsetsFrom context databases chk start names).getD i 0
        = (if i = 0 then start
            else (offsetsFrom context databases chk start names).getD (i - 1) 0)
          + 2 * (tablesOf context databases chk (names.getD i "")).length := by
  intro names
  induction names with
  | nil => intro start i hi; simp at hi
  | cons n names ih =>
      intro start i hi
      cases i with
      | zero => simp [offsetsFrom]
      | succ j =>
          have hj : j < names.length := by simpa using hi
          have := ih (start + 2 * (tablesOf context databases chk n).length) j hj
          rw [offsetsFrom]
          simp only [List.getD_cons_succ, Nat.add_sub_cancel, Nat.succ_ne_zero, if_false]
          rw [this]
          cases j with
          | zero => simp
          | succ k => simp

theorem length_flatMap_pair {α β : Type} (l : List α) (f g : α → β) :
    (l.flatMap (fun k => [f k, g k])).length = 2 * l.length := by
  induction l with
  | nil => rfl
  | cons a l ih =>
      rw [List.flatMap_cons, List.length_append, ih]
      simp only [List.length_cons, List.length_nil]
      omega

theorem candidateKeys_length (context : Context) (databases : Databases) (chk : Bool)
    (names : List String) :
    (candidateKeys context databases chk names).length
      = (names.map (fun n => (tablesOf context databases chk n).length)).sum := by
  induction names with
  | nil => rfl
  | cons n names ih =>
      rw [candidateKeys_cons, List.length_append, ih]
      simp

theorem zip_flatMap_pair {α β γ : Type} (l : List α) (f1 f2 : α → β) (g1 g2 : α → γ) :
    List.zip (l.flatMap (fun k => [f1 k, f2 k])) (l.flatMap (fun k => [g1 k, g2 k]))
      = l.flatMap (fun k => [(f1 k, g1 k), (f2 k, g2 k)]) := by
  induction l with
  | nil => rfl
  | cons a l ih => simp [ih]

/-- C15: at line 149 of the constructor `offsets` has one entry per surviving
database, each the entry before it (0 for the first) plus twice the number of
tables of that database that pass the cast and the access check.  The
replicated `database` column has twice the total number of such tables as its
length, as do the columns `table`, `engine` and `active`; it repeats each
database name over the rows of that database's tables, so that row by row the
database value is the database whose iteration emitted the table value, and a
database without such a table has no row. -/
theorem row_replication (query_info : SelectQueryInfo) (context : Context) (x : Expansion)
    (hx : StoragesInfoStream.expansion query_info context = .ok x) :
    x.rows = (VirtualColumnUtils.filterDatabaseColumn query_info
        ((context.databases.filter (fun database => database.2.engine_name != "Lazy")).map
          (fun d => d.1))).length
      ∧ x.offsets.length = x.rows
      ∧ (∀ i, i < x.rows →
          x.offsets.getD i 0
            = (if i = 0 then 0 else x.offsets.getD (i - 1) 0)
              + 2 * (tablesOf context context.databases (!context.show_tables_granted)
                  ((VirtualColumnUtils.filterDatabaseColumn query_info
                    ((context.databases.filter
                      (fun database => database.2.engine_name != "Lazy")).map
                        (fun d => d.1))).getD i "")).length)
      ∧ x.block_to_filter.database.length
          = 2 * ((VirtualColumnUtils.filterDatabaseColumn query_info
              ((context.databases.filter (fun database => database.2.engine_name != "Lazy")).map
                (fun d => d.1))).map
              (fun n => (tablesOf context context.databases (!context.show_tables_granted)
                n).length)).sum
      ∧ (x.block_to_filter.table.length = x.block_to_filter.database.length
          ∧ x.block_to_filter.engine.length = x.block_to_filter.database.length
          ∧ x.block_to_filter.active.length = x.block_to_filter.database.length)
      ∧ x.block_to_filter.database
          = (VirtualColumnUtils.filterDatabaseColumn query_info
              ((context.databases.filter (fun database => database.2.engine_name != "Lazy")).map
                (fun d => d.1))).flatMap
              (fun n => List.replicate
                (2 * (tablesOf context context.databases (!context.show_tables_granted)
                  n).length) n)
      ∧ List.zip x.block_to_filter.database x.block_to_filter.table
          = (VirtualColumnUtils.filterDatabaseColumn query_info
              ((context.databases.filter (fun database => database.2.engine_name != "Lazy")).map
                (fun d => d.1))).flatMap
              (fun n => (tablesOf context context.databases (!context.show_tables_granted)
                n).flatMap (fun entry => [(n, entry.1), (n, entry.1)])) := by
  rw [expansion_eq_built] at hx
  cases hx
  have hnames : VirtualColumnUtils.filterDatabaseColumn query_info
      ((context.databases.filter (fun database => database.2.engine_name != "Lazy")).map
        (fun d => d.1)) = survivingDatabases query_info context := rfl
  rw [hnames]
  have hdb : (Expansion.built query_info context).block_to_filter.database.length
      = 2 * (candidateKeys context context.databases (!context.show_tables_granted)
          (survivingDatabases query_info context)).length :=
    length_flatMap_pair _ _ _
  refine ⟨rfl, offsetsFrom_length _ _ _ _ _, ?_, ?_, ⟨?_, ?_, ?_⟩, ?_, ?_⟩
  · intro i hi
    exact offsetsFrom_getD _ _ _ _ 0 i hi
  · rw [hdb, candidateKeys_length]
  · rw [hdb]
    exact length_flatMap_pair _ _ _
  · rw [hdb]
    exact length_flatMap_pair _ _ _
  · rw [hdb]
    exact length_flatMap_pair _ (fun _ => 0) (fun _ => 1)
  · exact (replicated_database_column _ _ _ _).symm
  · simp only [Expansion.built]
    rw [zip_flatMap_pair]
    simp only [candidateKeys, List.flatMap_assoc, List.flatMap_map]

theorem built_storages_iff (query_info : SelectQueryInfo) (context : Context)
    (key : String × String) :
    ((Expansion.built query_info context).storages.at key).isSome = true
      ↔ ∃ k ∈ candidateKeys context context.databases (!context.show_tables_granted)
            (survivingDatabases query_info context), (k.1, k.2.1) = key := by
  constructor
  · intro h
    obtain ⟨st, hst⟩ := Option.isSome_iff_exists.mp h
    have hmem := mem_of_lookup _ _ _ hst
    simp only [Expansion.built, registeredStorages, List.mem_reverse, List.mem_map] at hmem
    obtain ⟨k, hk, hke⟩ := hmem
    exact ⟨k, hk, congrArg Prod.fst hke⟩
  · rintro ⟨k, hk, rfl⟩
    apply lookup_isSome_of_mem
    simp only [Expansion.built, registeredStorages, List.map_reverse, List.mem_reverse,
      List.map_map, List.mem_map]
    exact ⟨k, hk, rfl⟩

theorem mem_candidateRows_iff (context : Context) (names : List String)
    (key : String × String) :
    (∃ r ∈ candidateRows context context.databases (!context.show_tables_granted) names,
        (r.1, r.2.1) = key)
      ↔ ∃ k ∈ candidateKeys context context.databases (!context.show_tables_granted) names,
          (k.1, k.2.1) = key := by
  simp only [candidateRows, List.mem_flatMap, syntheticRows, List.mem_cons, List.mem_singleton,
    List.not_mem_nil, or_false]
  constructor
  · rintro ⟨r, ⟨k, hk, hr | hr⟩, h⟩ <;> exact ⟨k, hk, by rw [← h, hr]⟩
  · rintro ⟨k, hk, h⟩
    exact ⟨_, ⟨k, hk, Or.inl rfl⟩, h⟩

theorem candidateKeys_kept (query_info : SelectQueryInfo) (context : Context)
    (database table : String) (database_ptr : IDatabase) (storage : IStorage)
    (hn : database ∈ survivingDatabases query_info context)
    (hat : context.databases.at database = some database_ptr)
    (hmem : (table, storage) ∈ database_ptr.tables)
    (hcast : storage.merge_tree.isNone = false)
    (hgrant : context.show_tables_granted = true
      ∨ context.show_tables_granted_on database table = true) :
    (database, table, storage) ∈ candidateKeys context context.databases
      (!context.show_tables_granted) (survivingDatabases query_info context) := by
  simp only [candidateKeys, List.mem_flatMap, List.mem_map]
  refine ⟨database, hn, (table, storage), ?_, rfl⟩
  simp only [tablesOf, hat, candidateTables, List.mem_filter]
  refine ⟨hmem, ?_⟩
  simp only [hcast]
  rcases hgrant with h | h <;> simp [h]

theorem mem_runs_of_mem (l : List (String × String × Nat)) (x : String × String × Nat)
    (h : x ∈ l) : ∃ run ∈ runs l, x ∈ run := by
  have hf := runs_flatten _ l rfl
  rw [← hf, List.mem_flatten] at h
  exact h

theorem readAll_yields (lock : LockStructureForShare) (s : StoragesInfoStream)
    (x : String × String × Nat) (hx : x ∈ s.remaining)
    (hth : (StorageSystemPartsBase.readAll lock s).thrown = none)
    (hlock : ∀ st, s.storages.at (x.1, x.2.1) = some st →
      ∃ holder, lock st false s.query_id s.settings.lock_acquire_timeout = .ok holder)
    (hreg : (s.storages.at (x.1, x.2.1)).isSome = true) :
    ∃ info ∈ (StorageSystemPartsBase.readAll lock s).infos,
      (info.database, info.table) = (x.1, x.2.1) := by
  obtain ⟨b1, b2, _⟩ := readAll_infos_eq lock s
  rw [b2] at hth
  have hg := describeRuns_granted lock s _ (fun run hrun => (mem_runs_key _ run hrun).1) hth
  obtain ⟨run, hrun, hxr⟩ := mem_runs_of_mem _ x hx
  have hkey := (mem_runs_key _ run hrun).2 x hxr
  have hgr : s.lockGranted lock run = true := by
    unfold StoragesInfoStream.lockGranted StoragesInfoStream.storageOfRun
    rw [← hkey]
    cases hst : s.storages.at (x.1, x.2.1) with
    | none => rw [hst] at hreg; cases hreg
    | some st =>
        obtain ⟨holder, hh⟩ := hlock st hst
        simp only [hh]
  have hm : runKey run ∈ ((runs s.remaining).filter (s.lockGranted lock)).map runKey :=
    List.mem_map.mpr ⟨run, List.mem_filter.mpr ⟨hrun, hgr⟩, rfl⟩
  rw [← hg, List.mem_map] at hm
  obtain ⟨info, hinfo, he⟩ := hm
  rw [← b1] at hinfo
  exact ⟨info, hinfo, by rw [he, hkey]⟩

/-- C12: authorization is an ordinary filter of the constructor.  The constructor
returns for every answer of the access oracle.  When the global SHOW_TABLES
grant is absent, a table for which the per-table check answers no has no row
in the block handed to the second filter phase, no entry in `storages`, no
row in the stream and no descriptor in the pass.  When the global grant is
present, the outcome of the constructor is the same for every per-table
oracle: the per-table check is not consulted.  No other table is left out for
lack of a grant: a table of a database that survived the first filter phase
that passes the `MergeTreeData` cast, and that is covered by the global grant
or by its per-table grant, has both synthetic rows in the block and an entry
in `storages`; each of its rows that the predicate accepts is a row of the
stream, and when its lock is granted a pass that does not throw yields its
descriptor.  Every row of the block belongs to a table that the global grant
or its per-table grant covers. -/
theorem authorization_is_filter (query_info : SelectQueryInfo) (context : Context)
    (lock : LockStructureForShare) (database table : String)
    (granted_on : String → String → Bool) (x : Expansion) (s : StoragesInfoStream)
    (hx : StoragesInfoStream.expansion query_info context = .ok x)
    (hs : StoragesInfoStream.ctor query_info context = .ok s) :
    (∀ (granted : Bool) (oracle : String → String → Bool),
        ∃ x1 s1,
          StoragesInfoStream.expansion query_info
              { context with show_tables_granted := granted, show_tables_granted_on := oracle }
            = .ok x1
          ∧ StoragesInfoStream.ctor query_info
              { context with show_tables_granted := granted, show_tables_granted_on := oracle }
            = .ok s1)
      ∧ (context.show_tables_granted = false →
          context.show_tables_granted_on database table = false →
          (∀ r ∈ x.block_to_filter.toRows, (r.1, r.2.1) ≠ (database, table))
            ∧ x.storages.at (database, table) = none
            ∧ s.storages.at (database, table) = none
            ∧ (∀ i, i < s.rows →
                (s.database_column.getD i "", s.table_column.getD i "") ≠ (database, table))
            ∧ ∀ info ∈ (StorageSystemPartsBase.readAll lock s).infos,
                (info.database, info.table) ≠ (database, table))
      ∧ (context.show_tables_granted = true →
          StoragesInfoStream.expansion query_info
              { context with show_tables_granted_on := granted_on } = .ok x
            ∧ StoragesInfoStream.ctor query_info
              { context with show_tables_granted_on := granted_on } = .ok s)
      ∧ (∀ (database_ptr : IDatabase) (storage : IStorage),
          database ∈ VirtualColumnUtils.filterDatabaseColumn query_info
            ((context.databases.filter (fun d => d.2.engine_name != "Lazy")).map
              (fun d => d.1)) →
          context.databases.at database = some database_ptr →
          (table, storage) ∈ database_ptr.tables →
          storage.merge_tree.isNone = false →
          (context.show_tables_granted = true
            ∨ context.show_tables_granted_on database table = true) →
          (database, table, storage.name, 0) ∈ x.block_to_filter.toRows
            ∧ (database, table, storage.name, 1) ∈ x.block_to_filter.toRows
            ∧ (x.storages.at (database, table)).isSome = true
            ∧ (s.storages.at (database, table)).isSome = true
            ∧ ∀ active, (active = 0 ∨ active = 1) →
                query_info.full database table storage.name active = true →
                (∃ i, i < s.rows
                    ∧ (s.database_column.getD i "", s.table_column.getD i "",
                        s.active_column.getD i 0) = (database, table, active))
                  ∧ ((StorageSystemPartsBase.readAll lock s).thrown = none →
                      (∀ st, s.storages.at (database, table) = some st →
                        ∃ holder, lock st false s.query_id s.settings.lock_acquire_timeout
                          = .ok holder) →
                      ∃ info ∈ (StorageSystemPartsBase.readAll lock s).infos,
                        (info.database, info.table) = (database, table)))
      ∧ ∀ r ∈ x.block_to_filter.toRows,
          context.show_tables_granted = true
            ∨ context.show_tables_granted_on r.1 r.2.1 = true := by
  rw [expansion_eq_built] at hx
  rw [ctor_eq_built] at hs
  cases hx
  cases hs
  refine ⟨?_, ?_, ?_, ?_, ?_⟩
  · intro granted oracle
    exact ⟨_, _, expansion_eq_built query_info _, ctor_eq_built query_info _⟩
  · intro hg hd
    have hkeys : ∀ k ∈ candidateKeys context context.databases (!context.show_tables_granted)
        (survivingDatabases query_info context), (k.1, k.2.1) ≠ (database, table) := by
      intro k hk heq
      have := candidateKeys_granted context _ k hk hg
      simp only [Prod.mk.injEq] at heq
      rw [heq.1, heq.2, hd] at this
      cases this
    have hstor : (registeredStorages query_info context).at (database, table) = none := by
      cases hat : (registeredStorages query_info context).at (database, table) with
      | none => rfl
      | some st =>
          have hmem := mem_of_lookup _ _ _ hat
          simp only [registeredStorages, List.mem_reverse, List.mem_map] at hmem
          obtain ⟨k, hk, hke⟩ := hmem
          exact absurd (congrArg Prod.fst hke) (hkeys k hk)
    have hrem : ∀ x ∈ (StoragesInfoStream.built query_info context).remaining,
        (x.1, x.2.1) ≠ (database, table) := by
      intro x hx
      rw [built_remaining, List.mem_map] at hx
      obtain ⟨r, hr, rfl⟩ := hx
      obtain ⟨_, k, hk, h1, h2, _⟩ := mem_survivingRows query_info context r hr
      simp only
      rw [h1, h2]
      exact hkeys k hk
    refine ⟨?_, hstor, hstor, ?_, ?_⟩
    · intro r hr
      rw [built_toRows] at hr
      simp only [candidateRows, List.mem_flatMap, syntheticRows, List.mem_cons,
        List.mem_singleton, List.not_mem_nil, or_false] at hr
      obtain ⟨k, hk, hr | hr⟩ := hr <;> rw [hr] <;> exact hkeys k hk
    · intro i hi
      exact hrem _ ((mem_remaining_iff _ _).mpr ⟨i, Nat.zero_le _, hi, rfl⟩)
    · intro info hinfo
      rw [(readAll_infos_eq lock _).1] at hinfo
      obtain ⟨r, tl, att, hrun, hlt⟩ := describeRuns_infos lock _ _ info hinfo
      obtain ⟨hdb, htb, _⟩ := lockTable_returned lock _ _ _ _ _ _ hlt
      obtain ⟨r1, tl1, e1, e2, _⟩ := mem_runs _ _ rfl _ hrun
      cases e1
      rw [hdb, htb]
      exact hrem r e2
  · intro hg
    have hexp := expansion_unchecked query_info context granted_on hg
    refine ⟨by rw [hexp]; exact expansion_eq_built query_info context, ?_⟩
    have hctor : StoragesInfoStream.ctor query_info
        { context with show_tables_granted_on := granted_on }
        = StoragesInfoStream.ctor query_info context := by
      unfold StoragesInfoStream.ctor
      rw [hexp]
    rw [hctor]
    exact ctor_eq_built query_info context
  · intro database_ptr storage hn hat hmem hcast hgrant
    have hk := candidateKeys_kept query_info context database table database_ptr storage
      hn hat hmem hcast hgrant
    have hrow : ∀ active, (active = 0 ∨ active = 1) →
        (database, table, storage.name, active)
          ∈ candidateRows context context.databases (!context.show_tables_granted)
              (survivingDatabases query_info context) := by
      intro active ha
      simp only [candidateRows, List.mem_flatMap, syntheticRows, List.mem_cons,
        List.mem_singleton, List.not_mem_nil, or_false]
      refine ⟨_, hk, ?_⟩
      rcases ha with ha | ha <;> simp [ha]
    have hreg : ((StoragesInfoStream.built query_info context).storages.at
        (database, table)).isSome = true :=
      (built_storages_iff query_info context (database, table)).mpr ⟨_, hk, rfl⟩
    refine ⟨?_, ?_, ?_, hreg, ?_⟩
    · rw [built_toRows]; exact hrow 0 (Or.inl rfl)
    · rw [built_toRows]; exact hrow 1 (Or.inr rfl)
    · exact (built_storages_iff query_info context (database, table)).mpr ⟨_, hk, rfl⟩
    · intro active ha hfull
      have hsr : (database, table, storage.name, active) ∈ survivingRows query_info context :=
        List.mem_filter.mpr ⟨hrow active ha, hfull⟩
      have hrem : (database, table, active)
          ∈ (StoragesInfoStream.built query_info context).remaining := by
        rw [built_remaining, List.mem_map]
        exact ⟨_, hsr, rfl⟩
      refine ⟨?_, ?_⟩
      · obtain ⟨i, _, hi, he⟩ := (mem_remaining_iff _ _).mp hrem
        exact ⟨i, hi, he⟩
      · intro hth hlock
        exact readAll_yields lock _ (database, table, active) hrem hth hlock hreg
  · intro r hr
    rw [built_toRows] at hr
    simp only [candidateRows, List.mem_flatMap, syntheticRows, List.mem_cons,
      List.mem_singleton, List.not_mem_nil, or_false] at hr
    obtain ⟨k, hk, hr⟩ := hr
    have hk1 := (mem_candidateKeys _ _ _ _ _ hk).2
    obtain ⟨_, _, hg⟩ := mem_tablesOf _ _ _ _ _ hk1
    have hkey : (r.1, r.2.1) = (k.1, k.2.1) := by
      rcases hr with hr | hr <;> rw [hr]
    simp only [Prod.mk.injEq] at hkey
    rw [hkey.1, hkey.2]
    cases h1 : context.show_tables_granted with
    | true => exact Or.inl rfl
    | false =>
        rw [h1] at hg
        right
        simpa using hg

/-- C16: at line 149 of the constructor the rows of `block_to_filter` are, for each
database name that survived the first filter phase, in order, and each table
of that database, in iteration order, that passes the `MergeTreeData` cast and
the access check, the row (database, table, engine name, 0) followed by the
row (database, table, engine name, 1), and nothing else; no column is longer
than the rows.  A pair is a key of `storages` exactly when it has a row, and
the storage bound to it passes the cast.  Every row belongs to a database
whose engine is not "Lazy"; when database names are distinct, a database with
the engine "Lazy" has no row and no entry in `storages`. -/
theorem candidate_expansion_exact (query_info : SelectQueryInfo) (context : Context)
    (x : Expansion) (hx : StoragesInfoStream.expansion query_info context = .ok x) :
    x.block_to_filter.toRows
        = (VirtualColumnUtils.filterDatabaseColumn query_info
            ((context.databases.filter (fun database => database.2.engine_name != "Lazy")).map
              (fun d => d.1))).flatMap
            (fun n =>
              (match context.databases.at n with
                | some database =>
                    database.tables.filter (fun (entry : String × IStorage) =>
                      !entry.2.merge_tree.isNone
                        && !(!context.show_tables_granted
                              && !context.show_tables_granted_on n entry.1))
                | none => ([] : List (String × IStorage))).flatMap
                (fun entry => [(n, entry.1, entry.2.name, 0), (n, entry.1, entry.2.name, 1)]))
      ∧ x.block_to_filter.toRows.length = x.block_to_filter.database.length
      ∧ (∀ key, (x.storages.at key).isSome = true
          ↔ ∃ r ∈ x.block_to_filter.toRows, (r.1, r.2.1) = key)
      ∧ (∀ key st, x.storages.at key = some st → ∃ d, st.merge_tree = some d)
      ∧ (∀ r ∈ x.block_to_filter.toRows,
          ∃ d ∈ context.databases, d.1 = r.1 ∧ d.2.engine_name ≠ "Lazy")
      ∧ (context.databases.WellFormed →
          ∀ d ∈ context.databases, d.2.engine_name = "Lazy" →
            (∀ r ∈ x.block_to_filter.toRows, r.1 ≠ d.1)
              ∧ ∀ t, x.storages.at (d.1, t) = none) := by
  rw [expansion_eq_built] at hx
  cases hx
  have hrows := built_toRows query_info context
  have hdbrow : ∀ r ∈ (Expansion.built query_info context).block_to_filter.toRows,
      ∃ d ∈ context.databases, d.1 = r.1 ∧ d.2.engine_name ≠ "Lazy" := by
    intro r hr
    rw [hrows] at hr
    simp only [candidateRows, List.mem_flatMap, syntheticRows, List.mem_cons,
      List.mem_singleton, List.not_mem_nil, or_false] at hr
    obtain ⟨k, hk, hr⟩ := hr
    obtain ⟨hn, _⟩ := mem_candidateKeys _ _ _ _ _ hk
    obtain ⟨_, d, hd, h1, h2⟩ := mem_survivingDatabases query_info context _ hn
    refine ⟨d, hd, ?_, h2⟩
    rcases hr with hr | hr <;> rw [hr] <;> exact h1
  have hiff : ∀ key, ((Expansion.built query_info context).storages.at key).isSome = true
      ↔ ∃ r ∈ (Expansion.built query_info context).block_to_filter.toRows,
          (r.1, r.2.1) = key := by
    intro key
    rw [hrows, mem_candidateRows_iff, built_storages_iff]
  refine ⟨?_, ?_, hiff, ?_, hdbrow, ?_⟩
  · rw [hrows]
    simp only [candidateRows, candidateKeys, List.flatMap_assoc, List.flatMap_map]
    rfl
  · rw [hrows]
    simp only [candidateRows, syntheticRows, Expansion.built]
    rw [length_flatMap_pair, length_flatMap_pair]
  · intro key st h
    exact built_storages_probe query_info context key st h
  · intro hwf d hd hlazy
    have hno : ∀ r ∈ (Expansion.built query_info context).block_to_filter.toRows,
        r.1 ≠ d.1 := by
      intro r hr heq
      obtain ⟨d1, hd1, h1, h2⟩ := hdbrow r hr
      have : d1 = d := List.inj_on_of_nodup_map hwf.1 hd1 hd (h1.trans heq)
      rw [this] at h2
      exact h2 hlazy
    refine ⟨hno, ?_⟩
    intro t
    cases hat : (Expansion.built query_info context).storages.at (d.1, t) with
    | none => rfl
    | some st =>
        have hs : ((Expansion.built query_info context).storages.at (d.1, t)).isSome = true := by
          rw [hat]; rfl
        obtain ⟨r, hr, hkey⟩ := (hiff _).mp hs
        exact absurd (congrArg Prod.fst hkey) (hno r hr)

/-- Scenario B at C11: for `active = 1` the descriptor of `d1.t1` has
`need_inactive_parts` unset and `getParts` returns its three Committed parts. -/
theorem active_only_predicate_witness :
    (∀ d t e, Scenario.activeOnly.full d t e 0 = false)
      ∧ StoragesInfoStream.ctor Scenario.activeOnly Scenario.context = .ok Scenario.streamB
      ∧ Scenario.infoB
          ∈ (StorageSystemPartsBase.readAll Scenario.lockGranted Scenario.streamB).infos
      ∧ Scenario.infoB.need_inactive_parts = false
      ∧ (Scenario.infoB.getParts true).1.length
          = Scenario.infoB.data.parts.countP (fun p => p.state == .Committed)
      ∧ Scenario.infoB.data.parts.countP (fun p => p.state == .Committed) = 3 :=
  ⟨fun _ _ _ => rfl, rfl, by decide,
    ((active_only_predicate Scenario.activeOnly Scenario.context Scenario.lockGranted
      Scenario.streamB (fun _ _ _ => rfl) rfl).2 Scenario.infoB (by decide)).1,
    (((active_only_predicate Scenario.activeOnly Scenario.context Scenario.lockGranted
      Scenario.streamB (fun _ _ _ => rfl) rfl).2 Scenario.infoB (by decide)).2 true).2.2,
    by decide⟩

/-- Scenario A at C13: three calls of `next` with a lock that times out try the lock
of `d1.t1` once. -/
theorem no_retries_witness :
    Scenario.context.databases.WellFormed
      ∧ StoragesInfoStream.ctor Scenario.tableIsT1 Scenario.context = .ok Scenario.streamA
      ∧ (Scenario.streamA.calls Scenario.lockTimeout 3).flatMap (fun r => r.lock_attempts)
          = [Scenario.t1]
      ∧ ((Scenario.streamA.calls Scenario.lockTimeout 3).flatMap
            (fun r => r.lock_attempts)).length ≤ (runs Scenario.streamA.remaining).length
      ∧ ((runs Scenario.streamA.remaining).map runKey).Nodup :=
  ⟨by decide, rfl, by decide,
    (no_retries Scenario.tableIsT1 Scenario.context Scenario.lockTimeout Scenario.streamA 3
      (by decide) rfl).2.2.1,
    (no_retries Scenario.tableIsT1 Scenario.context Scenario.lockTimeout Scenario.streamA 3
      (by decide) rfl).2.2.2.1⟩

/-- Scenario A at C15: one surviving database with one MergeTree table gives the
offsets `[2]` and columns of two rows. -/
theorem row_replication_witness :
    StoragesInfoStream.expansion Scenario.tableIsT1 Scenario.context = .ok Scenario.expansion
      ∧ Scenario.expansion.offsets = [2]
      ∧ Scenario.expansion.offsets.length = Scenario.expansion.rows
      ∧ (Scenario.expansion.block_to_filter.table.length
            = Scenario.expansion.block_to_filter.database.length
          ∧ Scenario.expansion.block_to_filter.engine.length
            = Scenario.expansion.block_to_filter.database.length
          ∧ Scenario.expansion.block_to_filter.active.length
            = Scenario.expansion.block_to_filter.database.length) :=
  ⟨rfl, rfl,
    (row_replication Scenario.tableIsT1 Scenario.context Scenario.expansion rfl).2.1,
    (row_replication Scenario.tableIsT1 Scenario.context Scenario.expansion rfl).2.2.2.2.1⟩

/-- Scenario A at C16: the table `t2`, which is not a `MergeTreeData`, has no row and
every key of `storages` is bound to a storage that passes the cast. -/
theorem candidate_expansion_exact_witness :
    StoragesInfoStream.expansion Scenario.tableIsT1 Scenario.context = .ok Scenario.expansion
      ∧ Scenario.expansion.block_to_filter.toRows
          = [("d1", "t1", "MergeTree", 0), ("d1", "t1", "MergeTree", 1)]
      ∧ Scenario.expansion.storages.at ("d1", "t2") = none
      ∧ ∀ key st, Scenario.expansion.storages.at key = some st → ∃ d, st.merge_tree = some d :=
  ⟨rfl, by decide, by decide,
    (candidate_expansion_exact Scenario.tableIsT1 Scenario.context Scenario.expansion
      rfl).2.2.2.1⟩

/-- Scenario A at C17: the exception of a call of `next` under a lock that times out
is the exception of the lock. -/
theorem unknown_engine_unreachable_witness :
    StoragesInfoStream.ctor Scenario.tableIsT1 Scenario.context = .ok Scenario.streamA
      ∧ (Scenario.streamA.next Scenario.lockTimeout).outcome
          = .error (.exception Scenario.timeout)
      ∧ ∀ key st, Scenario.streamA.storages.at key = some st → ∃ d, st.merge_tree = some d :=
  ⟨rfl, rfl,
    (unknown_engine_unreachable Scenario.tableIsT1 Scenario.context Scenario.lockTimeout
      Scenario.streamA 1 rfl).1⟩

/-- Scenario A at C19: the first call of `next` moves the cursor from 0 to `rows`. -/
theorem next_terminates_witness :
    Scenario.streamA.next_row ≤ Scenario.streamA.rows
      ∧ (Scenario.streamA.next Scenario.lockGranted).stream.next_row = 2
      ∧ ((Scenario.streamA.next Scenario.lockGranted).stream.rows = Scenario.streamA.rows
          ∧ Scenario.streamA.next_row
              ≤ (Scenario.streamA.next Scenario.lockGranted).stream.next_row
          ∧ (Scenario.streamA.next Scenario.lockGranted).stream.next_row
              ≤ Scenario.streamA.rows) :=
  ⟨by decide, by decide,
    (next_terminates Scenario.lockGranted Scenario.streamA (by decide)).2.2.1⟩

/-- Scenario A at C20: the pass yields the descriptor of the one run, `d1.t1`. -/
theorem descriptor_order_witness :
    (StorageSystemPartsBase.readAll Scenario.lockGranted Scenario.streamA).thrown = none
      ∧ (StorageSystemPartsBase.readAll Scenario.lockGranted Scenario.streamA).infos.map
          (fun info => (info.database, info.table)) = [("d1", "t1")]
      ∧ (StorageSystemPartsBase.readAll Scenario.lockGranted Scenario.streamA).infos.map
          (fun info => (info.database, info.table))
        = ((runs Scenario.streamA.remaining).filter
            (Scenario.streamA.lockGranted Scenario.lockGranted)).map runKey :=
  ⟨by decide, by decide,
    (descriptor_order Scenario.lockGranted Scenario.streamA (by decide)).1⟩

/-- Scenario A at C12 under three access oracles.  With the global grant and a
per-table check that answers no for every table, and also without the global
grant and with the per-table grant of `d1.t1`, the table `d1.t1` has both rows
in the block, an entry in `storages` and a descriptor in the pass.  Without
the global grant and with `d1.t1` denied, the constructor returns a stream
with no row and no entry in `storages`. -/
theorem authorization_is_filter_witness :
    (StoragesInfoStream.expansion Scenario.tableIsT1 Scenario.globalOnlyContext
          = .ok Scenario.expansion
        ∧ StoragesInfoStream.ctor Scenario.tableIsT1 Scenario.globalOnlyContext
          = .ok Scenario.streamA
        ∧ Scenario.globalOnlyContext.show_tables_granted_on "d1" "t1" = false
        ∧ ("d1", "t1", "MergeTree", 0) ∈ Scenario.expansion.block_to_filter.toRows
        ∧ ("d1", "t1", "MergeTree", 1) ∈ Scenario.expansion.block_to_filter.toRows
        ∧ (Scenario.expansion.storages.at ("d1", "t1")).isSome = true
        ∧ (Scenario.streamA.storages.at ("d1", "t1")).isSome = true
        ∧ ∃ info ∈ (StorageSystemPartsBase.readAll Scenario.lockGranted Scenario.streamA).infos,
            (info.database, info.table) = ("d1", "t1"))
      ∧ (StoragesInfoStream.expansion Scenario.tableIsT1 Scenario.perTableContext
            = .ok Scenario.expansion
          ∧ Scenario.perTableContext.show_tables_granted = false
          ∧ ("d1", "t1", "MergeTree", 0) ∈ Scenario.expansion.block_to_filter.toRows)
      ∧ (StoragesInfoStream.expansion Scenario.tableIsT1 Scenario.deniedContext
            = .ok Scenario.deniedExpansion
          ∧ StoragesInfoStream.ctor Scenario.tableIsT1 Scenario.deniedContext
            = .ok Scenario.deniedStream
          ∧ (∀ r ∈ Scenario.deniedExpansion.block_to_filter.toRows,
              (r.1, r.2.1) ≠ ("d1", "t1"))
          ∧ Scenario.deniedExpansion.storages.at ("d1", "t1") = none
          ∧ Scenario.deniedStream.storages.at ("d1", "t1") = none) := by
  have kept := (authorization_is_filter Scenario.tableIsT1 Scenario.globalOnlyContext
    Scenario.lockGranted "d1" "t1" (fun _ _ => true) Scenario.expansion Scenario.streamA
    rfl rfl).2.2.2.1 { engine_name := "Ordinary",
                       tables := [("t1", Scenario.t1), ("t2", Scenario.t2)] } Scenario.t1
    (by decide) rfl (by decide) rfl (Or.inl rfl)
  have perTable := (authorization_is_filter Scenario.tableIsT1 Scenario.perTableContext
    Scenario.lockGranted "d1" "t1" (fun _ _ => true) Scenario.expansion Scenario.streamA
    rfl rfl).2.2.2.1 { engine_name := "Ordinary",
                       tables := [("t1", Scenario.t1), ("t2", Scenario.t2)] } Scenario.t1
    (by decide) rfl (by decide) rfl (Or.inr rfl)
  have denied := (authorization_is_filter Scenario.tableIsT1 Scenario.deniedContext
    Scenario.lockGranted "d1" "t1" (fun _ _ => true) Scenario.deniedExpansion
    Scenario.deniedStream rfl rfl).2.1 rfl rfl
  exact ⟨⟨rfl, rfl, rfl, kept.1, kept.2.1, kept.2.2.1, kept.2.2.2.1,
      (kept.2.2.2.2 1 (Or.inr rfl) rfl).2 (by decide)
        (fun st _ => ⟨_, rfl⟩)⟩,
    ⟨rfl, rfl, perTable.1⟩,
    ⟨rfl, rfl, denied.1, denied.2.1, denied.2.2.1⟩⟩

end DB
